import Mathlib

/-!
# Verification of the stock-exchange matching engine

A shallow embedding of the exchange core of this repository
(`model.py`, `database.py`, `matching_engine.py`, `xml_handler.py`)
together with proofs of the specification claims about it.

Modelling conventions:
* Monetary values, prices, share amounts are Python floats in the source.
  Every numeric operation the modelled code performs on them is addition,
  subtraction, multiplication, `min`, `abs`, or a comparison, so they are
  modelled exactly over the integers (`Int`); no modelled code path
  divides or rounds.  Timestamps are modelled as natural numbers (the
  source only compares them).
* The per-symbol `heapq` priority queues (`buy_orders` / `sell_orders` in
  `MatchingEngine.__init__`) are modelled by their observable pop order:
  a list kept sorted by the Python tuple order on `(price_key, time, id)`.
  `heapq.heappush` becomes an ordered insertion, `heapq.heappop` takes the
  head, and the filter-plus-`heapify` in `remove_from_orderbook` becomes a
  plain filter (filtering preserves sortedness).
* SQLAlchemy sessions are modelled by threading an explicit `Exchange`
  state through the operations; `session.query(...).first()` becomes a
  first-match lookup, and in-place row mutation becomes first-match
  replacement.  The `Symbol` table has no effect observable by any claim
  and is not modelled.
-/

namespace StockExchange

/-- Row of the `accounts` table (`model.py`, class `Account`). -/
structure Account where
  id : String
  balance : Int
deriving Repr, DecidableEq

/-- Row of the `positions` table (`model.py`, class `Position`). -/
structure Position where
  account_id : String
  symbol_name : String
  amount : Int
deriving Repr, DecidableEq

/-- Row of the `orders` table (`model.py`, class `Order`).
`amount` is positive for buys and negative for sells; `open_shares`
is the unexecuted remainder (same sign convention); `created_at` is a
timestamp and `canceled_at` is the optional cancellation timestamp. -/
structure Order where
  id : Nat
  account_id : String
  symbol_name : String
  amount : Int
  limit_price : Int
  open_shares : Int
  created_at : Nat
  canceled_at : Option Nat
deriving Repr, DecidableEq

/-- Row of the `executions` table (`model.py`, class `Execution`).
The `executed_at` timestamp is not used by any claim and is omitted. -/
structure Execution where
  order_id : Nat
  shares : Int
  price : Int
deriving Repr, DecidableEq

/-- An order-book heap entry: `(price_key, created_at timestamp, order id)`
as pushed by `MatchingEngine.add_to_orderbook`. -/
abbrev BookKey := Int × Nat × Nat

/-- The Python tuple (lexicographic) order on heap entries, which governs
`heapq` pop order. -/
def keyLE (a b : BookKey) : Prop :=
  a.1 < b.1 ∨ (a.1 = b.1 ∧ (a.2.1 < b.2.1 ∨ (a.2.1 = b.2.1 ∧ a.2.2 ≤ b.2.2)))

instance : DecidableRel keyLE := fun a b => by
  unfold keyLE; exact inferInstance

instance : IsTotal BookKey keyLE := by
  constructor
  intro a b
  rcases lt_trichotomy a.1 b.1 with h1 | h1 | h1
  · exact Or.inl (Or.inl h1)
  · rcases lt_trichotomy a.2.1 b.2.1 with h2 | h2 | h2
    · exact Or.inl (Or.inr ⟨h1, Or.inl h2⟩)
    · rcases le_total a.2.2 b.2.2 with h3 | h3
      · exact Or.inl (Or.inr ⟨h1, Or.inr ⟨h2, h3⟩⟩)
      · exact Or.inr (Or.inr ⟨h1.symm, Or.inr ⟨h2.symm, h3⟩⟩)
    · exact Or.inr (Or.inr ⟨h1.symm, Or.inl h2⟩)
  · exact Or.inr (Or.inl h1)

instance : IsTrans BookKey keyLE := by
  constructor
  intro a b c hab hbc
  rcases hab with h1 | ⟨h1, h1'⟩
  · rcases hbc with h2 | ⟨h2, _⟩
    · exact Or.inl (h1.trans h2)
    · exact Or.inl (h2 ▸ h1)
  · rcases hbc with h2 | ⟨h2, h2'⟩
    · exact Or.inl (h1 ▸ h2)
    · refine Or.inr ⟨h1.trans h2, ?_⟩
      rcases h1' with h3 | ⟨h3, h3'⟩
      · rcases h2' with h4 | ⟨h4, _⟩
        · exact Or.inl (h3.trans h4)
        · exact Or.inl (h4 ▸ h3)
      · rcases h2' with h4 | ⟨h4, h4'⟩
        · exact Or.inl (h3 ▸ h4)
        · exact Or.inr ⟨h3.trans h4, h3'.trans h4'⟩

/-- The whole mutable state of one worker: the database tables plus the
in-memory per-symbol order books of the `MatchingEngine`.  `nextId` models
the monotonic order-id sequence assigned by the database. -/
structure Exchange where
  accounts : List Account
  positions : List Position
  orders : List Order
  executions : List Execution
  buyBooks : List (String × List BookKey)
  sellBooks : List (String × List BookKey)
  nextId : Nat
deriving Repr, DecidableEq

/-- `defaultdict(list)` lookup: the book list of a symbol, `[]` if absent. -/
def getBook (books : List (String × List BookKey)) (sym : String) : List BookKey :=
  match books.find? (fun p => p.1 == sym) with
  | some p => p.2
  | none => []

/-- Store a symbol's book list (update-in-place or create, as a
`defaultdict` assignment does). -/
def setBook : List (String × List BookKey) → String → List BookKey →
    List (String × List BookKey)
  | [], sym, l => [(sym, l)]
  | p :: rest, sym, l =>
    if p.1 == sym then (sym, l) :: rest else p :: setBook rest sym l

/-- Buy-side heap key: `(-price, timestamp, order_id)`
(`add_to_orderbook`, buy branch). -/
def buyKey (o : Order) : BookKey := (-o.limit_price, o.created_at, o.id)

/-- Sell-side heap key: `(price, timestamp, order_id)`
(`add_to_orderbook`, sell branch). -/
def sellKey (o : Order) : BookKey := (o.limit_price, o.created_at, o.id)

/-- `MatchingEngine.add_to_orderbook`: push the order's key onto the
buy heap if `order.amount > 0`, else onto the sell heap. -/
def addToOrderbook (ex : Exchange) (o : Order) : Exchange :=
  if 0 < o.amount then
    let b := List.orderedInsert keyLE (buyKey o) (getBook ex.buyBooks o.symbol_name)
    { ex with buyBooks := setBook ex.buyBooks o.symbol_name b }
  else
    let b := List.orderedInsert keyLE (sellKey o) (getBook ex.sellBooks o.symbol_name)
    { ex with sellBooks := setBook ex.sellBooks o.symbol_name b }

/-- `MatchingEngine.remove_from_orderbook`: filter the given order id out
of the side's heap (the source re-heapifies, which the sorted-list model
renders as a plain filter). -/
def removeFromOrderbook (ex : Exchange) (orderId : Nat) (sym : String)
    (isBuy : Bool) : Exchange :=
  if isBuy then
    let b := (getBook ex.buyBooks sym).filter (fun k => k.2.2 != orderId)
    { ex with buyBooks := setBook ex.buyBooks sym b }
  else
    let b := (getBook ex.sellBooks sym).filter (fun k => k.2.2 != orderId)
    { ex with sellBooks := setBook ex.sellBooks sym b }

/-- `Database.get_order`: first row with the given id. -/
def getOrder (ex : Exchange) (orderId : Nat) : Option Order :=
  ex.orders.find? (fun o => o.id == orderId)

/-- Replace the first order row with the id of `o'` by `o'`
(in-place mutation of the row object found by a query). -/
def setOrder : List Order → Order → List Order
  | [], _ => []
  | o :: rest, o' => if o.id == o'.id then o' :: rest else o :: setOrder rest o'

/-- Add `d` to the balance of the first account row with the given id;
no-op when the account is absent (`Database.update_account_balance`). -/
def addToBalance : List Account → String → Int → List Account
  | [], _, _ => []
  | a :: rest, accountId, d =>
    if a.id == accountId then { a with balance := a.balance + d } :: rest
    else a :: addToBalance rest accountId d

/-- Add `d` to the first position row for `(accountId, sym)`. -/
def addToPosition : List Position → String → String → Int → List Position
  | [], _, _, _ => []
  | p :: rest, accountId, sym, d =>
    if p.account_id == accountId && p.symbol_name == sym then
      { p with amount := p.amount + d } :: rest
    else p :: addToPosition rest accountId sym d

/-- `session.query(Account).filter_by(id=...).first()`. -/
def lookupAccount (ex : Exchange) (accountId : String) : Option Account :=
  ex.accounts.find? (fun a => a.id == accountId)

/-- `session.query(Position).filter_by(account_id=..., symbol_name=...).first()`. -/
def lookupPosition (ex : Exchange) (accountId sym : String) : Option Position :=
  ex.positions.find? (fun p => p.account_id == accountId && p.symbol_name == sym)

/-- `Database.update_position`: add to an existing position or create it. -/
def updatePosition (ex : Exchange) (accountId sym : String) (d : Int) : Exchange :=
  match lookupPosition ex accountId sym with
  | some _ => { ex with positions := addToPosition ex.positions accountId sym d }
  | none => { ex with positions := ex.positions ++ [⟨accountId, sym, d⟩] }

/-- `Database.update_account_balance`. -/
def updateAccountBalance (ex : Exchange) (accountId : String) (d : Int) : Exchange :=
  { ex with accounts := addToBalance ex.accounts accountId d }

/-- `Database.execute_order_part`: cap the shares at the order's open
shares, move `open_shares` toward zero, and append an execution record
(`Database.record_execution`).  Returns `false` (no change) when the
capped share count is not positive. -/
def executeOrderPart (ex : Exchange) (orderId : Nat) (shares price : Int) :
    Exchange × Bool :=
  match getOrder ex orderId with
  | none => (ex, false)
  | some o =>
    let executeShares := min |shares| |o.open_shares|
    if executeShares ≤ 0 then (ex, false)
    else
      let o' := if 0 < o.amount then { o with open_shares := o.open_shares - executeShares }
                else { o with open_shares := o.open_shares + executeShares }
      ({ ex with orders := setOrder ex.orders o',
                 executions := ex.executions ++ [⟨o.id, executeShares, price⟩] }, true)

/-- `order.amount > 0` — the buy/sell test used throughout `match_orders`
and `place_order`. -/
def orderIsBuy (o : Order) : Bool := decide (0 < o.amount)

/-- The book side of a symbol (`buy_orders[symbol]` / `sell_orders[symbol]`). -/
def bookFor (ex : Exchange) (sym : String) (isBuy : Bool) : List BookKey :=
  if isBuy then getBook ex.buyBooks sym else getBook ex.sellBooks sym

/-- The opposite-side book `match_orders` matches a new order against. -/
def oppositeBookOf (ex : Exchange) (o : Order) : List BookKey :=
  bookFor ex o.symbol_name (!orderIsBuy o)

/-- The current `open_shares` of the row with the given id (`0` when the
row is absent). -/
def openSharesOf (ex : Exchange) (orderId : Nat) : Int :=
  match getOrder ex orderId with
  | some o => o.open_shares
  | none => 0

/-- The price-compatibility test of `match_orders`
(`new_price >= opposite_price` for buys, `new_price <= opposite_price`
for sells). -/
def priceCompatible (isBuy : Bool) (newLimit oppLimit : Int) : Bool :=
  if isBuy then decide (oppLimit ≤ newLimit) else decide (newLimit ≤ oppLimit)

/-- The body of one fill inside the `match_orders` loop
(`matching_engine.py` lines 132-164): record an execution against the new
order and the opposite order at the shared execution price, credit the
buyer's position, credit the seller's balance. -/
def matchFill (ex : Exchange) (o : Order) (isBuy : Bool) (opp : Order)
    (executable : Int) : Exchange :=
  let execPrice := if opp.created_at < o.created_at then opp.limit_price else o.limit_price
  let buyerId := if isBuy then o.account_id else opp.account_id
  let sellerId := if isBuy then opp.account_id else o.account_id
  let ex1 := (executeOrderPart ex o.id executable execPrice).1
  let ex2 := (executeOrderPart ex1 opp.id executable execPrice).1
  let ex3 := updatePosition ex2 buyerId o.symbol_name executable
  updateAccountBalance ex3 sellerId (execPrice * executable)

/-- Trace of what the `match_orders` loop did with each popped heap entry:
skipped as stale (row missing / fully executed / canceled), stopped on a
price-incompatible entry, filled some shares at a price, or skipped a
non-positive executable amount. -/
inductive MatchEvent where
  | stale (k : BookKey)
  | incompatible (k : BookKey)
  | fill (k : BookKey) (shares price : Int)
  | skipZero (k : BookKey)
deriving Repr, DecidableEq

/-- The key an event was produced from. -/
def MatchEvent.key : MatchEvent → BookKey
  | .stale k => k
  | .incompatible k => k
  | .fill k _ _ => k
  | .skipZero k => k

/-- The `while temp_heap and remaining_shares > 0` loop of
`match_orders` (lines 90-179), processing a fixed snapshot of the
opposite-side heap in pop order.  Returns the final state, the remaining
share count, the accumulated `matched_order_ids`, and the event trace. -/
def matchLoop (o : Order) (isBuy : Bool) :
    Exchange → List BookKey → Int → List Nat →
    Exchange × Int × List Nat × List MatchEvent
  | ex, [], remaining, matched => (ex, remaining, matched, [])
  | ex, k :: rest, remaining, matched =>
    if remaining ≤ 0 then (ex, remaining, matched, [])
    else
      match getOrder ex k.2.2 with
      | none =>
        let r := matchLoop o isBuy
          (removeFromOrderbook ex k.2.2 o.symbol_name (!isBuy)) rest remaining matched
        (r.1, r.2.1, r.2.2.1, .stale k :: r.2.2.2)
      | some opp =>
        if opp.open_shares = 0 ∨ opp.canceled_at ≠ none then
          let r := matchLoop o isBuy
            (removeFromOrderbook ex k.2.2 o.symbol_name (!isBuy)) rest remaining matched
          (r.1, r.2.1, r.2.2.1, .stale k :: r.2.2.2)
        else if ¬ priceCompatible isBuy o.limit_price opp.limit_price then
          (ex, remaining, matched, [.incompatible k])
        else
          let executable := min remaining |opp.open_shares|
          if executable ≤ 0 then
            let r := matchLoop o isBuy ex rest remaining matched
            (r.1, r.2.1, r.2.2.1, .skipZero k :: r.2.2.2)
          else
            let execPrice := if opp.created_at < o.created_at then opp.limit_price
                             else o.limit_price
            let ex4 := matchFill ex o isBuy opp executable
            let matched' := if openSharesOf ex4 opp.id = 0 then matched ++ [opp.id]
                            else matched
            let r := matchLoop o isBuy ex4 rest (remaining - executable) matched'
            (r.1, r.2.1, r.2.2.1, .fill k executable execPrice :: r.2.2.2)

/-- `MatchingEngine.match_orders` (the state effect plus its event trace):
if the opposite book is empty the new order is booked immediately;
otherwise the loop runs over a snapshot of the opposite heap, fully
matched opposite ids are removed from the book, and the new order is
booked iff it still has open shares. -/
def matchOrders (ex : Exchange) (o : Order) : Exchange × List MatchEvent :=
  let isBuy := orderIsBuy o
  let book := oppositeBookOf ex o
  if book.isEmpty then
    (addToOrderbook ex o, [])
  else
    let r := matchLoop o isBuy ex book |o.open_shares| []
    let ex2 := r.2.2.1.foldl
      (fun e oid => removeFromOrderbook e oid o.symbol_name (!isBuy)) r.1
    let ex3 := if openSharesOf ex2 o.id ≠ 0 then addToOrderbook ex2 o else ex2
    (ex3, r.2.2.2)

/-- `Database.create_order`: insert a fresh order row with
`open_shares = amount` and the next monotonic id. -/
def createOrder (ex : Exchange) (accountId sym : String)
    (amount limitPrice : Int) (now : Nat) : Exchange × Order :=
  let o : Order := ⟨ex.nextId, accountId, sym, amount, limitPrice, amount, now, none⟩
  ({ ex with orders := ex.orders ++ [o], nextId := ex.nextId + 1 }, o)

/-- `MatchingEngine.place_order`: validate and reserve (buy: funds at
`amount * limit_price`; sell: shares at `|amount|`), insert the order,
run matching.  Returns the final state, the success flag, the error
message, and the new order id. -/
def placeOrder (ex : Exchange) (accountId sym : String)
    (amount limitPrice : Int) (now : Nat) :
    Exchange × Bool × Option String × Option Nat :=
  match lookupAccount ex accountId with
  | none => (ex, false, some "Account not found", none)
  | some account =>
    if 0 < amount then
      let cost := amount * limitPrice
      if account.balance < cost then (ex, false, some "Insufficient funds", none)
      else
        let ex1 := { ex with accounts := addToBalance ex.accounts accountId (-cost) }
        let p := createOrder ex1 accountId sym amount limitPrice now
        ((matchOrders p.1 p.2).1, true, none, some p.2.id)
    else
      match lookupPosition ex accountId sym with
      | none => (ex, false, some "Insufficient shares", none)
      | some position =>
        if position.amount < |amount| then (ex, false, some "Insufficient shares", none)
        else
          let ex1 := { ex with positions := addToPosition ex.positions accountId sym amount }
          let p := createOrder ex1 accountId sym amount limitPrice now
          ((matchOrders p.1 p.2).1, true, none, some p.2.id)

/-- The cancel operation (`XMLHandler.handle_cancel` lines 349-420, whose
state effect coincides with `Database.cancel_order`): reject missing,
foreign, fully-executed or already-canceled orders; otherwise refund
`|open_shares| * limit_price` to the owner's balance for a buy, or return
`|open_shares|` shares to the owner's position for a sell, then set
`open_shares = 0` and `canceled_at = now`.  The in-memory order book is
not touched. -/
def cancelOrder (ex : Exchange) (orderId : Nat) (requestingAccountId : String)
    (now : Nat) : Exchange × Option String :=
  match getOrder ex orderId with
  | none => (ex, some "Order not found")
  | some o =>
    if o.account_id ≠ requestingAccountId then
      (ex, some "Permission denied: Cannot cancel order belonging to another account")
    else if o.open_shares = 0 then
      (ex, some "Order already fully executed or canceled")
    else if o.canceled_at ≠ none then
      (ex, some "Order already canceled")
    else
      match lookupAccount ex o.account_id with
      | none => (ex, some "Account not found for order")
      | some _ =>
        let canceledShares := |o.open_shares|
        let ex1 :=
          if 0 < o.amount then
            { ex with accounts :=
                addToBalance ex.accounts o.account_id (canceledShares * o.limit_price) }
          else
            updatePosition ex o.account_id o.symbol_name canceledShares
        ({ ex1 with orders := setOrder ex1.orders { o with open_shares := 0, canceled_at := some now } }, none)

/-- `Database.create_account`: no validation of the balance value. -/
def createAccount (ex : Exchange) (accountId : String) (balance : Int) :
    Exchange × Bool × Option String :=
  match lookupAccount ex accountId with
  | some _ => (ex, false, some "Account already exists")
  | none => ({ ex with accounts := ex.accounts ++ [⟨accountId, balance⟩] }, true, none)

/-- `Database.create_symbol`: credit `amount` to the `(account, symbol)`
position, creating it if absent; no validation of the amount's sign. -/
def createSymbol (ex : Exchange) (symbolName accountId : String) (amount : Int) :
    Exchange × Bool × Option String :=
  match lookupAccount ex accountId with
  | none => (ex, false, some "Account does not exist")
  | some _ =>
    match lookupPosition ex accountId symbolName with
    | some _ =>
      ({ ex with positions := addToPosition ex.positions accountId symbolName amount }, true, none)
    | none =>
      ({ ex with positions := ex.positions ++ [⟨accountId, symbolName, amount⟩] }, true, none)

/-- Balance of an account, if the account exists. -/
def balanceOf (ex : Exchange) (accountId : String) : Option Int :=
  (lookupAccount ex accountId).map Account.balance

/-- Amount of a position, if the position row exists. -/
def posAmountOf (ex : Exchange) (accountId sym : String) : Option Int :=
  (lookupPosition ex accountId sym).map Position.amount

/-- All execution records of one order. -/
def execsFor (ex : Exchange) (orderId : Nat) : List Execution :=
  ex.executions.filter (fun e => e.order_id == orderId)

/-- The immutable fields of an order row: everything except `open_shares`.
Matching never changes these. -/
def orderStatic (o : Order) : Nat × String × String × Int × Int × Nat × Option Nat :=
  (o.id, o.account_id, o.symbol_name, o.amount, o.limit_price, o.created_at, o.canceled_at)

/-- The execution rows a trace of fills appends: each fill puts one row for
the new order first and one row for the resting order second, both with the
same share count and the same price. -/
def fillExecs (newId : Nat) : List MatchEvent → List Execution
  | [] => []
  | .fill k s p :: rest => ⟨newId, s, p⟩ :: ⟨k.2.2, s, p⟩ :: fillExecs newId rest
  | .stale _ :: rest => fillExecs newId rest
  | .incompatible _ :: rest => fillExecs newId rest
  | .skipZero _ :: rest => fillExecs newId rest

/-- Whether a trace contains no fill event. -/
def noFills (tr : List MatchEvent) : Prop := ∀ k s p, MatchEvent.fill k s p ∉ tr

/-- Every account balance is nonnegative. -/
def balancesNonneg (ex : Exchange) : Prop := ∀ a ∈ ex.accounts, 0 ≤ a.balance

/-- Every position amount is nonnegative. -/
def positionsNonneg (ex : Exchange) : Prop := ∀ p ∈ ex.positions, 0 ≤ p.amount

/-- Every order's limit price is nonnegative. -/
def limitsNonneg (ex : Exchange) : Prop := ∀ o ∈ ex.orders, 0 ≤ o.limit_price

/-- Every order's `open_shares` has the sign of its side: nonnegative for
buys, nonpositive for sells. -/
def openSharesSigned (ex : Exchange) : Prop :=
  ∀ o ∈ ex.orders, if 0 < o.amount then 0 ≤ o.open_shares else o.open_shares ≤ 0

/-- Order ids are pairwise distinct. -/
def ordersNodup (ex : Exchange) : Prop := (ex.orders.map Order.id).Nodup

/-- Every existing order id is below the next id to be assigned. -/
def idsBelowNext (ex : Exchange) : Prop := ∀ o ∈ ex.orders, o.id < ex.nextId

/-- Every order id indexed in a book is below the next id to be assigned. -/
def keysBelowNext (ex : Exchange) : Prop :=
  (∀ p ∈ ex.buyBooks, ∀ k ∈ p.2, k.2.2 < ex.nextId) ∧
  (∀ p ∈ ex.sellBooks, ∀ k ∈ p.2, k.2.2 < ex.nextId)

/-- The order has an entry (an id match) in the book side it belongs to. -/
def inBook (ex : Exchange) (o : Order) : Prop :=
  ∃ k ∈ bookFor ex o.symbol_name (orderIsBuy o), k.2.2 = o.id

/-- Every open, uncanceled order has an entry in the in-memory book. -/
def openOrdersBooked (ex : Exchange) : Prop :=
  ∀ o ∈ ex.orders, o.open_shares ≠ 0 → o.canceled_at = none → inBook ex o

/-- Total shares over a list of execution rows. -/
def sharesSum (l : List Execution) : Int := (l.map Execution.shares).sum

instance (ex : Exchange) : Decidable (balancesNonneg ex) := by
  unfold balancesNonneg; exact inferInstance

instance (ex : Exchange) : Decidable (positionsNonneg ex) := by
  unfold positionsNonneg; exact inferInstance

instance (ex : Exchange) : Decidable (limitsNonneg ex) := by
  unfold limitsNonneg; exact inferInstance

instance (ex : Exchange) : Decidable (openSharesSigned ex) := by
  unfold openSharesSigned; exact inferInstance

instance (ex : Exchange) : Decidable (ordersNodup ex) := by
  unfold ordersNodup; exact inferInstance

instance (ex : Exchange) : Decidable (idsBelowNext ex) := by
  unfold idsBelowNext; exact inferInstance

instance (ex : Exchange) : Decidable (keysBelowNext ex) := by
  unfold keysBelowNext; exact inferInstance

instance (ex : Exchange) (o : Order) : Decidable (inBook ex o) := by
  unfold inBook; exact inferInstance

instance (ex : Exchange) : Decidable (openOrdersBooked ex) := by
  unfold openOrdersBooked; exact inferInstance

/- Concrete states used by counterexamples and witnesses. -/

/-- Two funded accounts; account 2 holds 5 shares of S. -/
def exA : Exchange := ⟨[⟨"1", 100⟩, ⟨"2", 0⟩], [⟨"2", "S", 5⟩], [], [], [], [], 1⟩

/-- `exA` after account 2 places sell 1 S @ 5 at time 10 (it rests). -/
def exA1 : Exchange := (placeOrder exA "2" "S" (-1) 5 10).1

/-- `exA1` after account 1 places buy 1 S @ 10, also at time 10:
the fill executes at the new order's price. -/
def exA2 : Exchange := (placeOrder exA1 "1" "S" 1 10 10).1

/-- One funded account, no positions. -/
def exB : Exchange := ⟨[⟨"1", 100⟩], [], [], [], [], [], 1⟩

/-- `exB` after account 1 places buy 1 S @ 5 at time 3 (it rests). -/
def exB1 : Exchange := (placeOrder exB "1" "S" 1 5 3).1

/-- `exB1` after account 1 cancels the resting order at time 9. -/
def exB2 : Exchange := (cancelOrder exB1 1 "1" 9).1

/-- One funded account holding 5 shares of S. -/
def exC : Exchange := ⟨[⟨"1", 100⟩], [⟨"1", "S", 5⟩], [], [], [], [], 1⟩

/-- A fresh buy order of account 1 (1 share of S, limit 10, time 10),
as `place_order` would create it against `exA1`. -/
def oW : Order := ⟨2, "1", "S", 1, 10, 1, 10, none⟩

/-- A mid-matching snapshot: the resting sell order 1 and the fresh buy
order `oW` both exist, the buyer's cost is already reserved, and the sell
book indexes order 1. -/
def exW : Exchange :=
  ⟨[⟨"1", 90⟩, ⟨"2", 0⟩], [⟨"2", "S", 4⟩],
   [⟨1, "2", "S", -1, 5, -1, 10, none⟩, oW], [], [], [("S", [(5, 10, 1)])], 3⟩

/-- The trace stops at the first price-incompatible entry: an
`incompatible` event can only be the last event of a trace. -/
def stopsAtIncompatible (tr : List MatchEvent) : Prop :=
  ∃ pre suf, tr = pre ++ suf ∧ (∀ k, MatchEvent.incompatible k ∉ pre) ∧
    (suf = [] ∨ ∃ k, suf = [MatchEvent.incompatible k])

/-! ## Basic lemmas about the row-update primitives -/

theorem find?_id_setOrder (l : List Order) (o' : Order) (ident : Nat) :
    (setOrder l o').find? (fun o => o.id == ident) =
      if o'.id = ident then (l.find? (fun o => o.id == ident)).map (fun _ => o')
      else l.find? (fun o => o.id == ident) := by
  induction l with
  | nil => simp [setOrder]
  | cons o rest ih =>
    show List.find? _ (if (o.id == o'.id) = true then o' :: rest else o :: setOrder rest o') = _
    by_cases ho : o.id = o'.id
    · rw [if_pos (by simpa using ho)]
      by_cases hi : o'.id = ident
      · rw [List.find?_cons_of_pos _ (by simpa using hi), if_pos hi,
          List.find?_cons_of_pos _ (by simpa using ho.trans hi)]
        rfl
      · rw [List.find?_cons_of_neg _ (by simpa using hi), if_neg hi,
          List.find?_cons_of_neg _ (by simpa using fun h => hi (ho ▸ h))]
    · rw [if_neg (by simpa using ho)]
      by_cases hoi : o.id = ident
      · have hi : ¬ o'.id = ident := fun h => ho (hoi.trans h.symm)
        rw [List.find?_cons_of_pos _ (by simpa using hoi), if_neg hi,
          List.find?_cons_of_pos _ (by simpa using hoi)]
      · rw [List.find?_cons_of_neg _ (by simpa using hoi), ih]
        by_cases hi : o'.id = ident
        · rw [if_pos hi, if_pos hi, List.find?_cons_of_neg _ (by simpa using hoi)]
        · rw [if_neg hi, if_neg hi, List.find?_cons_of_neg _ (by simpa using hoi)]

theorem setOrder_map_id (l : List Order) (o' : Order) :
    (setOrder l o').map Order.id = l.map Order.id := by
  induction l with
  | nil => rfl
  | cons o rest ih =>
    by_cases ho : o.id = o'.id
    · simp [setOrder, ho]
    · have hne : ¬ (o.id == o'.id) = true := by simpa using ho
      simp [setOrder, hne, ih]

theorem mem_setOrder {l : List Order} {o' x : Order} (hx : x ∈ setOrder l o') :
    x ∈ l ∨ x = o' := by
  induction l with
  | nil => simp [setOrder] at hx
  | cons o rest ih =>
    rw [show setOrder (o :: rest) o' =
        (if (o.id == o'.id) = true then o' :: rest else o :: setOrder rest o') from rfl] at hx
    by_cases ho : (o.id == o'.id) = true
    · rw [if_pos ho] at hx
      rcases List.mem_cons.mp hx with h | h
      · exact Or.inr h
      · exact Or.inl (List.mem_cons_of_mem _ h)
    · rw [if_neg ho] at hx
      rcases List.mem_cons.mp hx with h | h
      · exact Or.inl (h ▸ List.mem_cons_self _ _)
      · rcases ih h with h' | h'
        · exact Or.inl (List.mem_cons_of_mem _ h')
        · exact Or.inr h'

theorem find?_addToBalance (l : List Account) (aid : String) (d : Int) (a' : String) :
    (addToBalance l aid d).find? (fun a => a.id == a') =
      if aid = a' then
        (l.find? (fun a => a.id == a')).map (fun a => { a with balance := a.balance + d })
      else l.find? (fun a => a.id == a') := by
  induction l with
  | nil => simp [addToBalance]
  | cons a rest ih =>
    show List.find? _ (if (a.id == aid) = true then
        { a with balance := a.balance + d } :: rest else a :: addToBalance rest aid d) = _
    by_cases ha : a.id = aid
    · rw [if_pos (by simpa using ha)]
      by_cases hi : aid = a'
      · rw [List.find?_cons_of_pos _ (by simpa using ha.trans hi), if_pos hi,
          List.find?_cons_of_pos _ (by simpa using ha.trans hi)]
        rfl
      · rw [List.find?_cons_of_neg _ (by simpa using fun h => hi (ha.symm.trans h)), if_neg hi,
          List.find?_cons_of_neg _ (by simpa using fun h => hi (ha.symm.trans h))]
    · rw [if_neg (by simpa using ha)]
      by_cases hai : a.id = a'
      · have hi : ¬ aid = a' := fun h => ha (hai.trans h.symm)
        rw [List.find?_cons_of_pos _ (by simpa using hai), if_neg hi,
          List.find?_cons_of_pos _ (by simpa using hai)]
      · rw [List.find?_cons_of_neg _ (by simpa using hai), ih]
        by_cases hi : aid = a'
        · rw [if_pos hi, if_pos hi, List.find?_cons_of_neg _ (by simpa using hai)]
        · rw [if_neg hi, if_neg hi, List.find?_cons_of_neg _ (by simpa using hai)]

theorem mem_addToBalance {l : List Account} {aid : String} {d : Int} {x : Account}
    (hx : x ∈ addToBalance l aid d) :
    x ∈ l ∨ ∃ a ∈ l, x = { a with balance := a.balance + d } := by
  induction l with
  | nil => simp [addToBalance] at hx
  | cons a rest ih =>
    rw [show addToBalance (a :: rest) aid d = (if (a.id == aid) = true then
        { a with balance := a.balance + d } :: rest else a :: addToBalance rest aid d) from rfl] at hx
    by_cases ha : (a.id == aid) = true
    · rw [if_pos ha] at hx
      rcases List.mem_cons.mp hx with h | h
      · exact Or.inr ⟨a, List.mem_cons_self _ _, h⟩
      · exact Or.inl (List.mem_cons_of_mem _ h)
    · rw [if_neg ha] at hx
      rcases List.mem_cons.mp hx with h | h
      · exact Or.inl (h ▸ List.mem_cons_self _ _)
      · rcases ih h with h' | ⟨b, hb, hb'⟩
        · exact Or.inl (List.mem_cons_of_mem _ h')
        · exact Or.inr ⟨b, List.mem_cons_of_mem _ hb, hb'⟩

theorem posKey_eq {p : Position} {a' s' : String} :
    ((p.account_id == a' && p.symbol_name == s') = true) ↔
      (p.account_id = a' ∧ p.symbol_name = s') := by
  simp

theorem find?_addToPosition (l : List Position) (aid sym : String) (d : Int) (a' s' : String) :
    (addToPosition l aid sym d).find? (fun p => p.account_id == a' && p.symbol_name == s') =
      if aid = a' ∧ sym = s' then
        (l.find? (fun p => p.account_id == a' && p.symbol_name == s')).map
          (fun p => { p with amount := p.amount + d })
      else l.find? (fun p => p.account_id == a' && p.symbol_name == s') := by
  induction l with
  | nil => simp [addToPosition]
  | cons p rest ih =>
    show List.find? _ (if (p.account_id == aid && p.symbol_name == sym) = true then
        { p with amount := p.amount + d } :: rest else p :: addToPosition rest aid sym d) = _
    cases hm : (p.account_id == aid && p.symbol_name == sym) with
    | true =>
      have hp : p.account_id = aid ∧ p.symbol_name = sym := posKey_eq.mp hm
      rw [if_pos rfl]
      cases hkey : (p.account_id == a' && p.symbol_name == s') with
      | true =>
        have hps := posKey_eq.mp hkey
        have hi : aid = a' ∧ sym = s' := ⟨hp.1.symm.trans hps.1, hp.2.symm.trans hps.2⟩
        simp [List.find?_cons, hkey, hi]
      | false =>
        have hps : ¬ (p.account_id = a' ∧ p.symbol_name = s') := by
          intro h
          rw [posKey_eq.mpr h] at hkey
          exact absurd hkey (by simp)
        have hi : ¬ (aid = a' ∧ sym = s') := fun h =>
          hps ⟨hp.1.trans h.1, hp.2.trans h.2⟩
        simp [List.find?_cons, hkey, hi]
    | false =>
      have hp : ¬ (p.account_id = aid ∧ p.symbol_name = sym) := by
        intro h
        rw [posKey_eq.mpr h] at hm
        exact absurd hm (by simp)
      rw [if_neg (by simp [hm])]
      cases hkey : (p.account_id == a' && p.symbol_name == s') with
      | true =>
        have hps := posKey_eq.mp hkey
        have hi : ¬ (aid = a' ∧ sym = s') := fun h =>
          hp ⟨hps.1.trans h.1.symm, hps.2.trans h.2.symm⟩
        simp [List.find?_cons, hkey, hi]
      | false =>
        by_cases hi : aid = a' ∧ sym = s'
        · simp [List.find?_cons, hkey, hi] at ih ⊢
          exact ih
        · simp [List.find?_cons, hkey, hi] at ih ⊢
          exact ih

theorem mem_addToPosition {l : List Position} {aid sym : String} {d : Int} {x : Position}
    (hx : x ∈ addToPosition l aid sym d) :
    x ∈ l ∨ ∃ p ∈ l, x = { p with amount := p.amount + d } := by
  induction l with
  | nil => simp [addToPosition] at hx
  | cons p rest ih =>
    rw [show addToPosition (p :: rest) aid sym d =
        (if (p.account_id == aid && p.symbol_name == sym) = true then
          { p with amount := p.amount + d } :: rest
         else p :: addToPosition rest aid sym d) from rfl] at hx
    by_cases hp : (p.account_id == aid && p.symbol_name == sym) = true
    · rw [if_pos hp] at hx
      rcases List.mem_cons.mp hx with h | h
      · exact Or.inr ⟨p, List.mem_cons_self _ _, h⟩
      · exact Or.inl (List.mem_cons_of_mem _ h)
    · rw [if_neg hp] at hx
      rcases List.mem_cons.mp hx with h | h
      · exact Or.inl (h ▸ List.mem_cons_self _ _)
      · rcases ih h with h' | ⟨q, hq, hq'⟩
        · exact Or.inl (List.mem_cons_of_mem _ h')
        · exact Or.inr ⟨q, List.mem_cons_of_mem _ hq, hq'⟩

theorem getBook_setBook (books : List (String × List BookKey)) (sym : String)
    (l : List BookKey) (sym' : String) :
    getBook (setBook books sym l) sym' = if sym' = sym then l else getBook books sym' := by
  induction books with
  | nil =>
    by_cases h : sym' = sym
    · simp [setBook, getBook, List.find?_cons, h]
    · have h1 : ¬ (sym == sym') = true := by simpa using fun hh => h hh.symm
      simp [setBook, getBook, List.find?_cons, h, h1]
  | cons p rest ih =>
    show getBook (if (p.1 == sym) = true then (sym, l) :: rest else p :: setBook rest sym l) _ = _
    by_cases hp : p.1 = sym
    · rw [if_pos (by simpa using hp)]
      by_cases h : sym' = sym
      · simp [getBook, List.find?_cons, h]
      · have h1 : ¬ (sym == sym') = true := by simpa using fun hh => h hh.symm
        have h2 : ¬ (p.1 == sym') = true := by
          simpa using fun hh => h (hh.symm.trans hp)
        simp [getBook, List.find?_cons, h, h1, h2]
    · rw [if_neg (by simpa using hp)]
      by_cases h2 : p.1 = sym'
      · have h : ¬ sym' = sym := fun hh => hp (h2.trans hh)
        simp [getBook, List.find?_cons, h, h2]
      · have h2' : ¬ (p.1 == sym') = true := by simpa using h2
        simp only [getBook, List.find?_cons, h2', Bool.false_eq_true, if_false] at ih ⊢
        exact ih

theorem find?_id_of_nodup {l : List Order} (h : (l.map Order.id).Nodup) {t : Order}
    (ht : t ∈ l) : l.find? (fun o => o.id == t.id) = some t := by
  induction l with
  | nil => simp at ht
  | cons o rest ih =>
    rcases List.mem_cons.mp ht with rfl | hmem
    · simp [List.find?_cons]
    · have hid : o.id ≠ t.id := by
        intro he
        have : o.id ∈ rest.map Order.id := List.mem_map.mpr ⟨t, hmem, he.symm⟩
        exact (List.nodup_cons.mp (by simpa using h)).1 this
      have hrest : (rest.map Order.id).Nodup := (List.nodup_cons.mp (by simpa using h)).2
      simp [List.find?_cons, hid, ih hrest hmem]

/-! ## Component lemmas for the state operations -/

@[simp] theorem removeFromOrderbook_accounts (ex : Exchange) (i : Nat) (s : String)
    (b : Bool) : (removeFromOrderbook ex i s b).accounts = ex.accounts := by
  unfold removeFromOrderbook; cases b <;> rfl

@[simp] theorem removeFromOrderbook_positions (ex : Exchange) (i : Nat) (s : String)
    (b : Bool) : (removeFromOrderbook ex i s b).positions = ex.positions := by
  unfold removeFromOrderbook; cases b <;> rfl

@[simp] theorem removeFromOrderbook_orders (ex : Exchange) (i : Nat) (s : String)
    (b : Bool) : (removeFromOrderbook ex i s b).orders = ex.orders := by
  unfold removeFromOrderbook; cases b <;> rfl

@[simp] theorem removeFromOrderbook_executions (ex : Exchange) (i : Nat) (s : String)
    (b : Bool) : (removeFromOrderbook ex i s b).executions = ex.executions := by
  unfold removeFromOrderbook; cases b <;> rfl

@[simp] theorem removeFromOrderbook_nextId (ex : Exchange) (i : Nat) (s : String)
    (b : Bool) : (removeFromOrderbook ex i s b).nextId = ex.nextId := by
  unfold removeFromOrderbook; cases b <;> rfl

@[simp] theorem addToOrderbook_accounts (ex : Exchange) (o : Order) :
    (addToOrderbook ex o).accounts = ex.accounts := by
  unfold addToOrderbook; split <;> rfl

@[simp] theorem addToOrderbook_positions (ex : Exchange) (o : Order) :
    (addToOrderbook ex o).positions = ex.positions := by
  unfold addToOrderbook; split <;> rfl

@[simp] theorem addToOrderbook_orders (ex : Exchange) (o : Order) :
    (addToOrderbook ex o).orders = ex.orders := by
  unfold addToOrderbook; split <;> rfl

@[simp] theorem addToOrderbook_executions (ex : Exchange) (o : Order) :
    (addToOrderbook ex o).executions = ex.executions := by
  unfold addToOrderbook; split <;> rfl

@[simp] theorem addToOrderbook_nextId (ex : Exchange) (o : Order) :
    (addToOrderbook ex o).nextId = ex.nextId := by
  unfold addToOrderbook; split <;> rfl

@[simp] theorem updatePosition_accounts (ex : Exchange) (aid sym : String) (d : Int) :
    (updatePosition ex aid sym d).accounts = ex.accounts := by
  unfold updatePosition; split <;> rfl

@[simp] theorem updatePosition_orders (ex : Exchange) (aid sym : String) (d : Int) :
    (updatePosition ex aid sym d).orders = ex.orders := by
  unfold updatePosition; split <;> rfl

@[simp] theorem updatePosition_executions (ex : Exchange) (aid sym : String) (d : Int) :
    (updatePosition ex aid sym d).executions = ex.executions := by
  unfold updatePosition; split <;> rfl

@[simp] theorem updatePosition_buyBooks (ex : Exchange) (aid sym : String) (d : Int) :
    (updatePosition ex aid sym d).buyBooks = ex.buyBooks := by
  unfold updatePosition; split <;> rfl

@[simp] theorem updatePosition_sellBooks (ex : Exchange) (aid sym : String) (d : Int) :
    (updatePosition ex aid sym d).sellBooks = ex.sellBooks := by
  unfold updatePosition; split <;> rfl

@[simp] theorem updatePosition_nextId (ex : Exchange) (aid sym : String) (d : Int) :
    (updatePosition ex aid sym d).nextId = ex.nextId := by
  unfold updatePosition; split <;> rfl

@[simp] theorem updateAccountBalance_positions (ex : Exchange) (aid : String) (d : Int) :
    (updateAccountBalance ex aid d).positions = ex.positions := rfl

@[simp] theorem updateAccountBalance_orders (ex : Exchange) (aid : String) (d : Int) :
    (updateAccountBalance ex aid d).orders = ex.orders := rfl

@[simp] theorem updateAccountBalance_executions (ex : Exchange) (aid : String) (d : Int) :
    (updateAccountBalance ex aid d).executions = ex.executions := rfl

@[simp] theorem updateAccountBalance_buyBooks (ex : Exchange) (aid : String) (d : Int) :
    (updateAccountBalance ex aid d).buyBooks = ex.buyBooks := rfl

@[simp] theorem updateAccountBalance_sellBooks (ex : Exchange) (aid : String) (d : Int) :
    (updateAccountBalance ex aid d).sellBooks = ex.sellBooks := rfl

@[simp] theorem updateAccountBalance_nextId (ex : Exchange) (aid : String) (d : Int) :
    (updateAccountBalance ex aid d).nextId = ex.nextId := rfl

@[simp] theorem executeOrderPart_accounts (ex : Exchange) (i : Nat) (s p : Int) :
    (executeOrderPart ex i s p).1.accounts = ex.accounts := by
  unfold executeOrderPart
  cases getOrder ex i with
  | none => rfl
  | some o => dsimp only; split <;> rfl

@[simp] theorem executeOrderPart_positions (ex : Exchange) (i : Nat) (s p : Int) :
    (executeOrderPart ex i s p).1.positions = ex.positions := by
  unfold executeOrderPart
  cases getOrder ex i with
  | none => rfl
  | some o => dsimp only; split <;> rfl

@[simp] theorem executeOrderPart_buyBooks (ex : Exchange) (i : Nat) (s p : Int) :
    (executeOrderPart ex i s p).1.buyBooks = ex.buyBooks := by
  unfold executeOrderPart
  cases getOrder ex i with
  | none => rfl
  | some o => dsimp only; split <;> rfl

@[simp] theorem executeOrderPart_sellBooks (ex : Exchange) (i : Nat) (s p : Int) :
    (executeOrderPart ex i s p).1.sellBooks = ex.sellBooks := by
  unfold executeOrderPart
  cases getOrder ex i with
  | none => rfl
  | some o => dsimp only; split <;> rfl

@[simp] theorem executeOrderPart_nextId (ex : Exchange) (i : Nat) (s p : Int) :
    (executeOrderPart ex i s p).1.nextId = ex.nextId := by
  unfold executeOrderPart
  cases getOrder ex i with
  | none => rfl
  | some o => dsimp only; split <;> rfl

theorem executeOrderPart_none (ex : Exchange) (i : Nat) (s pr : Int)
    (h : getOrder ex i = none) : executeOrderPart ex i s pr = (ex, false) := by
  unfold executeOrderPart
  rw [h]

theorem executeOrderPart_noop_of_zero (ex : Exchange) (i : Nat) (s pr : Int) (oc : Order)
    (h : getOrder ex i = some oc) (h0 : oc.open_shares = 0) :
    executeOrderPart ex i s pr = (ex, false) := by
  unfold executeOrderPart
  rw [h]
  dsimp only
  rw [h0]
  simp

theorem executeOrderPart_eq_of_found (ex : Exchange) (i : Nat) (s pr : Int) (oc : Order)
    (h : getOrder ex i = some oc) (hs : 0 < s) (hle : s ≤ |oc.open_shares|) :
    executeOrderPart ex i s pr =
      ({ ex with
          orders := setOrder ex.orders
            (if 0 < oc.amount then { oc with open_shares := oc.open_shares - s }
             else { oc with open_shares := oc.open_shares + s }),
          executions := ex.executions ++ [⟨oc.id, s, pr⟩] }, true) := by
  unfold executeOrderPart
  rw [h]
  dsimp only
  rw [abs_of_pos hs, min_eq_left hle, if_neg (not_le.mpr hs)]

theorem getOrder_removeFromOrderbook (ex : Exchange) (i : Nat) (s : String) (b : Bool)
    (j : Nat) : getOrder (removeFromOrderbook ex i s b) j = getOrder ex j := by
  unfold getOrder
  rw [removeFromOrderbook_orders]

theorem getOrder_updatePosition (ex : Exchange) (aid sym : String) (d : Int) (j : Nat) :
    getOrder (updatePosition ex aid sym d) j = getOrder ex j := by
  unfold getOrder
  rw [updatePosition_orders]

theorem getOrder_updateAccountBalance (ex : Exchange) (aid : String) (d : Int) (j : Nat) :
    getOrder (updateAccountBalance ex aid d) j = getOrder ex j := by
  unfold getOrder
  rw [updateAccountBalance_orders]

theorem getOrder_addToOrderbook (ex : Exchange) (o : Order) (j : Nat) :
    getOrder (addToOrderbook ex o) j = getOrder ex j := by
  unfold getOrder
  rw [addToOrderbook_orders]

theorem id_of_getOrder {ex : Exchange} {i : Nat} {oc : Order}
    (h : getOrder ex i = some oc) : oc.id = i := by
  have := List.find?_some h
  simpa using this

theorem mem_of_getOrder {ex : Exchange} {i : Nat} {oc : Order}
    (h : getOrder ex i = some oc) : oc ∈ ex.orders :=
  List.mem_of_find?_eq_some h

theorem getOrder_exec_ne (ex : Exchange) (i : Nat) (s pr : Int) (j : Nat) (hne : j ≠ i) :
    getOrder (executeOrderPart ex i s pr).1 j = getOrder ex j := by
  unfold executeOrderPart
  cases h : getOrder ex i with
  | none => rfl
  | some oc =>
    have hoc : oc.id = i := id_of_getOrder h
    dsimp only
    split
    · rfl
    · show getOrder { ex with orders := _, executions := _ } j = _
      unfold getOrder
      dsimp only
      rw [find?_id_setOrder]
      split <;>
        exact if_neg (fun hcj => hne (by
          have h2 : oc.id = j := hcj
          rw [hoc] at h2
          exact h2.symm))

theorem getOrder_exec_self (ex : Exchange) (i : Nat) (s pr : Int) (oc : Order)
    (h : getOrder ex i = some oc) (hs : 0 < s) (hle : s ≤ |oc.open_shares|) :
    getOrder (executeOrderPart ex i s pr).1 i =
      some (if 0 < oc.amount then { oc with open_shares := oc.open_shares - s }
            else { oc with open_shares := oc.open_shares + s }) := by
  rw [executeOrderPart_eq_of_found ex i s pr oc h hs hle]
  show (setOrder ex.orders _).find? _ = _
  rw [find?_id_setOrder]
  have hid : (if 0 < oc.amount then { oc with open_shares := oc.open_shares - s }
      else { oc with open_shares := oc.open_shares + s }).id = i := by
    split <;> (show oc.id = i; exact id_of_getOrder h)
  rw [if_pos hid]
  unfold getOrder at h
  rw [h]
  rfl

theorem bookFor_removeFromOrderbook (ex : Exchange) (i : Nat) (s : String) (b : Bool)
    (s' : String) (b' : Bool) :
    bookFor (removeFromOrderbook ex i s b) s' b' =
      if b' = b ∧ s' = s then (bookFor ex s b).filter (fun k => k.2.2 != i)
      else bookFor ex s' b' := by
  cases b <;> cases b' <;>
    simp only [removeFromOrderbook, bookFor, getBook_setBook, Bool.false_eq_true,
      if_true, if_false, true_and, false_and, and_true, and_false] <;>
    split_ifs <;> simp_all

theorem bookFor_addToOrderbook (ex : Exchange) (o : Order) (s' : String) (b' : Bool) :
    bookFor (addToOrderbook ex o) s' b' =
      if b' = orderIsBuy o ∧ s' = o.symbol_name then
        List.orderedInsert keyLE (if orderIsBuy o then buyKey o else sellKey o)
          (bookFor ex o.symbol_name (orderIsBuy o))
      else bookFor ex s' b' := by
  by_cases h : 0 < o.amount
  · have hb : orderIsBuy o = true := by simp [orderIsBuy, h]
    cases b' <;>
      simp only [addToOrderbook, if_pos h, bookFor, hb, getBook_setBook,
        Bool.false_eq_true, if_true, if_false, true_and, false_and, and_true,
        and_false, false_and] <;>
      split_ifs <;> simp_all
  · have hb : orderIsBuy o = false := by simp [orderIsBuy, h]
    cases b' <;>
      simp only [addToOrderbook, if_neg h, bookFor, hb, getBook_setBook,
        Bool.true_eq_false, if_true, if_false, true_and, false_and, and_true,
        and_false] <;>
      split_ifs <;> simp_all

theorem lookupAccount_updateAccountBalance (ex : Exchange) (aid : String) (d : Int)
    (a' : String) :
    lookupAccount (updateAccountBalance ex aid d) a' =
      if aid = a' then (lookupAccount ex a').map (fun a => { a with balance := a.balance + d })
      else lookupAccount ex a' :=
  find?_addToBalance ex.accounts aid d a'

theorem balanceOf_updateAccountBalance (ex : Exchange) (aid : String) (d : Int)
    (a' : String) :
    balanceOf (updateAccountBalance ex aid d) a' =
      if aid = a' then (balanceOf ex a').map (· + d) else balanceOf ex a' := by
  unfold balanceOf
  rw [lookupAccount_updateAccountBalance]
  split
  · cases lookupAccount ex a' <;> rfl
  · rfl

theorem lookupPosition_updatePosition (ex : Exchange) (aid sym : String) (d : Int)
    (a' s' : String) :
    lookupPosition (updatePosition ex aid sym d) a' s' =
      if aid = a' ∧ sym = s' then
        some (match lookupPosition ex a' s' with
              | some p => { p with amount := p.amount + d }
              | none => ⟨aid, sym, d⟩)
      else lookupPosition ex a' s' := by
  unfold updatePosition
  cases h : lookupPosition ex aid sym with
  | some p0 =>
    show lookupPosition { ex with positions := _ } a' s' = _
    unfold lookupPosition at h ⊢
    dsimp only
    rw [find?_addToPosition]
    split_ifs with hi
    · rcases hi with ⟨rfl, rfl⟩
      rw [h]
      rfl
    · rfl
  | none =>
    show lookupPosition { ex with positions := _ } a' s' = _
    unfold lookupPosition at h ⊢
    dsimp only
    rw [List.find?_append]
    split_ifs with hi
    · rcases hi with ⟨rfl, rfl⟩
      rw [h]
      simp [List.find?_cons]
    · cases hfind : ex.positions.find? (fun p => p.account_id == a' && p.symbol_name == s') with
      | some q => simp [hfind]
      | none =>
        simp only [hfind, Option.none_or]
        rw [List.find?_cons_of_neg]
        · rfl
        · simp only [Bool.and_eq_true, beq_iff_eq]
          intro hc
          exact hi ⟨hc.1, hc.2⟩

theorem posAmountOf_updatePosition (ex : Exchange) (aid sym : String) (d : Int)
    (a' s' : String) :
    posAmountOf (updatePosition ex aid sym d) a' s' =
      if aid = a' ∧ sym = s' then some ((posAmountOf ex a' s').getD 0 + d)
      else posAmountOf ex a' s' := by
  unfold posAmountOf
  rw [lookupPosition_updatePosition]
  split_ifs with hi
  · cases h : lookupPosition ex a' s' <;> simp [h]
  · rfl

/-! ## The matching loop: trace shape (price-time priority) -/

theorem matchLoop_trace_prefix (o : Order) (isBuy : Bool) :
    ∀ (temp : List BookKey) (ex : Exchange) (remaining : Int) (matched : List Nat),
      ((matchLoop o isBuy ex temp remaining matched).2.2.2).map MatchEvent.key =
        temp.take ((matchLoop o isBuy ex temp remaining matched).2.2.2).length := by
  intro temp
  induction temp with
  | nil =>
    intro ex r m
    simp [matchLoop]
  | cons k rest ih =>
    intro ex r m
    simp only [matchLoop]
    by_cases hr : r ≤ 0
    · simp [hr]
    · rw [if_neg hr]
      cases hg : getOrder ex k.2.2 with
      | none =>
        dsimp only
        rw [List.map_cons]
        rw [ih]
        simp [MatchEvent.key]
      | some opp =>
        dsimp only
        by_cases hterm : opp.open_shares = 0 ∨ opp.canceled_at ≠ none
        · rw [if_pos hterm]
          simp only []
          rw [List.map_cons, ih]
          simp [MatchEvent.key]
        · rw [if_neg hterm]
          by_cases hcomp : ¬ priceCompatible isBuy o.limit_price opp.limit_price = true
          · rw [if_pos hcomp]
            simp [MatchEvent.key]
          · rw [if_neg hcomp]
            by_cases hex : min r |opp.open_shares| ≤ 0
            · rw [if_pos hex]
              simp only []
              rw [List.map_cons, ih]
              simp [MatchEvent.key]
            · rw [if_neg hex]
              simp only []
              rw [List.map_cons, ih]
              simp [MatchEvent.key]

theorem matchLoop_stops (o : Order) (isBuy : Bool) :
    ∀ (temp : List BookKey) (ex : Exchange) (remaining : Int) (matched : List Nat),
      stopsAtIncompatible (matchLoop o isBuy ex temp remaining matched).2.2.2 := by
  intro temp
  induction temp with
  | nil =>
    intro ex r m
    exact ⟨[], [], by simp [matchLoop], by simp, Or.inl rfl⟩
  | cons k rest ih =>
    intro ex r m
    simp only [matchLoop]
    by_cases hr : r ≤ 0
    · exact ⟨[], [], by simp [hr], by simp, Or.inl rfl⟩
    · rw [if_neg hr]
      cases hg : getOrder ex k.2.2 with
      | none =>
        dsimp only
        obtain ⟨pre, suf, heq, hpre, hsuf⟩ :=
          ih (removeFromOrderbook ex k.2.2 o.symbol_name (!isBuy)) r m
        exact ⟨.stale k :: pre, suf, by simp [heq], by simp [hpre], hsuf⟩
      | some opp =>
        dsimp only
        by_cases hterm : opp.open_shares = 0 ∨ opp.canceled_at ≠ none
        · rw [if_pos hterm]
          obtain ⟨pre, suf, heq, hpre, hsuf⟩ :=
            ih (removeFromOrderbook ex k.2.2 o.symbol_name (!isBuy)) r m
          exact ⟨.stale k :: pre, suf, by simp [heq], by simp [hpre], hsuf⟩
        · rw [if_neg hterm]
          by_cases hcomp : ¬ priceCompatible isBuy o.limit_price opp.limit_price = true
          · rw [if_pos hcomp]
            exact ⟨[], [.incompatible k], by simp, by simp, Or.inr ⟨k, rfl⟩⟩
          · rw [if_neg hcomp]
            by_cases hex : min r |opp.open_shares| ≤ 0
            · rw [if_pos hex]
              obtain ⟨pre, suf, heq, hpre, hsuf⟩ := ih ex r m
              exact ⟨.skipZero k :: pre, suf, by simp [heq], by simp [hpre], hsuf⟩
            · rw [if_neg hex]
              obtain ⟨pre, suf, heq, hpre, hsuf⟩ :=
                ih (matchFill ex o isBuy opp (min r |opp.open_shares|))
                  (r - min r |opp.open_shares|)
                  (if openSharesOf (matchFill ex o isBuy opp (min r |opp.open_shares|))
                      opp.id = 0 then m ++ [opp.id] else m)
              exact ⟨.fill k (min r |opp.open_shares|)
                  (if opp.created_at < o.created_at then opp.limit_price else o.limit_price)
                  :: pre, suf, by simp [heq], by simp [hpre], hsuf⟩

theorem matchOrders_trace_prefix (ex : Exchange) (o : Order) :
    ((matchOrders ex o).2).map MatchEvent.key =
      (oppositeBookOf ex o).take ((matchOrders ex o).2).length := by
  unfold matchOrders
  dsimp only
  by_cases hb : (oppositeBookOf ex o).isEmpty
  · rw [if_pos hb]
    simp
  · rw [if_neg hb]
    dsimp only
    exact matchLoop_trace_prefix o (orderIsBuy o) (oppositeBookOf ex o) ex |o.open_shares| []

theorem matchOrders_stops (ex : Exchange) (o : Order) :
    stopsAtIncompatible (matchOrders ex o).2 := by
  unfold matchOrders
  dsimp only
  by_cases hb : (oppositeBookOf ex o).isEmpty
  · rw [if_pos hb]
    exact ⟨[], [], rfl, by simp, Or.inl rfl⟩
  · rw [if_neg hb]
    dsimp only
    exact matchLoop_stops o (orderIsBuy o) (oppositeBookOf ex o) ex |o.open_shares| []

/-- C1: matching draws candidate resting orders in heap-key order —
buys by `(-limit_price, created_at, order_id)`, sells by
`(limit_price, created_at, order_id)` — so the sequence of examined
entries is exactly an initial segment of the sorted opposite book:
no compatible better-priced (or equal-priced, earlier) entry is skipped
in favor of a worse one, every unexamined entry is no better than every
examined one, and the loop stops at the first price-incompatible entry. -/
theorem spec_C1_price_time_priority (ex : Exchange) (o : Order)
    (hsorted : (oppositeBookOf ex o).Pairwise keyLE) :
    (((matchOrders ex o).2).map MatchEvent.key =
        (oppositeBookOf ex o).take ((matchOrders ex o).2).length) ∧
    (((matchOrders ex o).2).map MatchEvent.key).Pairwise keyLE ∧
    (∀ kd ∈ (oppositeBookOf ex o).drop ((matchOrders ex o).2).length,
       ∀ kv ∈ ((matchOrders ex o).2).map MatchEvent.key, keyLE kv kd) ∧
    stopsAtIncompatible (matchOrders ex o).2 := by
  have hpre := matchOrders_trace_prefix ex o
  refine ⟨hpre, ?_, ?_, matchOrders_stops ex o⟩
  · rw [hpre]
    exact hsorted.sublist (List.take_sublist _ _)
  · intro kd hkd kv hkv
    have h2 : (((oppositeBookOf ex o).take ((matchOrders ex o).2).length) ++
        ((oppositeBookOf ex o).drop ((matchOrders ex o).2).length)).Pairwise keyLE := by
      rw [List.take_append_drop]
      exact hsorted
    have h3 := (List.pairwise_append.mp h2).2.2
    rw [hpre] at hkv
    exact h3 kv hkv kd hkd

theorem spec_C1_witness :
    (oppositeBookOf exA1 oW).Pairwise keyLE ∧
    ((((matchOrders exA1 oW).2).map MatchEvent.key =
        (oppositeBookOf exA1 oW).take ((matchOrders exA1 oW).2).length) ∧
    (((matchOrders exA1 oW).2).map MatchEvent.key).Pairwise keyLE ∧
    (∀ kd ∈ (oppositeBookOf exA1 oW).drop ((matchOrders exA1 oW).2).length,
       ∀ kv ∈ ((matchOrders exA1 oW).2).map MatchEvent.key, keyLE kv kd) ∧
    stopsAtIncompatible (matchOrders exA1 oW).2) :=
  ⟨by decide, spec_C1_price_time_priority exA1 oW (by decide)⟩

/-! ## Reservation failures and terminal cancels -/

/-- C4: when reservation fails — account missing, buy with
`balance < amount * limit_price`, or sell with no position or a position
smaller than `|amount|` — `place_order` returns exactly the corresponding
error, creates no order, and returns the state completely unchanged
(accounts, positions, orders, executions, both books, and the id
counter). -/
theorem spec_C4_reservation_failure (ex : Exchange) (accountId sym : String)
    (amount limitPrice : Int) (now : Nat) :
    (lookupAccount ex accountId = none →
      placeOrder ex accountId sym amount limitPrice now =
        (ex, false, some "Account not found", none)) ∧
    (∀ account, lookupAccount ex accountId = some account → 0 < amount →
      account.balance < amount * limitPrice →
      placeOrder ex accountId sym amount limitPrice now =
        (ex, false, some "Insufficient funds", none)) ∧
    (∀ account, lookupAccount ex accountId = some account → ¬ 0 < amount →
      (lookupPosition ex accountId sym = none ∨
        ∃ p, lookupPosition ex accountId sym = some p ∧ p.amount < |amount|) →
      placeOrder ex accountId sym amount limitPrice now =
        (ex, false, some "Insufficient shares", none)) := by
  refine ⟨?_, ?_, ?_⟩
  · intro h
    unfold placeOrder
    rw [h]
  · intro account h hpos hlt
    unfold placeOrder
    rw [h]
    dsimp only
    rw [if_pos hpos, if_pos hlt]
  · intro account h hneg hcase
    unfold placeOrder
    rw [h]
    dsimp only
    rw [if_neg hneg]
    rcases hcase with hnone | ⟨p, hp, hlt⟩
    · rw [hnone]
    · rw [hp]
      dsimp only
      rw [if_pos hlt]

theorem spec_C4_witness :
    (lookupAccount exC "9" = none ∧
      placeOrder exC "9" "S" 1 10 7 = (exC, false, some "Account not found", none)) ∧
    placeOrder exC "1" "S" 11 10 7 = (exC, false, some "Insufficient funds", none) ∧
    placeOrder exC "1" "S" (-6) 10 7 = (exC, false, some "Insufficient shares", none) :=
  ⟨⟨by decide, (spec_C4_reservation_failure exC "9" "S" 1 10 7).1 (by decide)⟩,
   (spec_C4_reservation_failure exC "1" "S" 11 10 7).2.1 ⟨"1", 100⟩
     (by decide) (by decide) (by decide),
   (spec_C4_reservation_failure exC "1" "S" (-6) 10 7).2.2 ⟨"1", 100⟩
     (by decide) (by decide) (Or.inr ⟨⟨"1", "S", 5⟩, by decide, by decide⟩)⟩

/-- C8: canceling a terminal order — `canceled_at` already set or
`open_shares = 0` — returns an error and leaves the whole state
unchanged (no balance, position, or order field is modified). -/
theorem spec_C8_terminal_cancel (ex : Exchange) (orderId : Nat) (req : String)
    (now : Nat) (o : Order) (h : getOrder ex orderId = some o)
    (hterm : o.canceled_at ≠ none ∨ o.open_shares = 0) :
    ∃ msg, cancelOrder ex orderId req now = (ex, some msg) := by
  unfold cancelOrder
  rw [h]
  dsimp only
  by_cases hown : o.account_id ≠ req
  · rw [if_pos hown]
    exact ⟨_, rfl⟩
  · rw [if_neg hown]
    by_cases h0 : o.open_shares = 0
    · rw [if_pos h0]
      exact ⟨_, rfl⟩
    · rw [if_neg h0]
      have hc : o.canceled_at ≠ none := hterm.resolve_right h0
      rw [if_pos hc]
      exact ⟨_, rfl⟩

theorem spec_C8_witness :
    (getOrder exB2 1 = some ⟨1, "1", "S", 1, 5, 0, 3, some 9⟩ ∧
      ((⟨1, "1", "S", 1, 5, 0, 3, some 9⟩ : Order).canceled_at ≠ none ∨
        (⟨1, "1", "S", 1, 5, 0, 3, some 9⟩ : Order).open_shares = 0)) ∧
    ∃ msg, cancelOrder exB2 1 "1" 12 = (exB2, some msg) :=
  ⟨⟨by decide, by decide⟩,
   spec_C8_terminal_cancel exB2 1 "1" 12 ⟨1, "1", "S", 1, 5, 0, 3, some 9⟩
     (by decide) (by decide)⟩

/-! ## The fill step: execution records, prices, settlement -/

theorem id_ite_open (c : Prop) [Decidable c] (oc : Order) (x y : Int) :
    (if c then { oc with open_shares := x } else { oc with open_shares := y }).id = oc.id := by
  split <;> rfl

theorem orderStatic_ite_open (c : Prop) [Decidable c] (oc : Order) (x y : Int) :
    orderStatic (if c then { oc with open_shares := x } else { oc with open_shares := y }) =
      orderStatic oc := by
  split <;> rfl

theorem find?_id_setOrder_ne (l : List Order) (o' : Order) (ident : Nat)
    (h : ¬ o'.id = ident) :
    (setOrder l o').find? (fun o => o.id == ident) = l.find? (fun o => o.id == ident) := by
  rw [find?_id_setOrder, if_neg h]

theorem find?_id_setOrder_eq (l : List Order) (o' : Order) (ident : Nat)
    (h : o'.id = ident) :
    (setOrder l o').find? (fun o => o.id == ident) =
      (l.find? (fun o => o.id == ident)).map (fun _ => o') := by
  rw [find?_id_setOrder, if_pos h]

theorem getOrder_exec_static (ex : Exchange) (i : Nat) (s pr : Int) (j : Nat) :
    (getOrder (executeOrderPart ex i s pr).1 j).map orderStatic =
      (getOrder ex j).map orderStatic := by
  by_cases hj : j = i
  · subst hj
    unfold executeOrderPart
    cases h : getOrder ex j with
    | none =>
      show (getOrder ex j).map orderStatic = _
      rw [h]
    | some oc =>
      dsimp only
      split
      · show (getOrder ex j).map orderStatic = _
        rw [h]
      · show ((setOrder ex.orders _).find? _).map _ = _
        rw [find?_id_setOrder_eq _ _ _ (by rw [id_ite_open]; exact id_of_getOrder h)]
        unfold getOrder at h
        rw [h]
        show some (orderStatic _) = some (orderStatic oc)
        rw [orderStatic_ite_open]
  · rw [getOrder_exec_ne ex i s pr j hj]

theorem matchFill_executions (ex : Exchange) (o : Order) (isBuy : Bool) (opp oc : Order)
    (e : Int) (hno : getOrder ex o.id = some oc) (hopp : getOrder ex opp.id = some opp)
    (hne : ¬ opp.id = o.id) (he : 0 < e) (heo : e ≤ |oc.open_shares|)
    (hep : e ≤ |opp.open_shares|) :
    (matchFill ex o isBuy opp e).executions = ex.executions ++
      [⟨oc.id, e, if opp.created_at < o.created_at then opp.limit_price else o.limit_price⟩,
       ⟨opp.id, e, if opp.created_at < o.created_at then opp.limit_price else o.limit_price⟩] := by
  unfold matchFill
  dsimp only
  rw [executeOrderPart_eq_of_found ex o.id e _ oc hno he heo]
  have hoc : oc.id = o.id := id_of_getOrder hno
  have hopp1 : getOrder ({ ex with
      orders := setOrder ex.orders
        (if 0 < oc.amount then { oc with open_shares := oc.open_shares - e }
         else { oc with open_shares := oc.open_shares + e }),
      executions := ex.executions ++
        [⟨oc.id, e, if opp.created_at < o.created_at then opp.limit_price else o.limit_price⟩] })
      opp.id = some opp := by
    show (setOrder ex.orders _).find? _ = _
    rw [find?_id_setOrder_ne _ _ _ (by rw [id_ite_open, hoc]; exact fun hh => hne hh.symm)]
    exact hopp
  rw [executeOrderPart_eq_of_found _ opp.id e _ opp hopp1 he hep]
  simp

theorem matchFill_getOrder_new (ex : Exchange) (o : Order) (isBuy : Bool) (opp oc : Order)
    (e : Int) (hno : getOrder ex o.id = some oc) (hopp : getOrder ex opp.id = some opp)
    (hne : ¬ opp.id = o.id) (he : 0 < e) (heo : e ≤ |oc.open_shares|)
    (hep : e ≤ |opp.open_shares|) :
    getOrder (matchFill ex o isBuy opp e) o.id =
      some (if 0 < oc.amount then { oc with open_shares := oc.open_shares - e }
            else { oc with open_shares := oc.open_shares + e }) := by
  unfold matchFill
  dsimp only
  have h1 := getOrder_exec_self ex o.id e
    (if opp.created_at < o.created_at then opp.limit_price else o.limit_price) oc hno he heo
  have h2 : getOrder ((executeOrderPart ex o.id e
      (if opp.created_at < o.created_at then opp.limit_price else o.limit_price)).1) opp.id =
      some opp := by
    rw [getOrder_exec_ne _ _ _ _ _ (fun hh => hne hh)]
    exact hopp
  rw [getOrder_updateAccountBalance, getOrder_updatePosition,
    getOrder_exec_ne _ opp.id e _ o.id (fun hh => hne hh.symm)]
  exact h1

theorem matchFill_getOrder_other (ex : Exchange) (o : Order) (isBuy : Bool) (opp : Order)
    (e : Int) (j : Nat) (hj1 : ¬ j = o.id) (hj2 : ¬ j = opp.id) :
    getOrder (matchFill ex o isBuy opp e) j = getOrder ex j := by
  unfold matchFill
  dsimp only
  rw [getOrder_updateAccountBalance, getOrder_updatePosition,
    getOrder_exec_ne _ opp.id e _ j hj2, getOrder_exec_ne _ o.id e _ j hj1]

theorem matchFill_static (ex : Exchange) (o : Order) (isBuy : Bool) (opp : Order)
    (e : Int) (j : Nat) :
    (getOrder (matchFill ex o isBuy opp e) j).map orderStatic =
      (getOrder ex j).map orderStatic := by
  unfold matchFill
  dsimp only
  rw [getOrder_updateAccountBalance, getOrder_updatePosition,
    getOrder_exec_static, getOrder_exec_static]

theorem balanceOf_eq_of_accounts {ex1 ex2 : Exchange} (h : ex1.accounts = ex2.accounts)
    (a : String) : balanceOf ex1 a = balanceOf ex2 a := by
  unfold balanceOf lookupAccount
  rw [h]

theorem posAmountOf_eq_of_positions {ex1 ex2 : Exchange} (h : ex1.positions = ex2.positions)
    (a s' : String) : posAmountOf ex1 a s' = posAmountOf ex2 a s' := by
  unfold posAmountOf lookupPosition
  rw [h]

theorem matchFill_balanceOf (ex : Exchange) (o : Order) (isBuy : Bool) (opp : Order)
    (e : Int) (a : String) :
    balanceOf (matchFill ex o isBuy opp e) a =
      if (if isBuy then opp.account_id else o.account_id) = a then
        (balanceOf ex a).map
          (· + (if opp.created_at < o.created_at then opp.limit_price else o.limit_price) * e)
      else balanceOf ex a := by
  unfold matchFill
  dsimp only
  rw [balanceOf_updateAccountBalance]
  rw [balanceOf_eq_of_accounts
    (show (updatePosition ((executeOrderPart ((executeOrderPart ex o.id e
      (if opp.created_at < o.created_at then opp.limit_price else o.limit_price)).1) opp.id e
      (if opp.created_at < o.created_at then opp.limit_price else o.limit_price)).1)
      (if isBuy then o.account_id else opp.account_id) o.symbol_name e).accounts =
      ex.accounts by simp) a]

theorem matchFill_posAmountOf (ex : Exchange) (o : Order) (isBuy : Bool) (opp : Order)
    (e : Int) (a s' : String) :
    posAmountOf (matchFill ex o isBuy opp e) a s' =
      if (if isBuy then o.account_id else opp.account_id) = a ∧ o.symbol_name = s' then
        some ((posAmountOf ex a s').getD 0 + e)
      else posAmountOf ex a s' := by
  unfold matchFill
  dsimp only
  rw [posAmountOf_eq_of_positions
    (show (updateAccountBalance (updatePosition ((executeOrderPart ((executeOrderPart ex o.id e
      (if opp.created_at < o.created_at then opp.limit_price else o.limit_price)).1) opp.id e
      (if opp.created_at < o.created_at then opp.limit_price else o.limit_price)).1)
      (if isBuy then o.account_id else opp.account_id) o.symbol_name e)
      (if isBuy then opp.account_id else o.account_id)
      ((if opp.created_at < o.created_at then opp.limit_price else o.limit_price) * e)).positions =
      (updatePosition ((executeOrderPart ((executeOrderPart ex o.id e
      (if opp.created_at < o.created_at then opp.limit_price else o.limit_price)).1) opp.id e
      (if opp.created_at < o.created_at then opp.limit_price else o.limit_price)).1)
      (if isBuy then o.account_id else opp.account_id) o.symbol_name e).positions by simp) a s']
  rw [posAmountOf_updatePosition]
  have hpos : posAmountOf ((executeOrderPart ((executeOrderPart ex o.id e
      (if opp.created_at < o.created_at then opp.limit_price else o.limit_price)).1) opp.id e
      (if opp.created_at < o.created_at then opp.limit_price else o.limit_price)).1) a s' =
      posAmountOf ex a s' :=
    posAmountOf_eq_of_positions (by simp) a s'
  rw [hpos]

/-- C3: one fill of `e` shares settles as follows: the seller's balance is
credited exactly `execution_price * e`, the buyer's position in the traded
symbol is credited exactly `e` (created at `e` if absent), every account
other than the seller — in particular a buyer distinct from the seller —
keeps its balance unchanged (so no part of `e * (buyer_limit − price)` is
ever refunded), and both legs are recorded as executions of `e` shares at
the same execution price. -/
theorem spec_C3_fill_settlement (ex : Exchange) (o : Order) (isBuy : Bool) (opp oc : Order)
    (e : Int) (hno : getOrder ex o.id = some oc) (hopp : getOrder ex opp.id = some opp)
    (hne : ¬ opp.id = o.id) (he : 0 < e) (heo : e ≤ |oc.open_shares|)
    (hep : e ≤ |opp.open_shares|) :
    (balanceOf (matchFill ex o isBuy opp e) (if isBuy then opp.account_id else o.account_id) =
      (balanceOf ex (if isBuy then opp.account_id else o.account_id)).map
        (· + (if opp.created_at < o.created_at then opp.limit_price else o.limit_price) * e)) ∧
    (posAmountOf (matchFill ex o isBuy opp e) (if isBuy then o.account_id else opp.account_id)
        o.symbol_name =
      some ((posAmountOf ex (if isBuy then o.account_id else opp.account_id)
        o.symbol_name).getD 0 + e)) ∧
    (∀ a, ¬ (if isBuy then opp.account_id else o.account_id) = a →
      balanceOf (matchFill ex o isBuy opp e) a = balanceOf ex a) ∧
    ((matchFill ex o isBuy opp e).executions = ex.executions ++
      [⟨oc.id, e, if opp.created_at < o.created_at then opp.limit_price else o.limit_price⟩,
       ⟨opp.id, e, if opp.created_at < o.created_at then opp.limit_price else o.limit_price⟩]) := by
  refine ⟨?_, ?_, ?_, matchFill_executions ex o isBuy opp oc e hno hopp hne he heo hep⟩
  · rw [matchFill_balanceOf, if_pos rfl]
  · rw [matchFill_posAmountOf, if_pos ⟨rfl, rfl⟩]
  · intro a ha
    rw [matchFill_balanceOf, if_neg ha]

theorem spec_C3_witness :
    (getOrder exW oW.id = some oW ∧
      getOrder exW 1 = some ⟨1, "2", "S", -1, 5, -1, 10, none⟩ ∧
      (0 : Int) < 1) ∧
    ((balanceOf (matchFill exW oW true ⟨1, "2", "S", -1, 5, -1, 10, none⟩ 1) "2" =
      (balanceOf exW "2").map (· + 10 * 1)) ∧
    (posAmountOf (matchFill exW oW true ⟨1, "2", "S", -1, 5, -1, 10, none⟩ 1) "1" "S" =
      some ((posAmountOf exW "1" "S").getD 0 + 1)) ∧
    (∀ a, ¬ "2" = a →
      balanceOf (matchFill exW oW true ⟨1, "2", "S", -1, 5, -1, 10, none⟩ 1) a =
        balanceOf exW a) ∧
    ((matchFill exW oW true ⟨1, "2", "S", -1, 5, -1, 10, none⟩ 1).executions =
      exW.executions ++ [⟨2, 1, 10⟩, ⟨1, 1, 10⟩])) := by
  refine ⟨⟨?_, ?_, ?_⟩, ?_⟩
  · decide
  · decide
  · decide
  · exact spec_C3_fill_settlement exW oW true ⟨1, "2", "S", -1, 5, -1, 10, none⟩ oW 1
      (by decide) (by decide) (by decide) (by decide) (by decide) (by decide)

/-! ## Execution prices over a whole matching run -/

theorem limit_of_static_eq {a b : Order} (h : orderStatic a = orderStatic b) :
    a.limit_price = b.limit_price := by
  have := congrArg (fun t => t.2.2.2.2.1) h
  simpa [orderStatic] using this

theorem created_of_static_eq {a b : Order} (h : orderStatic a = orderStatic b) :
    a.created_at = b.created_at := by
  have := congrArg (fun t => t.2.2.2.2.2.1) h
  simpa [orderStatic] using this

theorem exists_of_static_eq {ex1 ex2 : Exchange} {j : Nat}
    (h : (getOrder ex1 j).map orderStatic = (getOrder ex2 j).map orderStatic)
    {opp : Order} (h1 : getOrder ex1 j = some opp) :
    ∃ opp2, getOrder ex2 j = some opp2 ∧ orderStatic opp2 = orderStatic opp := by
  rw [h1] at h
  cases h2 : getOrder ex2 j with
  | none => rw [h2] at h; simp at h
  | some opp2 =>
    rw [h2] at h
    exact ⟨opp2, rfl, by simpa using h.symm⟩

theorem matchLoop_execs (o : Order) (isBuy : Bool) :
    ∀ (temp : List BookKey) (ex : Exchange) (remaining : Int) (matched : List Nat)
      (oc : Order),
      getOrder ex o.id = some oc →
      oc.amount = o.amount →
      oc.open_shares = (if isBuy then remaining else -remaining) →
      isBuy = orderIsBuy o →
      (∀ k ∈ temp, ¬ k.2.2 = o.id) →
      ((matchLoop o isBuy ex temp remaining matched).1.executions =
          ex.executions ++ fillExecs o.id (matchLoop o isBuy ex temp remaining matched).2.2.2) ∧
      (∀ k s p, MatchEvent.fill k s p ∈ (matchLoop o isBuy ex temp remaining matched).2.2.2 →
        ∃ opp, getOrder ex k.2.2 = some opp ∧
          p = (if opp.created_at < o.created_at then opp.limit_price else o.limit_price) ∧
          0 < s) := by
  intro temp
  induction temp with
  | nil =>
    intro ex r m oc hoc hamt hopen hbuy htemp
    constructor
    · simp [matchLoop, fillExecs]
    · intro k s p hk
      simp [matchLoop] at hk
  | cons k rest ih =>
    intro ex r m oc hoc hamt hopen hbuy htemp
    have hknew : ¬ k.2.2 = o.id := htemp k (List.mem_cons_self _ _)
    have htemp' : ∀ k' ∈ rest, ¬ k'.2.2 = o.id :=
      fun k' hk' => htemp k' (List.mem_cons_of_mem _ hk')
    simp only [matchLoop]
    by_cases hr : r ≤ 0
    · rw [if_pos hr]
      constructor
      · simp [fillExecs]
      · intro k' s p hk'
        simp at hk'
    · rw [if_neg hr]
      cases hg : getOrder ex k.2.2 with
      | none =>
        dsimp only
        have hoc' : getOrder (removeFromOrderbook ex k.2.2 o.symbol_name (!isBuy)) o.id =
            some oc := by rw [getOrder_removeFromOrderbook]; exact hoc
        obtain ⟨ihA, ihB⟩ := ih (removeFromOrderbook ex k.2.2 o.symbol_name (!isBuy))
          r m oc hoc' hamt hopen hbuy htemp'
        constructor
        · simpa [fillExecs] using ihA
        · intro k' s p hk'
          simp only [List.mem_cons] at hk'
          rcases hk' with hk' | hk'
          · exact absurd hk' (by simp)
          · obtain ⟨opp, hopp, hrest⟩ := ihB k' s p hk'
            rw [getOrder_removeFromOrderbook] at hopp
            exact ⟨opp, hopp, hrest⟩
      | some opp =>
        dsimp only
        have hoppid : opp.id = k.2.2 := id_of_getOrder hg
        by_cases hterm : opp.open_shares = 0 ∨ opp.canceled_at ≠ none
        · rw [if_pos hterm]
          have hoc' : getOrder (removeFromOrderbook ex k.2.2 o.symbol_name (!isBuy)) o.id =
              some oc := by rw [getOrder_removeFromOrderbook]; exact hoc
          obtain ⟨ihA, ihB⟩ := ih (removeFromOrderbook ex k.2.2 o.symbol_name (!isBuy))
            r m oc hoc' hamt hopen hbuy htemp'
          constructor
          · simpa [fillExecs] using ihA
          · intro k' s p hk'
            simp only [List.mem_cons] at hk'
            rcases hk' with hk' | hk'
            · exact absurd hk' (by simp)
            · obtain ⟨opp', hopp', hrest'⟩ := ihB k' s p hk'
              rw [getOrder_removeFromOrderbook] at hopp'
              exact ⟨opp', hopp', hrest'⟩
        · rw [if_neg hterm]
          by_cases hcomp : ¬ priceCompatible isBuy o.limit_price opp.limit_price = true
          · rw [if_pos hcomp]
            constructor
            · simp [fillExecs]
            · intro k' s p hk'
              simp at hk'
          · rw [if_neg hcomp]
            by_cases hex : min r |opp.open_shares| ≤ 0
            · rw [if_pos hex]
              obtain ⟨ihA, ihB⟩ := ih ex r m oc hoc hamt hopen hbuy htemp'
              constructor
              · simpa [fillExecs] using ihA
              · intro k' s p hk'
                simp only [List.mem_cons] at hk'
                rcases hk' with hk' | hk'
                · exact absurd hk' (by simp)
                · exact ihB k' s p hk'
            · rw [if_neg hex]
              have he : 0 < min r |opp.open_shares| := lt_of_not_ge hex
              have heo : min r |opp.open_shares| ≤ |oc.open_shares| := by
                have h1 : min r |opp.open_shares| ≤ r := min_le_left _ _
                have h2 : r ≤ |oc.open_shares| := by
                  rw [hopen]
                  cases isBuy <;> simp [abs_neg, le_abs_self]
                exact h1.trans h2
              have hep : min r |opp.open_shares| ≤ |opp.open_shares| := min_le_right _ _
              have hne : ¬ opp.id = o.id := by rw [hoppid]; exact hknew
              have hg' : getOrder ex opp.id = some opp := by rw [hoppid]; exact hg
              have hfillex := matchFill_executions ex o isBuy opp oc
                (min r |opp.open_shares|) hoc hg' hne he heo hep
              have hfillnew := matchFill_getOrder_new ex o isBuy opp oc
                (min r |opp.open_shares|) hoc hg' hne he heo hep
              have hamt' : (if 0 < oc.amount then
                  { oc with open_shares := oc.open_shares - min r |opp.open_shares| }
                  else { oc with open_shares := oc.open_shares + min r |opp.open_shares| }).amount
                  = o.amount := by
                split <;> exact hamt
              have hopen' : (if 0 < oc.amount then
                  { oc with open_shares := oc.open_shares - min r |opp.open_shares| }
                  else { oc with open_shares := oc.open_shares + min r |opp.open_shares| }).open_shares
                  = (if isBuy then r - min r |opp.open_shares|
                     else -(r - min r |opp.open_shares|)) := by
                by_cases hb : 0 < oc.amount
                · have hbt : isBuy = true := by
                    rw [hbuy]
                    unfold orderIsBuy
                    rw [hamt] at hb
                    simpa using hb
                  rw [if_pos hb]
                  show oc.open_shares - min r |opp.open_shares| = _
                  rw [hopen, hbt]
                  simp
                · have hbf : isBuy = false := by
                    rw [hbuy]
                    unfold orderIsBuy
                    rw [hamt] at hb
                    simpa using hb
                  rw [if_neg hb]
                  show oc.open_shares + min r |opp.open_shares| = _
                  rw [hopen, hbf]
                  simp
                  ring
              obtain ⟨ihA, ihB⟩ := ih (matchFill ex o isBuy opp (min r |opp.open_shares|))
                (r - min r |opp.open_shares|)
                (if openSharesOf (matchFill ex o isBuy opp (min r |opp.open_shares|)) opp.id = 0
                 then m ++ [opp.id] else m)
                _ hfillnew hamt' hopen' hbuy htemp'
              constructor
              · show (matchLoop o isBuy _ rest _ _).1.executions = _
                rw [ihA, hfillex]
                have hocid : oc.id = o.id := id_of_getOrder hoc
                simp [fillExecs, hocid, hoppid, List.append_assoc]
              · intro k' s p hk'
                simp only [List.mem_cons] at hk'
                rcases hk' with hk' | hk'
                · injection hk' with h1 h2 h3
                  subst h1
                  subst h2
                  subst h3
                  exact ⟨opp, hg, rfl, he⟩
                · obtain ⟨opp', hopp', hp', hs'⟩ := ihB k' s p hk'
                  obtain ⟨opp2, hopp2, hstat⟩ := exists_of_static_eq
                    (matchFill_static ex o isBuy opp (min r |opp.open_shares|) k'.2.2) hopp'
                  refine ⟨opp2, hopp2, ?_, hs'⟩
                  rw [hp', limit_of_static_eq hstat, created_of_static_eq hstat]

theorem foldl_remove_components (sym : String) (b : Bool) (l : List Nat) :
    ∀ ex : Exchange,
      ((l.foldl (fun e oid => removeFromOrderbook e oid sym b) ex).accounts = ex.accounts) ∧
      ((l.foldl (fun e oid => removeFromOrderbook e oid sym b) ex).positions = ex.positions) ∧
      ((l.foldl (fun e oid => removeFromOrderbook e oid sym b) ex).orders = ex.orders) ∧
      ((l.foldl (fun e oid => removeFromOrderbook e oid sym b) ex).executions = ex.executions) ∧
      ((l.foldl (fun e oid => removeFromOrderbook e oid sym b) ex).nextId = ex.nextId) := by
  induction l with
  | nil => intro ex; exact ⟨rfl, rfl, rfl, rfl, rfl⟩
  | cons x xs ih =>
    intro ex
    obtain ⟨h1, h2, h3, h4, h5⟩ := ih (removeFromOrderbook ex x sym b)
    refine ⟨?_, ?_, ?_, ?_, ?_⟩ <;> simp [List.foldl_cons, h1, h2, h3, h4, h5]

theorem matchOrders_execs (ex : Exchange) (o : Order)
    (hin : getOrder ex o.id = some o)
    (hsign : if orderIsBuy o then 0 ≤ o.open_shares else o.open_shares ≤ 0)
    (hfresh : ∀ k ∈ oppositeBookOf ex o, ¬ k.2.2 = o.id) :
    ((matchOrders ex o).1.executions =
        ex.executions ++ fillExecs o.id (matchOrders ex o).2) ∧
    (∀ k s p, MatchEvent.fill k s p ∈ (matchOrders ex o).2 →
      ∃ opp, getOrder ex k.2.2 = some opp ∧
        p = (if opp.created_at < o.created_at then opp.limit_price else o.limit_price) ∧
        0 < s) := by
  have hopen : o.open_shares =
      (if orderIsBuy o then (|o.open_shares| : Int) else -|o.open_shares|) := by
    by_cases hbb : orderIsBuy o = true
    · rw [if_pos hbb] at hsign ⊢
      exact (abs_of_nonneg hsign).symm
    · rw [if_neg hbb] at hsign ⊢
      rw [abs_of_nonpos hsign]
      ring
  obtain ⟨hA, hB⟩ := matchLoop_execs o (orderIsBuy o) (oppositeBookOf ex o) ex
    |o.open_shares| [] o hin rfl hopen rfl hfresh
  unfold matchOrders
  dsimp only
  by_cases hb : (oppositeBookOf ex o).isEmpty
  · rw [if_pos hb]
    constructor
    · simp [fillExecs]
    · intro k s p h
      simp at h
  · rw [if_neg hb]
    dsimp only
    constructor
    · have hfold := (foldl_remove_components o.symbol_name (!orderIsBuy o)
        (matchLoop o (orderIsBuy o) ex (oppositeBookOf ex o) |o.open_shares| []).2.2.1
        (matchLoop o (orderIsBuy o) ex (oppositeBookOf ex o) |o.open_shares| []).1).2.2.2.1
      split
      · rw [addToOrderbook_executions, hfold]
        exact hA
      · rw [hfold]
        exact hA
    · exact hB

/-- C2 counterexample: the resting sell (order 1, limit 5) and the new buy
(order 2, limit 10) were created at the same instant, and order 1 has the
smaller id, so the claim demands execution at the resting price 5; but
both fill legs are recorded at the new order's price 10, and the seller
is credited 10. -/
theorem spec_C2_counterexample :
    (getOrder exA2 1).map Order.created_at = some 10 ∧
    (getOrder exA2 2).map Order.created_at = some 10 ∧
    (getOrder exA2 1).map Order.limit_price = some 5 ∧
    (getOrder exA2 2).map Order.limit_price = some 10 ∧
    exA2.executions = [⟨2, 1, 10⟩, ⟨1, 1, 10⟩] ∧
    balanceOf exA2 "2" = some 10 := by decide

/-- C2 (amended): the execution price of every fill is the resting
order's `limit_price` when the resting order's `created_at` is strictly
earlier than the new order's, and the new order's `limit_price`
otherwise — in particular when `created_at` is equal, the new (larger-id)
order's price is used, not the smaller-id order's.  Both legs of each
fill are recorded with the same share count and the same price. -/
theorem spec_C2_amended (ex : Exchange) (o : Order)
    (hin : getOrder ex o.id = some o)
    (hsign : if orderIsBuy o then 0 ≤ o.open_shares else o.open_shares ≤ 0)
    (hfresh : ∀ k ∈ oppositeBookOf ex o, ¬ k.2.2 = o.id) :
    ((matchOrders ex o).1.executions =
        ex.executions ++ fillExecs o.id (matchOrders ex o).2) ∧
    (∀ k s p, MatchEvent.fill k s p ∈ (matchOrders ex o).2 →
      ∃ opp, getOrder ex k.2.2 = some opp ∧
        p = (if opp.created_at < o.created_at then opp.limit_price else o.limit_price) ∧
        0 < s) :=
  matchOrders_execs ex o hin hsign hfresh

theorem spec_C2_amended_witness :
    (getOrder exW oW.id = some oW ∧
      (if orderIsBuy oW then 0 ≤ oW.open_shares else oW.open_shares ≤ 0) ∧
      (∀ k ∈ oppositeBookOf exW oW, ¬ k.2.2 = oW.id)) ∧
    (((matchOrders exW oW).1.executions =
        exW.executions ++ fillExecs oW.id (matchOrders exW oW).2) ∧
    (∀ k s p, MatchEvent.fill k s p ∈ (matchOrders exW oW).2 →
      ∃ opp, getOrder exW k.2.2 = some opp ∧
        p = (if opp.created_at < oW.created_at then opp.limit_price else oW.limit_price) ∧
        0 < s)) :=
  ⟨⟨by decide, by decide, by decide⟩,
   spec_C2_amended exW oW (by decide) (by decide) (by decide)⟩

/-! ## Zero-amount orders -/

theorem addToPosition_zero (l : List Position) (a s : String) :
    addToPosition l a s 0 = l := by
  induction l with
  | nil => rfl
  | cons p rest ih =>
    show (if (p.account_id == a && p.symbol_name == s) = true then
        { p with amount := p.amount + 0 } :: rest else p :: addToPosition rest a s 0) = _
    split
    · cases p
      simp
    · rw [ih]

theorem matchLoop_nonpos (o : Order) (isBuy : Bool) (ex : Exchange)
    (temp : List BookKey) (r : Int) (m : List Nat) (hr : r ≤ 0) :
    matchLoop o isBuy ex temp r m = (ex, r, m, []) := by
  cases temp with
  | nil => simp [matchLoop]
  | cons k rest => simp [matchLoop, hr]

theorem matchOrders_of_nonpos_open (ex : Exchange) (o : Order)
    (h : |o.open_shares| ≤ 0) :
    ((matchOrders ex o).1.accounts = ex.accounts) ∧
    ((matchOrders ex o).1.positions = ex.positions) ∧
    ((matchOrders ex o).1.orders = ex.orders) ∧
    ((matchOrders ex o).1.executions = ex.executions) ∧
    ((matchOrders ex o).1.nextId = ex.nextId) := by
  unfold matchOrders
  dsimp only
  by_cases hb : (oppositeBookOf ex o).isEmpty
  · rw [if_pos hb]
    exact ⟨by simp, by simp, by simp, by simp, by simp⟩
  · rw [if_neg hb]
    rw [matchLoop_nonpos o (orderIsBuy o) ex (oppositeBookOf ex o) |o.open_shares| [] h]
    dsimp only
    rw [List.foldl_nil]
    split <;> exact ⟨by simp, by simp, by simp, by simp, by simp⟩

/-- C9 counterexample: account 1 holds a position in S, so placing an
order with `amount = 0` is not rejected: it succeeds, creates order 1
with `open_shares = 0`, and changes no balance or position. -/
theorem spec_C9_counterexample :
    (placeOrder exC "1" "S" 0 10 7).2.1 = true ∧
    (placeOrder exC "1" "S" 0 10 7).2.2.1 = none ∧
    (placeOrder exC "1" "S" 0 10 7).2.2.2 = some 1 ∧
    (placeOrder exC "1" "S" 0 10 7).1.orders = [⟨1, "1", "S", 0, 10, 0, 7, none⟩] ∧
    balanceOf (placeOrder exC "1" "S" 0 10 7).1 "1" = some 100 ∧
    posAmountOf (placeOrder exC "1" "S" 0 10 7).1 "1" "S" = some 5 := by decide

/-- C9 (amended): a zero-amount order is not specially rejected; it is
treated as a sell.  When the account has no position row for the symbol
it fails with "Insufficient shares" and the state is unchanged; when a
position row exists (with nonnegative amount) the placement succeeds,
creating an order with `amount = 0` and `open_shares = 0` that never
matches, while every balance, position, and execution is left
unchanged. -/
theorem spec_C9_amended (ex : Exchange) (accountId sym : String) (limitPrice : Int)
    (now : Nat) :
    (∀ account, lookupAccount ex accountId = some account →
      lookupPosition ex accountId sym = none →
      placeOrder ex accountId sym 0 limitPrice now =
        (ex, false, some "Insufficient shares", none)) ∧
    (∀ account position, lookupAccount ex accountId = some account →
      lookupPosition ex accountId sym = some position → ¬ position.amount < 0 →
      ((placeOrder ex accountId sym 0 limitPrice now).2.1 = true ∧
       (placeOrder ex accountId sym 0 limitPrice now).2.2.1 = none ∧
       (placeOrder ex accountId sym 0 limitPrice now).2.2.2 = some ex.nextId ∧
       (placeOrder ex accountId sym 0 limitPrice now).1.accounts = ex.accounts ∧
       (placeOrder ex accountId sym 0 limitPrice now).1.positions = ex.positions ∧
       (placeOrder ex accountId sym 0 limitPrice now).1.executions = ex.executions ∧
       (placeOrder ex accountId sym 0 limitPrice now).1.orders =
         ex.orders ++ [⟨ex.nextId, accountId, sym, 0, limitPrice, 0, now, none⟩])) := by
  constructor
  · intro account hacc hpos
    unfold placeOrder
    rw [hacc]
    dsimp only
    rw [if_neg (lt_irrefl 0), hpos]
  · intro account position hacc hpos hneg
    have hkey : placeOrder ex accountId sym 0 limitPrice now =
        ((matchOrders
            { ex with
                orders := ex.orders ++ [⟨ex.nextId, accountId, sym, 0, limitPrice, 0, now, none⟩],
                nextId := ex.nextId + 1 }
            ⟨ex.nextId, accountId, sym, 0, limitPrice, 0, now, none⟩).1,
          true, none, some ex.nextId) := by
      unfold placeOrder
      rw [hacc]
      dsimp only
      rw [if_neg (lt_irrefl 0), hpos]
      dsimp only
      rw [if_neg (by simpa using hneg)]
      rw [addToPosition_zero]
      rfl
    have hcomp := matchOrders_of_nonpos_open
      { ex with
          orders := ex.orders ++ [⟨ex.nextId, accountId, sym, 0, limitPrice, 0, now, none⟩],
          nextId := ex.nextId + 1 }
      ⟨ex.nextId, accountId, sym, 0, limitPrice, 0, now, none⟩ (by simp)
    rw [hkey]
    exact ⟨rfl, rfl, rfl, hcomp.1, hcomp.2.1, hcomp.2.2.2.1, hcomp.2.2.1⟩

theorem spec_C9_witness :
    (lookupAccount exC "1" = some ⟨"1", 100⟩ ∧
      lookupPosition exC "1" "S" = some ⟨"1", "S", 5⟩ ∧
      ¬ (⟨"1", "S", 5⟩ : Position).amount < 0) ∧
    ((placeOrder exC "1" "S" 0 10 7).2.1 = true ∧
     (placeOrder exC "1" "S" 0 10 7).2.2.1 = none ∧
     (placeOrder exC "1" "S" 0 10 7).2.2.2 = some exC.nextId ∧
     (placeOrder exC "1" "S" 0 10 7).1.accounts = exC.accounts ∧
     (placeOrder exC "1" "S" 0 10 7).1.positions = exC.positions ∧
     (placeOrder exC "1" "S" 0 10 7).1.executions = exC.executions ∧
     (placeOrder exC "1" "S" 0 10 7).1.orders =
       exC.orders ++ [⟨exC.nextId, "1", "S", 0, 10, 0, 7, none⟩]) :=
  ⟨⟨by decide, by decide, by decide⟩,
   (spec_C9_amended exC "1" "S" 10 7).2 ⟨"1", 100⟩ ⟨"1", "S", 5⟩
     (by decide) (by decide) (by decide)⟩

/-! ## Terminal orders are never executed again -/

theorem getOrder_of_mem {ex : Exchange} (hnd : ordersNodup ex) {t : Order}
    (ht : t ∈ ex.orders) : getOrder ex t.id = some t :=
  find?_id_of_nodup hnd ht

theorem execsFor_eq_of_executions {ex1 ex2 : Exchange}
    (h : ex1.executions = ex2.executions) (j : Nat) : execsFor ex1 j = execsFor ex2 j := by
  unfold execsFor
  rw [h]

theorem exec_execsFor_ne (ex : Exchange) (i : Nat) (s pr : Int) (j : Nat)
    (hj : ¬ j = i) :
    execsFor (executeOrderPart ex i s pr).1 j = execsFor ex j := by
  unfold executeOrderPart
  cases h : getOrder ex i with
  | none => rfl
  | some oc =>
    dsimp only
    split
    · rfl
    · show execsFor { ex with orders := _, executions := _ } j = _
      unfold execsFor
      dsimp only
      rw [List.filter_append]
      have hij : ¬ (oc.id == j) = true := by
        rw [id_of_getOrder h]
        simpa using fun hh => hj hh.symm
      rw [List.filter_cons]
      simp only [hij, Bool.false_eq_true, if_false, List.filter_nil, List.append_nil]

theorem matchFill_execsFor_ne (ex : Exchange) (o : Order) (isBuy : Bool) (opp : Order)
    (e : Int) (j : Nat) (hj1 : ¬ j = o.id) (hj2 : ¬ j = opp.id) :
    execsFor (matchFill ex o isBuy opp e) j = execsFor ex j := by
  unfold matchFill
  dsimp only
  have h2 := exec_execsFor_ne
    (executeOrderPart ex o.id e
      (if opp.created_at < o.created_at then opp.limit_price else o.limit_price)).1
    opp.id e (if opp.created_at < o.created_at then opp.limit_price else o.limit_price) j hj2
  have h1 := exec_execsFor_ne ex o.id e
    (if opp.created_at < o.created_at then opp.limit_price else o.limit_price) j hj1
  exact (execsFor_eq_of_executions (by simp) j).trans (h2.trans h1)

theorem amount_ite_open (c : Prop) [Decidable c] (oc : Order) (x y : Int) :
    (if c then { oc with open_shares := x } else { oc with open_shares := y }).amount =
      oc.amount := by
  split <;> rfl

theorem exec_conserve (ex : Exchange) (i : Nat) (s pr : Int) (j : Nat) (ocj : Order)
    (h : getOrder ex j = some ocj)
    (hsg : if 0 < ocj.amount then 0 ≤ ocj.open_shares else ocj.open_shares ≤ 0) :
    ∃ ocj', getOrder (executeOrderPart ex i s pr).1 j = some ocj' ∧
      (if 0 < ocj'.amount then 0 ≤ ocj'.open_shares else ocj'.open_shares ≤ 0) ∧
      ocj'.amount = ocj.amount ∧
      |ocj'.open_shares| + sharesSum (execsFor (executeOrderPart ex i s pr).1 j) =
        |ocj.open_shares| + sharesSum (execsFor ex j) := by
  by_cases hij : j = i
  · subst hij
    by_cases hzero : min |s| |ocj.open_shares| ≤ 0
    · have hnoop : executeOrderPart ex j s pr = (ex, false) := by
        unfold executeOrderPart
        rw [h]
        dsimp only
        rw [if_pos hzero]
      rw [hnoop]
      exact ⟨ocj, h, hsg, rfl, rfl⟩
    · have hpos : 0 < min |s| |ocj.open_shares| := lt_of_not_ge hzero
      have hle : min |s| |ocj.open_shares| ≤ |ocj.open_shares| := min_le_right _ _
      have hexecsFor : ∀ (exq : Exchange) (r : Execution), r.order_id = j →
          exq.executions = ex.executions ++ [r] →
          execsFor exq j = execsFor ex j ++ [r] := by
        intro exq r hr hq
        unfold execsFor
        rw [hq, List.filter_append, List.filter_cons]
        simp [hr]
      by_cases h0 : 0 < ocj.amount
      · have hsg' : 0 ≤ ocj.open_shares := by rwa [if_pos h0] at hsg
        have heq : executeOrderPart ex j s pr =
            ({ ex with
                orders := setOrder ex.orders
                  { ocj with open_shares := ocj.open_shares - min |s| |ocj.open_shares| },
                executions := ex.executions ++
                  [⟨ocj.id, min |s| |ocj.open_shares|, pr⟩] }, true) := by
          unfold executeOrderPart
          rw [h]
          dsimp only
          rw [if_neg hzero, if_pos h0]
        rw [heq]
        have hs'le : min |s| |ocj.open_shares| ≤ ocj.open_shares :=
          (min_le_right _ _).trans (abs_of_nonneg hsg').le
        refine ⟨{ ocj with open_shares := ocj.open_shares - min |s| |ocj.open_shares| },
          ?_, ?_, rfl, ?_⟩
        · show (setOrder ex.orders _).find? _ = _
          have hXj : ({ ocj with open_shares := ocj.open_shares - min |s| |ocj.open_shares| } :
              Order).id = j := by
            show ocj.id = j
            exact id_of_getOrder h
          rw [find?_id_setOrder, if_pos hXj]
          unfold getOrder at h
          rw [h]
          rfl
        · rw [if_pos (show (0:Int) <
            ({ ocj with open_shares := ocj.open_shares - min |s| |ocj.open_shares| } : Order).amount
            from h0)]
          exact sub_nonneg.mpr hs'le
        · rw [hexecsFor _ ⟨ocj.id, min |s| |ocj.open_shares|, pr⟩ (id_of_getOrder h) rfl]
          dsimp only
          rw [abs_of_nonneg (sub_nonneg.mpr hs'le), abs_of_nonneg hsg']
          unfold sharesSum
          rw [List.map_append, List.sum_append]
          simp
      · have hsg' : ocj.open_shares ≤ 0 := by rwa [if_neg h0] at hsg
        have heq : executeOrderPart ex j s pr =
            ({ ex with
                orders := setOrder ex.orders
                  { ocj with open_shares := ocj.open_shares + min |s| |ocj.open_shares| },
                executions := ex.executions ++
                  [⟨ocj.id, min |s| |ocj.open_shares|, pr⟩] }, true) := by
          unfold executeOrderPart
          rw [h]
          dsimp only
          rw [if_neg hzero, if_neg h0]
        rw [heq]
        have hs'le : min |s| |ocj.open_shares| ≤ -ocj.open_shares :=
          (min_le_right _ _).trans (abs_of_nonpos hsg').le
        refine ⟨{ ocj with open_shares := ocj.open_shares + min |s| |ocj.open_shares| },
          ?_, ?_, rfl, ?_⟩
        · show (setOrder ex.orders _).find? _ = _
          have hXj : ({ ocj with open_shares := ocj.open_shares + min |s| |ocj.open_shares| } :
              Order).id = j := by
            show ocj.id = j
            exact id_of_getOrder h
          rw [find?_id_setOrder, if_pos hXj]
          unfold getOrder at h
          rw [h]
          rfl
        · rw [if_neg (show ¬ (0:Int) <
            ({ ocj with open_shares := ocj.open_shares + min |s| |ocj.open_shares| } : Order).amount
            from h0)]
          show ocj.open_shares + min |s| |ocj.open_shares| ≤ 0
          linarith
        · rw [hexecsFor _ ⟨ocj.id, min |s| |ocj.open_shares|, pr⟩ (id_of_getOrder h) rfl]
          dsimp only
          rw [abs_of_nonpos (by linarith : ocj.open_shares + min |s| |ocj.open_shares| ≤ 0),
            abs_of_nonpos hsg']
          unfold sharesSum
          rw [List.map_append, List.sum_append]
          simp
          ring
  · refine ⟨ocj, ?_, hsg, rfl, ?_⟩
    · rw [getOrder_exec_ne _ _ _ _ _ hij]
      exact h
    · rw [exec_execsFor_ne _ _ _ _ _ hij]

theorem matchFill_conserve (ex : Exchange) (o : Order) (isBuy : Bool) (opp : Order)
    (e : Int) (j : Nat) (ocj : Order) (h : getOrder ex j = some ocj)
    (hsg : if 0 < ocj.amount then 0 ≤ ocj.open_shares else ocj.open_shares ≤ 0) :
    ∃ ocj', getOrder (matchFill ex o isBuy opp e) j = some ocj' ∧
      (if 0 < ocj'.amount then 0 ≤ ocj'.open_shares else ocj'.open_shares ≤ 0) ∧
      ocj'.amount = ocj.amount ∧
      |ocj'.open_shares| + sharesSum (execsFor (matchFill ex o isBuy opp e) j) =
        |ocj.open_shares| + sharesSum (execsFor ex j) := by
  obtain ⟨oc1, h1, hs1, ha1, he1⟩ := exec_conserve ex o.id e
    (if opp.created_at < o.created_at then opp.limit_price else o.limit_price) j ocj h hsg
  obtain ⟨oc2, h2, hs2, ha2, he2⟩ := exec_conserve
    (executeOrderPart ex o.id e
      (if opp.created_at < o.created_at then opp.limit_price else o.limit_price)).1
    opp.id e (if opp.created_at < o.created_at then opp.limit_price else o.limit_price)
    j oc1 h1 hs1
  refine ⟨oc2, ?_, hs2, ha2.trans ha1, ?_⟩
  · unfold matchFill
    dsimp only
    rw [getOrder_updateAccountBalance, getOrder_updatePosition]
    exact h2
  · have hfe : execsFor (matchFill ex o isBuy opp e) j =
        execsFor (executeOrderPart (executeOrderPart ex o.id e
          (if opp.created_at < o.created_at then opp.limit_price else o.limit_price)).1
          opp.id e
          (if opp.created_at < o.created_at then opp.limit_price else o.limit_price)).1 j := by
      unfold matchFill
      dsimp only
      exact execsFor_eq_of_executions (by simp) j
    rw [hfe]
    exact he2.trans he1

theorem matchLoop_stale_step (o : Order) (isBuy : Bool) (ex : Exchange) (k : BookKey)
    (rest : List BookKey) (r : Int) (m : List Nat) (hr : ¬ r ≤ 0)
    (hstale : getOrder ex k.2.2 = none ∨ ∃ opp, getOrder ex k.2.2 = some opp ∧
      (opp.open_shares = 0 ∨ opp.canceled_at ≠ none)) :
    matchLoop o isBuy ex (k :: rest) r m =
      ((matchLoop o isBuy (removeFromOrderbook ex k.2.2 o.symbol_name (!isBuy)) rest r m).1,
       (matchLoop o isBuy (removeFromOrderbook ex k.2.2 o.symbol_name (!isBuy)) rest r m).2.1,
       (matchLoop o isBuy (removeFromOrderbook ex k.2.2 o.symbol_name (!isBuy)) rest r m).2.2.1,
       MatchEvent.stale k ::
         (matchLoop o isBuy (removeFromOrderbook ex k.2.2 o.symbol_name (!isBuy)) rest r m).2.2.2) := by
  simp only [matchLoop]
  rw [if_neg hr]
  rcases hstale with hnone | ⟨opp, hsome, hterm⟩
  · rw [hnone]
  · rw [hsome]
    dsimp only
    rw [if_pos hterm]

theorem matchLoop_terminal (o : Order) (isBuy : Bool) (t : Order)
    (hterm : t.open_shares = 0 ∨ t.canceled_at ≠ none) (hto : ¬ t.id = o.id) :
    ∀ (temp : List BookKey) (ex : Exchange) (r : Int) (m : List Nat),
      getOrder ex t.id = some t →
      getOrder (matchLoop o isBuy ex temp r m).1 t.id = some t ∧
      execsFor (matchLoop o isBuy ex temp r m).1 t.id = execsFor ex t.id := by
  intro temp
  induction temp with
  | nil =>
    intro ex r m ht
    exact ⟨by simpa [matchLoop] using ht, by simp [matchLoop]⟩
  | cons k rest ih =>
    intro ex r m ht
    simp only [matchLoop]
    by_cases hr : r ≤ 0
    · rw [if_pos hr]
      exact ⟨ht, rfl⟩
    · rw [if_neg hr]
      cases hg : getOrder ex k.2.2 with
      | none =>
        dsimp only
        have ht' : getOrder (removeFromOrderbook ex k.2.2 o.symbol_name (!isBuy)) t.id =
            some t := by rw [getOrder_removeFromOrderbook]; exact ht
        obtain ⟨ih1, ih2⟩ := ih (removeFromOrderbook ex k.2.2 o.symbol_name (!isBuy)) r m ht'
        exact ⟨ih1, ih2.trans (execsFor_eq_of_executions (by simp) t.id)⟩
      | some opp =>
        dsimp only
        by_cases htm : opp.open_shares = 0 ∨ opp.canceled_at ≠ none
        · rw [if_pos htm]
          have ht' : getOrder (removeFromOrderbook ex k.2.2 o.symbol_name (!isBuy)) t.id =
              some t := by rw [getOrder_removeFromOrderbook]; exact ht
          obtain ⟨ih1, ih2⟩ := ih (removeFromOrderbook ex k.2.2 o.symbol_name (!isBuy)) r m ht'
          exact ⟨ih1, ih2.trans (execsFor_eq_of_executions (by simp) t.id)⟩
        · rw [if_neg htm]
          by_cases hcomp : ¬ priceCompatible isBuy o.limit_price opp.limit_price = true
          · rw [if_pos hcomp]
            exact ⟨ht, rfl⟩
          · rw [if_neg hcomp]
            by_cases hex : min r |opp.open_shares| ≤ 0
            · rw [if_pos hex]
              exact ih ex r m ht
            · rw [if_neg hex]
              have hkt : ¬ k.2.2 = t.id := by
                intro hkk
                rw [hkk] at hg
                rw [ht] at hg
                injection hg with hg'
                rw [hg'] at hterm
                exact htm hterm
              have htid2 : ¬ t.id = opp.id := by
                rw [id_of_getOrder hg]
                exact fun hh => hkt hh.symm
              have ht4 : getOrder (matchFill ex o isBuy opp (min r |opp.open_shares|)) t.id =
                  some t :=
                (matchFill_getOrder_other ex o isBuy opp (min r |opp.open_shares|) t.id
                  hto htid2).trans ht
              obtain ⟨ih1, ih2⟩ := ih (matchFill ex o isBuy opp (min r |opp.open_shares|))
                (r - min r |opp.open_shares|)
                (if openSharesOf (matchFill ex o isBuy opp (min r |opp.open_shares|)) opp.id = 0
                 then m ++ [opp.id] else m) ht4
              refine ⟨ih1, ih2.trans ?_⟩
              exact matchFill_execsFor_ne ex o isBuy opp (min r |opp.open_shares|) t.id
                hto htid2

theorem matchLoop_conserve (o : Order) (isBuy : Bool) (j : Nat) :
    ∀ (temp : List BookKey) (ex : Exchange) (r : Int) (m : List Nat) (ocj : Order),
      getOrder ex j = some ocj →
      (if 0 < ocj.amount then 0 ≤ ocj.open_shares else ocj.open_shares ≤ 0) →
      ∃ ocj', getOrder (matchLoop o isBuy ex temp r m).1 j = some ocj' ∧
        (if 0 < ocj'.amount then 0 ≤ ocj'.open_shares else ocj'.open_shares ≤ 0) ∧
        ocj'.amount = ocj.amount ∧
        |ocj'.open_shares| + sharesSum (execsFor (matchLoop o isBuy ex temp r m).1 j) =
          |ocj.open_shares| + sharesSum (execsFor ex j) := by
  intro temp
  induction temp with
  | nil =>
    intro ex r m ocj h hs
    exact ⟨ocj, by simpa [matchLoop] using h, hs, rfl, by simp [matchLoop]⟩
  | cons k rest ih =>
    intro ex r m ocj h hs
    simp only [matchLoop]
    by_cases hr : r ≤ 0
    · rw [if_pos hr]
      exact ⟨ocj, h, hs, rfl, rfl⟩
    · rw [if_neg hr]
      cases hg : getOrder ex k.2.2 with
      | none =>
        dsimp only
        have h' : getOrder (removeFromOrderbook ex k.2.2 o.symbol_name (!isBuy)) j =
            some ocj := by rw [getOrder_removeFromOrderbook]; exact h
        obtain ⟨oc', h1, h2, h3, h4⟩ :=
          ih (removeFromOrderbook ex k.2.2 o.symbol_name (!isBuy)) r m ocj h' hs
        exact ⟨oc', h1, h2, h3,
          h4.trans (by rw [execsFor_eq_of_executions
            (show (removeFromOrderbook ex k.2.2 o.symbol_name (!isBuy)).executions =
              ex.executions by simp) j])⟩
      | some opp =>
        dsimp only
        by_cases htm : opp.open_shares = 0 ∨ opp.canceled_at ≠ none
        · rw [if_pos htm]
          have h' : getOrder (removeFromOrderbook ex k.2.2 o.symbol_name (!isBuy)) j =
              some ocj := by rw [getOrder_removeFromOrderbook]; exact h
          obtain ⟨oc', h1, h2, h3, h4⟩ :=
            ih (removeFromOrderbook ex k.2.2 o.symbol_name (!isBuy)) r m ocj h' hs
          exact ⟨oc', h1, h2, h3,
            h4.trans (by rw [execsFor_eq_of_executions
              (show (removeFromOrderbook ex k.2.2 o.symbol_name (!isBuy)).executions =
                ex.executions by simp) j])⟩
        · rw [if_neg htm]
          by_cases hcomp : ¬ priceCompatible isBuy o.limit_price opp.limit_price = true
          · rw [if_pos hcomp]
            exact ⟨ocj, h, hs, rfl, rfl⟩
          · rw [if_neg hcomp]
            by_cases hex : min r |opp.open_shares| ≤ 0
            · rw [if_pos hex]
              exact ih ex r m ocj h hs
            · rw [if_neg hex]
              obtain ⟨oc4, hf1, hf2, hf3, hf4⟩ := matchFill_conserve ex o isBuy opp
                (min r |opp.open_shares|) j ocj h hs
              obtain ⟨oc', h1, h2, h3, h4⟩ :=
                ih (matchFill ex o isBuy opp (min r |opp.open_shares|))
                  (r - min r |opp.open_shares|)
                  (if openSharesOf (matchFill ex o isBuy opp (min r |opp.open_shares|)) opp.id = 0
                   then m ++ [opp.id] else m) oc4 hf1 hf2
              exact ⟨oc', h1, h2, h3.trans hf3, h4.trans hf4⟩

theorem matchOrders_terminal (ex : Exchange) (o t : Order) (hnd : ordersNodup ex)
    (ht : t ∈ ex.orders) (hterm : t.open_shares = 0 ∨ t.canceled_at ≠ none)
    (hto : ¬ t.id = o.id) :
    getOrder (matchOrders ex o).1 t.id = some t ∧
    execsFor (matchOrders ex o).1 t.id = execsFor ex t.id := by
  have htg : getOrder ex t.id = some t := getOrder_of_mem hnd ht
  unfold matchOrders
  dsimp only
  by_cases hb : (oppositeBookOf ex o).isEmpty
  · rw [if_pos hb]
    constructor
    · show getOrder (addToOrderbook ex o) t.id = some t
      unfold getOrder
      rw [addToOrderbook_orders]
      exact htg
    · exact execsFor_eq_of_executions (by simp) t.id
  · rw [if_neg hb]
    dsimp only
    obtain ⟨h1, h2⟩ := matchLoop_terminal o (orderIsBuy o) t hterm hto
      (oppositeBookOf ex o) ex |o.open_shares| [] htg
    have hfold := foldl_remove_components o.symbol_name (!orderIsBuy o)
      (matchLoop o (orderIsBuy o) ex (oppositeBookOf ex o) |o.open_shares| []).2.2.1
      (matchLoop o (orderIsBuy o) ex (oppositeBookOf ex o) |o.open_shares| []).1
    constructor
    · split
      · show getOrder (addToOrderbook _ o) t.id = some t
        unfold getOrder
        rw [addToOrderbook_orders]
        show List.find? _ (Exchange.orders _) = _
        rw [hfold.2.2.1]
        exact h1
      · show getOrder _ t.id = some t
        unfold getOrder
        rw [hfold.2.2.1]
        exact h1
    · split
      · refine (execsFor_eq_of_executions (by simp) t.id).trans
          ((execsFor_eq_of_executions hfold.2.2.2.1 t.id).trans h2)
      · exact (execsFor_eq_of_executions hfold.2.2.2.1 t.id).trans h2

theorem matchOrders_conserve (ex : Exchange) (o : Order) (j : Nat) (ocj : Order)
    (h : getOrder ex j = some ocj)
    (hs : if 0 < ocj.amount then 0 ≤ ocj.open_shares else ocj.open_shares ≤ 0) :
    ∃ ocj', getOrder (matchOrders ex o).1 j = some ocj' ∧ ocj'.amount = ocj.amount ∧
      |ocj'.open_shares| + sharesSum (execsFor (matchOrders ex o).1 j) =
        |ocj.open_shares| + sharesSum (execsFor ex j) := by
  unfold matchOrders
  dsimp only
  by_cases hb : (oppositeBookOf ex o).isEmpty
  · rw [if_pos hb]
    refine ⟨ocj, ?_, rfl, ?_⟩
    · show getOrder (addToOrderbook ex o) j = some ocj
      unfold getOrder
      rw [addToOrderbook_orders]
      exact h
    · rw [execsFor_eq_of_executions (show (addToOrderbook ex o).executions = ex.executions
        by simp) j]
  · rw [if_neg hb]
    dsimp only
    obtain ⟨oc', h1, _, h3, h4⟩ := matchLoop_conserve o (orderIsBuy o) j
      (oppositeBookOf ex o) ex |o.open_shares| [] ocj h hs
    have hfold := foldl_remove_components o.symbol_name (!orderIsBuy o)
      (matchLoop o (orderIsBuy o) ex (oppositeBookOf ex o) |o.open_shares| []).2.2.1
      (matchLoop o (orderIsBuy o) ex (oppositeBookOf ex o) |o.open_shares| []).1
    refine ⟨oc', ?_, h3, ?_⟩
    · split
      · show getOrder (addToOrderbook _ o) j = some oc'
        unfold getOrder
        rw [addToOrderbook_orders]
        show List.find? _ (Exchange.orders _) = _
        rw [hfold.2.2.1]
        exact h1
      · show getOrder _ j = some oc'
        unfold getOrder
        rw [hfold.2.2.1]
        exact h1
    · have hstep : ∀ exq : Exchange, exq.executions =
          (matchLoop o (orderIsBuy o) ex (oppositeBookOf ex o) |o.open_shares| []).1.executions →
          execsFor exq j =
            execsFor (matchLoop o (orderIsBuy o) ex (oppositeBookOf ex o) |o.open_shares| []).1 j :=
        fun exq hq => execsFor_eq_of_executions hq j
      split
      · rw [hstep _ (by simp [hfold.2.2.2.1])]
        exact h4
      · rw [hstep _ hfold.2.2.2.1]
        exact h4

/-- C10: a terminal order is never executed again.  (a) When the matching
loop pops a book entry whose database row is missing, fully executed, or
canceled, it removes exactly that entry from the book and continues with
the rest, recording only a `stale` event.  (b) A whole `match_orders` run
leaves every terminal order row byte-for-byte unchanged and appends no
execution to it.  (c) For every order row, `|open_shares|` plus the total
executed shares recorded for it is conserved by `match_orders`, so the
shares filled against any order never exceed its open shares. -/
theorem spec_C10_terminal_isolation :
    (∀ (o : Order) (isBuy : Bool) (ex : Exchange) (k : BookKey) (rest : List BookKey)
        (r : Int) (m : List Nat), ¬ r ≤ 0 →
      (getOrder ex k.2.2 = none ∨ ∃ opp, getOrder ex k.2.2 = some opp ∧
          (opp.open_shares = 0 ∨ opp.canceled_at ≠ none)) →
      matchLoop o isBuy ex (k :: rest) r m =
        ((matchLoop o isBuy (removeFromOrderbook ex k.2.2 o.symbol_name (!isBuy)) rest r m).1,
         (matchLoop o isBuy (removeFromOrderbook ex k.2.2 o.symbol_name (!isBuy)) rest r m).2.1,
         (matchLoop o isBuy (removeFromOrderbook ex k.2.2 o.symbol_name (!isBuy)) rest r m).2.2.1,
         MatchEvent.stale k ::
           (matchLoop o isBuy (removeFromOrderbook ex k.2.2 o.symbol_name (!isBuy)) rest r m).2.2.2)) ∧
    (∀ (ex : Exchange) (o t : Order), ordersNodup ex → t ∈ ex.orders →
      (t.open_shares = 0 ∨ t.canceled_at ≠ none) → ¬ t.id = o.id →
      getOrder (matchOrders ex o).1 t.id = some t ∧
      execsFor (matchOrders ex o).1 t.id = execsFor ex t.id) ∧
    (∀ (ex : Exchange) (o : Order) (j : Nat) (ocj : Order), getOrder ex j = some ocj →
      (if 0 < ocj.amount then 0 ≤ ocj.open_shares else ocj.open_shares ≤ 0) →
      ∃ ocj', getOrder (matchOrders ex o).1 j = some ocj' ∧ ocj'.amount = ocj.amount ∧
        |ocj'.open_shares| + sharesSum (execsFor (matchOrders ex o).1 j) =
          |ocj.open_shares| + sharesSum (execsFor ex j)) :=
  ⟨fun o isBuy ex k rest r m hr hstale => matchLoop_stale_step o isBuy ex k rest r m hr hstale,
   fun ex o t hnd ht hterm hto => matchOrders_terminal ex o t hnd ht hterm hto,
   fun ex o j ocj h hs => matchOrders_conserve ex o j ocj h hs⟩

theorem spec_C10_witness :
    (¬ (1 : Int) ≤ 0 ∧
      (getOrder exB2 1 = some ⟨1, "1", "S", 1, 5, 0, 3, some 9⟩ ∧
        ((⟨1, "1", "S", 1, 5, 0, 3, some 9⟩ : Order).open_shares = 0 ∨
          (⟨1, "1", "S", 1, 5, 0, 3, some 9⟩ : Order).canceled_at ≠ none)) ∧
      matchLoop oW true exB2 [(-5, 3, 1)] 1 [] =
        ((matchLoop oW true (removeFromOrderbook exB2 1 oW.symbol_name (!true)) [] 1 []).1,
         (matchLoop oW true (removeFromOrderbook exB2 1 oW.symbol_name (!true)) [] 1 []).2.1,
         (matchLoop oW true (removeFromOrderbook exB2 1 oW.symbol_name (!true)) [] 1 []).2.2.1,
         MatchEvent.stale (-5, 3, 1) ::
           (matchLoop oW true (removeFromOrderbook exB2 1 oW.symbol_name (!true)) [] 1 []).2.2.2)) ∧
    (getOrder (matchOrders exB2 oW).1 1 = some ⟨1, "1", "S", 1, 5, 0, 3, some 9⟩ ∧
      execsFor (matchOrders exB2 oW).1 1 = execsFor exB2 1) ∧
    (∃ ocj', getOrder (matchOrders exW oW).1 1 = some ocj' ∧
      ocj'.amount = (⟨1, "2", "S", -1, 5, -1, 10, none⟩ : Order).amount ∧
      |ocj'.open_shares| + sharesSum (execsFor (matchOrders exW oW).1 1) =
        |(⟨1, "2", "S", -1, 5, -1, 10, none⟩ : Order).open_shares| +
          sharesSum (execsFor exW 1)) :=
  ⟨⟨by decide, ⟨by decide, by decide⟩,
    spec_C10_terminal_isolation.1 oW true exB2 (-5, 3, 1) [] 1 [] (by decide)
      (Or.inr ⟨⟨1, "1", "S", 1, 5, 0, 3, some 9⟩, by decide, by decide⟩)⟩,
   spec_C10_terminal_isolation.2.1 exB2 oW ⟨1, "1", "S", 1, 5, 0, 3, some 9⟩
     (by decide) (by decide) (by decide) (by decide),
   spec_C10_terminal_isolation.2.2 exW oW 1 ⟨1, "2", "S", -1, 5, -1, 10, none⟩
     (by decide) (by decide)⟩

/-! ## Nonnegativity -/

theorem balancesNonneg_of_eq {ex1 ex2 : Exchange} (h : ex1.accounts = ex2.accounts)
    (hb : balancesNonneg ex2) : balancesNonneg ex1 := by
  unfold balancesNonneg at hb ⊢
  rw [h]
  exact hb

theorem positionsNonneg_of_eq {ex1 ex2 : Exchange} (h : ex1.positions = ex2.positions)
    (hp : positionsNonneg ex2) : positionsNonneg ex1 := by
  unfold positionsNonneg at hp ⊢
  rw [h]
  exact hp

theorem limitsNonneg_of_eq {ex1 ex2 : Exchange} (h : ex1.orders = ex2.orders)
    (hl : limitsNonneg ex2) : limitsNonneg ex1 := by
  unfold limitsNonneg at hl ⊢
  rw [h]
  exact hl

theorem limitsNonneg_exec (ex : Exchange) (i : Nat) (s pr : Int)
    (hl : limitsNonneg ex) : limitsNonneg (executeOrderPart ex i s pr).1 := by
  unfold executeOrderPart
  cases hg : getOrder ex i with
  | none => exact hl
  | some oc =>
    dsimp only
    split
    · exact hl
    · intro x hx
      show 0 ≤ x.limit_price
      rcases mem_setOrder hx with hmem | hrepl
      · exact hl x hmem
      · have hocm : oc ∈ ex.orders := mem_of_getOrder hg
        have : x.limit_price = oc.limit_price := by rw [hrepl]; split <;> rfl
        rw [this]
        exact hl oc hocm

theorem limitsNonneg_matchFill (ex : Exchange) (o : Order) (isBuy : Bool) (opp : Order)
    (e : Int) (hl : limitsNonneg ex) : limitsNonneg (matchFill ex o isBuy opp e) := by
  unfold matchFill
  dsimp only
  have h1 := limitsNonneg_exec ex o.id e
    (if opp.created_at < o.created_at then opp.limit_price else o.limit_price) hl
  have h2 := limitsNonneg_exec
    (executeOrderPart ex o.id e
      (if opp.created_at < o.created_at then opp.limit_price else o.limit_price)).1
    opp.id e (if opp.created_at < o.created_at then opp.limit_price else o.limit_price) h1
  exact limitsNonneg_of_eq (by simp) h2

theorem balancesNonneg_addToBalance {ex : Exchange} (aid : String) (d : Int)
    (hb : balancesNonneg ex) (hd : 0 ≤ d) :
    ∀ x ∈ addToBalance ex.accounts aid d, 0 ≤ x.balance := by
  intro x hx
  rcases mem_addToBalance hx with hmem | ⟨a, ha, hrepl⟩
  · exact hb x hmem
  · rw [hrepl]
    show 0 ≤ a.balance + d
    have := hb a ha
    linarith

theorem matchFill_nonneg (ex : Exchange) (o : Order) (isBuy : Bool) (opp : Order)
    (e : Int) (hb : balancesNonneg ex) (hp : positionsNonneg ex)
    (hpr : 0 ≤ (if opp.created_at < o.created_at then opp.limit_price else o.limit_price))
    (he : 0 ≤ e) :
    balancesNonneg (matchFill ex o isBuy opp e) ∧
    positionsNonneg (matchFill ex o isBuy opp e) := by
  constructor
  · unfold matchFill
    dsimp only
    intro x hx
    show 0 ≤ x.balance
    unfold updateAccountBalance at hx
    dsimp only at hx
    have haccs : (updatePosition ((executeOrderPart ((executeOrderPart ex o.id e
        (if opp.created_at < o.created_at then opp.limit_price else o.limit_price)).1) opp.id e
        (if opp.created_at < o.created_at then opp.limit_price else o.limit_price)).1)
        (if isBuy then o.account_id else opp.account_id) o.symbol_name e).accounts =
        ex.accounts := by simp
    rw [haccs] at hx
    rcases mem_addToBalance hx with hmem | ⟨a, ha, hrepl⟩
    · exact hb x hmem
    · rw [hrepl]
      show 0 ≤ a.balance +
        (if opp.created_at < o.created_at then opp.limit_price else o.limit_price) * e
      have h1 := hb a ha
      have h2 : 0 ≤ (if opp.created_at < o.created_at then opp.limit_price
        else o.limit_price) * e := mul_nonneg hpr he
      linarith
  · unfold matchFill
    dsimp only
    intro x hx
    show 0 ≤ x.amount
    rw [updateAccountBalance_positions] at hx
    unfold updatePosition at hx
    have hposi : ∀ q ∈ ((executeOrderPart ((executeOrderPart ex o.id e
        (if opp.created_at < o.created_at then opp.limit_price else o.limit_price)).1) opp.id e
        (if opp.created_at < o.created_at then opp.limit_price else o.limit_price)).1).positions,
        0 ≤ q.amount := by
      intro q hq
      rw [executeOrderPart_positions, executeOrderPart_positions] at hq
      exact hp q hq
    split at hx
    · dsimp only at hx
      rcases mem_addToPosition hx with hmem | ⟨q, hq, hrepl⟩
      · exact hposi x hmem
      · rw [hrepl]
        show 0 ≤ q.amount + e
        have := hposi q hq
        linarith
    · dsimp only at hx
      rcases List.mem_append.mp hx with hmem | hnew
      · exact hposi x hmem
      · rw [List.mem_singleton.mp hnew]
        exact he

theorem matchLoop_nonneg (o : Order) (isBuy : Bool) (ho : 0 ≤ o.limit_price) :
    ∀ (temp : List BookKey) (ex : Exchange) (r : Int) (m : List Nat),
      balancesNonneg ex → positionsNonneg ex → limitsNonneg ex →
      balancesNonneg (matchLoop o isBuy ex temp r m).1 ∧
      positionsNonneg (matchLoop o isBuy ex temp r m).1 ∧
      limitsNonneg (matchLoop o isBuy ex temp r m).1 := by
  intro temp
  induction temp with
  | nil =>
    intro ex r m hb hp hl
    simpa [matchLoop] using ⟨hb, hp, hl⟩
  | cons k rest ih =>
    intro ex r m hb hp hl
    simp only [matchLoop]
    by_cases hr : r ≤ 0
    · rw [if_pos hr]
      exact ⟨hb, hp, hl⟩
    · rw [if_neg hr]
      cases hg : getOrder ex k.2.2 with
      | none =>
        dsimp only
        exact ih (removeFromOrderbook ex k.2.2 o.symbol_name (!isBuy)) r m
          (balancesNonneg_of_eq (by simp) hb) (positionsNonneg_of_eq (by simp) hp)
          (limitsNonneg_of_eq (by simp) hl)
      | some opp =>
        dsimp only
        by_cases htm : opp.open_shares = 0 ∨ opp.canceled_at ≠ none
        · rw [if_pos htm]
          exact ih (removeFromOrderbook ex k.2.2 o.symbol_name (!isBuy)) r m
            (balancesNonneg_of_eq (by simp) hb) (positionsNonneg_of_eq (by simp) hp)
            (limitsNonneg_of_eq (by simp) hl)
        · rw [if_neg htm]
          by_cases hcomp : ¬ priceCompatible isBuy o.limit_price opp.limit_price = true
          · rw [if_pos hcomp]
            exact ⟨hb, hp, hl⟩
          · rw [if_neg hcomp]
            by_cases hex : min r |opp.open_shares| ≤ 0
            · rw [if_pos hex]
              exact ih ex r m hb hp hl
            · rw [if_neg hex]
              have he : (0:Int) ≤ min r |opp.open_shares| := le_of_lt (lt_of_not_ge hex)
              have hpr : 0 ≤ (if opp.created_at < o.created_at then opp.limit_price
                  else o.limit_price) := by
                split
                · exact hl opp (mem_of_getOrder hg)
                · exact ho
              obtain ⟨hb4, hp4⟩ := matchFill_nonneg ex o isBuy opp
                (min r |opp.open_shares|) hb hp hpr he
              exact ih (matchFill ex o isBuy opp (min r |opp.open_shares|))
                (r - min r |opp.open_shares|)
                (if openSharesOf (matchFill ex o isBuy opp (min r |opp.open_shares|)) opp.id = 0
                 then m ++ [opp.id] else m) hb4 hp4
                (limitsNonneg_matchFill ex o isBuy opp (min r |opp.open_shares|) hl)

theorem matchOrders_nonneg (ex : Exchange) (o : Order) (ho : 0 ≤ o.limit_price)
    (hb : balancesNonneg ex) (hp : positionsNonneg ex) (hl : limitsNonneg ex) :
    balancesNonneg (matchOrders ex o).1 ∧ positionsNonneg (matchOrders ex o).1 := by
  unfold matchOrders
  dsimp only
  by_cases hbk : (oppositeBookOf ex o).isEmpty
  · rw [if_pos hbk]
    exact ⟨balancesNonneg_of_eq (by simp) hb, positionsNonneg_of_eq (by simp) hp⟩
  · rw [if_neg hbk]
    dsimp only
    obtain ⟨hb1, hp1, _⟩ := matchLoop_nonneg o (orderIsBuy o) ho (oppositeBookOf ex o)
      ex |o.open_shares| [] hb hp hl
    have hfold := foldl_remove_components o.symbol_name (!orderIsBuy o)
      (matchLoop o (orderIsBuy o) ex (oppositeBookOf ex o) |o.open_shares| []).2.2.1
      (matchLoop o (orderIsBuy o) ex (oppositeBookOf ex o) |o.open_shares| []).1
    split
    · exact ⟨balancesNonneg_of_eq (by simp [hfold.1]) hb1,
        positionsNonneg_of_eq (by simp [hfold.2.1]) hp1⟩
    · exact ⟨balancesNonneg_of_eq hfold.1 hb1, positionsNonneg_of_eq hfold.2.1 hp1⟩

theorem mem_addToBalance_find {l : List Account} {aid : String} {d : Int} {x : Account}
    (hx : x ∈ addToBalance l aid d) :
    x ∈ l ∨ ∃ a, l.find? (fun a => a.id == aid) = some a ∧
      x = { a with balance := a.balance + d } := by
  induction l with
  | nil => simp [addToBalance] at hx
  | cons a rest ih =>
    rw [show addToBalance (a :: rest) aid d = (if (a.id == aid) = true then
        { a with balance := a.balance + d } :: rest else a :: addToBalance rest aid d)
      from rfl] at hx
    by_cases ha : (a.id == aid) = true
    · rw [if_pos ha] at hx
      rcases List.mem_cons.mp hx with h | h
      · exact Or.inr ⟨a, by simp [List.find?_cons, ha], h⟩
      · exact Or.inl (List.mem_cons_of_mem _ h)
    · rw [if_neg ha] at hx
      rcases List.mem_cons.mp hx with h | h
      · exact Or.inl (h ▸ List.mem_cons_self _ _)
      · rcases ih h with h' | ⟨b, hb, hb'⟩
        · exact Or.inl (List.mem_cons_of_mem _ h')
        · exact Or.inr ⟨b, by simp only [List.find?_cons, ha]; exact hb, hb'⟩

theorem mem_addToPosition_find {l : List Position} {aid sym : String} {d : Int} {x : Position}
    (hx : x ∈ addToPosition l aid sym d) :
    x ∈ l ∨ ∃ p, l.find? (fun p => p.account_id == aid && p.symbol_name == sym) = some p ∧
      x = { p with amount := p.amount + d } := by
  induction l with
  | nil => simp [addToPosition] at hx
  | cons p rest ih =>
    rw [show addToPosition (p :: rest) aid sym d =
        (if (p.account_id == aid && p.symbol_name == sym) = true then
          { p with amount := p.amount + d } :: rest
         else p :: addToPosition rest aid sym d) from rfl] at hx
    by_cases hp : (p.account_id == aid && p.symbol_name == sym) = true
    · rw [if_pos hp] at hx
      rcases List.mem_cons.mp hx with h | h
      · exact Or.inr ⟨p, by simp [List.find?_cons, hp], h⟩
      · exact Or.inl (List.mem_cons_of_mem _ h)
    · rw [if_neg hp] at hx
      rcases List.mem_cons.mp hx with h | h
      · exact Or.inl (h ▸ List.mem_cons_self _ _)
      · rcases ih h with h' | ⟨q, hq, hq'⟩
        · exact Or.inl (List.mem_cons_of_mem _ h')
        · exact Or.inr ⟨q, by simp only [List.find?_cons, hp]; exact hq, hq'⟩

/-- C5 counterexample: `create_account` accepts a negative initial
balance and `create_symbol` accepts a negative credit, so both
nonnegativity invariants can be broken directly by the creation
operations. -/
theorem spec_C5_counterexample :
    ((createAccount exB "5" (-50)).2.1 = true ∧
     balanceOf (createAccount exB "5" (-50)).1 "5" = some (-50) ∧
     ¬ balancesNonneg (createAccount exB "5" (-50)).1) ∧
    ((createSymbol exB "T" "1" (-3)).2.1 = true ∧
     posAmountOf (createSymbol exB "T" "1" (-3)).1 "1" "T" = some (-3) ∧
     ¬ positionsNonneg (createSymbol exB "T" "1" (-3)).1) := by decide

/-- C5 (amended): the creation operations perform no sign validation, but
order placement (with its matching) and cancellation do preserve the
nonnegativity invariants: starting from a state whose balances, positions
and order limit prices are all nonnegative, and placing an order with a
nonnegative limit price, every balance and every position stays
nonnegative; the same holds for any cancel. -/
theorem spec_C5_amended :
    (∀ (ex : Exchange) (accountId sym : String) (amount limitPrice : Int) (now : Nat),
      balancesNonneg ex → positionsNonneg ex → limitsNonneg ex → 0 ≤ limitPrice →
      balancesNonneg (placeOrder ex accountId sym amount limitPrice now).1 ∧
      positionsNonneg (placeOrder ex accountId sym amount limitPrice now).1) ∧
    (∀ (ex : Exchange) (orderId : Nat) (req : String) (now : Nat),
      balancesNonneg ex → positionsNonneg ex → limitsNonneg ex →
      balancesNonneg (cancelOrder ex orderId req now).1 ∧
      positionsNonneg (cancelOrder ex orderId req now).1) := by
  constructor
  · intro ex accountId sym amount limitPrice now hb hp hl hlp
    unfold placeOrder
    cases hacc : lookupAccount ex accountId with
    | none => exact ⟨hb, hp⟩
    | some account =>
      dsimp only
      by_cases hpos : 0 < amount
      · rw [if_pos hpos]
        by_cases hfund : account.balance < amount * limitPrice
        · rw [if_pos hfund]
          exact ⟨hb, hp⟩
        · rw [if_neg hfund]
          dsimp only
          have hb1 : balancesNonneg { ex with
              accounts := addToBalance ex.accounts accountId (-(amount * limitPrice)) } := by
            intro x hx
            show 0 ≤ x.balance
            rcases mem_addToBalance_find hx with hmem | ⟨a, hfa, hrepl⟩
            · exact hb x hmem
            · have haeq : a = account := by
                unfold lookupAccount at hacc
                rw [hacc] at hfa
                injection hfa with hfa'
                exact hfa'.symm
              rw [hrepl, haeq]
              show 0 ≤ account.balance + -(amount * limitPrice)
              have := not_lt.mp hfund
              linarith
          have hp1 : positionsNonneg { ex with
              accounts := addToBalance ex.accounts accountId (-(amount * limitPrice)) } := hp
          have hl2 : limitsNonneg ((createOrder { ex with
              accounts := addToBalance ex.accounts accountId (-(amount * limitPrice)) }
              accountId sym amount limitPrice now).1) := by
            intro x hx
            show 0 ≤ x.limit_price
            unfold createOrder at hx
            dsimp only at hx
            rcases List.mem_append.mp hx with hmem | hnew
            · exact hl x hmem
            · rw [List.mem_singleton.mp hnew]
              exact hlp
          exact matchOrders_nonneg _ _ hlp hb1 hp1 hl2
      · rw [if_neg hpos]
        cases hposi : lookupPosition ex accountId sym with
        | none => exact ⟨hb, hp⟩
        | some position =>
          dsimp only
          by_cases hsh : position.amount < |amount|
          · rw [if_pos hsh]
            exact ⟨hb, hp⟩
          · rw [if_neg hsh]
            dsimp only
            have hb1 : balancesNonneg { ex with
                positions := addToPosition ex.positions accountId sym amount } := hb
            have hp1 : positionsNonneg { ex with
                positions := addToPosition ex.positions accountId sym amount } := by
              intro x hx
              show 0 ≤ x.amount
              rcases mem_addToPosition_find hx with hmem | ⟨q, hfq, hrepl⟩
              · exact hp x hmem
              · have hqeq : q = position := by
                  unfold lookupPosition at hposi
                  rw [hposi] at hfq
                  injection hfq with hfq'
                  exact hfq'.symm
                rw [hrepl, hqeq]
                show 0 ≤ position.amount + amount
                have h1 := not_lt.mp hsh
                have h2 : |amount| = -amount := abs_of_nonpos (le_of_not_lt hpos)
                linarith [h2 ▸ h1]
            have hl2 : limitsNonneg ((createOrder { ex with
                positions := addToPosition ex.positions accountId sym amount }
                accountId sym amount limitPrice now).1) := by
              intro x hx
              show 0 ≤ x.limit_price
              unfold createOrder at hx
              dsimp only at hx
              rcases List.mem_append.mp hx with hmem | hnew
              · exact hl x hmem
              · rw [List.mem_singleton.mp hnew]
                exact hlp
            exact matchOrders_nonneg _ _ hlp hb1 hp1 hl2
  · intro ex orderId req now hb hp hl
    unfold cancelOrder
    cases hord : getOrder ex orderId with
    | none => exact ⟨hb, hp⟩
    | some o =>
      dsimp only
      by_cases h1 : o.account_id ≠ req
      · rw [if_pos h1]
        exact ⟨hb, hp⟩
      · rw [if_neg h1]
        by_cases h2 : o.open_shares = 0
        · rw [if_pos h2]
          exact ⟨hb, hp⟩
        · rw [if_neg h2]
          by_cases h3 : o.canceled_at ≠ none
          · rw [if_pos h3]
            exact ⟨hb, hp⟩
          · rw [if_neg h3]
            cases hacc : lookupAccount ex o.account_id with
            | none => exact ⟨hb, hp⟩
            | some account =>
              dsimp only
              have hql : 0 ≤ |o.open_shares| * o.limit_price :=
                mul_nonneg (abs_nonneg _) (hl o (mem_of_getOrder hord))
              by_cases hbuy : 0 < o.amount
              · rw [if_pos hbuy]
                constructor
                · intro x hx
                  show 0 ≤ x.balance
                  exact balancesNonneg_addToBalance o.account_id
                    (|o.open_shares| * o.limit_price) hb hql x hx
                · exact hp
              · rw [if_neg hbuy]
                constructor
                · intro x hx
                  show 0 ≤ x.balance
                  have : x ∈ (updatePosition ex o.account_id o.symbol_name
                      |o.open_shares|).accounts := hx
                  rw [updatePosition_accounts] at this
                  exact hb x this
                · intro x hx
                  show 0 ≤ x.amount
                  have hx' : x ∈ (updatePosition ex o.account_id o.symbol_name
                      |o.open_shares|).positions := hx
                  unfold updatePosition at hx'
                  split at hx'
                  · dsimp only at hx'
                    rcases mem_addToPosition hx' with hmem | ⟨q, hq, hrepl⟩
                    · exact hp x hmem
                    · rw [hrepl]
                      show 0 ≤ q.amount + |o.open_shares|
                      have := hp q hq
                      have := abs_nonneg o.open_shares
                      linarith
                  · dsimp only at hx'
                    rcases List.mem_append.mp hx' with hmem | hnew
                    · exact hp x hmem
                    · rw [List.mem_singleton.mp hnew]
                      exact abs_nonneg _

/-! ## Cancel effects and the place-then-cancel round trip -/

theorem mem_getBook {books : List (String × List BookKey)} {sym : String} {k : BookKey}
    (hk : k ∈ getBook books sym) : ∃ p ∈ books, k ∈ p.2 := by
  unfold getBook at hk
  cases hf : books.find? (fun p => p.1 == sym) with
  | none =>
    rw [hf] at hk
    simp at hk
  | some p =>
    rw [hf] at hk
    exact ⟨p, List.mem_of_find?_eq_some hf, hk⟩

theorem noFills_of_fillExecs_nil (newId : Nat) (tr : List MatchEvent) :
    fillExecs newId tr = [] → noFills tr := by
  induction tr with
  | nil =>
    intro _ k s p hk
    simp at hk
  | cons e rest ih =>
    intro h k' s' p' hk'
    cases e with
    | fill k s p => simp [fillExecs] at h
    | stale k =>
      rcases List.mem_cons.mp hk' with he | he
      · exact absurd he (by simp)
      · exact ih (by simpa [fillExecs] using h) k' s' p' he
    | incompatible k =>
      rcases List.mem_cons.mp hk' with he | he
      · exact absurd he (by simp)
      · exact ih (by simpa [fillExecs] using h) k' s' p' he
    | skipZero k =>
      rcases List.mem_cons.mp hk' with he | he
      · exact absurd he (by simp)
      · exact ih (by simpa [fillExecs] using h) k' s' p' he

theorem matchLoop_noFills (o : Order) (isBuy : Bool) :
    ∀ (temp : List BookKey) (ex : Exchange) (r : Int) (m : List Nat),
      noFills (matchLoop o isBuy ex temp r m).2.2.2 →
      (matchLoop o isBuy ex temp r m).1.accounts = ex.accounts ∧
      (matchLoop o isBuy ex temp r m).1.positions = ex.positions ∧
      (matchLoop o isBuy ex temp r m).1.orders = ex.orders ∧
      (matchLoop o isBuy ex temp r m).1.executions = ex.executions ∧
      (matchLoop o isBuy ex temp r m).2.2.1 = m := by
  intro temp
  induction temp with
  | nil =>
    intro ex r m _
    exact ⟨rfl, rfl, rfl, rfl, rfl⟩
  | cons k rest ih =>
    intro ex r m hnf
    simp only [matchLoop] at hnf ⊢
    by_cases hr : r ≤ 0
    · rw [if_pos hr]
      exact ⟨rfl, rfl, rfl, rfl, rfl⟩
    · rw [if_neg hr] at hnf ⊢
      cases hg : getOrder ex k.2.2 with
      | none =>
        rw [hg] at hnf
        dsimp only at hnf ⊢
        have hnf' : noFills (matchLoop o isBuy
            (removeFromOrderbook ex k.2.2 o.symbol_name (!isBuy)) rest r m).2.2.2 :=
          fun k' s' p' h' => hnf k' s' p' (List.mem_cons_of_mem _ h')
        obtain ⟨h1, h2, h3, h4, h5⟩ :=
          ih (removeFromOrderbook ex k.2.2 o.symbol_name (!isBuy)) r m hnf'
        refine ⟨?_, ?_, ?_, ?_, h5⟩ <;> simp [h1, h2, h3, h4]
      | some opp =>
        rw [hg] at hnf
        dsimp only at hnf ⊢
        by_cases hterm : opp.open_shares = 0 ∨ opp.canceled_at ≠ none
        · rw [if_pos hterm] at hnf ⊢
          dsimp only at hnf ⊢
          have hnf' : noFills (matchLoop o isBuy
              (removeFromOrderbook ex k.2.2 o.symbol_name (!isBuy)) rest r m).2.2.2 :=
            fun k' s' p' h' => hnf k' s' p' (List.mem_cons_of_mem _ h')
          obtain ⟨h1, h2, h3, h4, h5⟩ :=
            ih (removeFromOrderbook ex k.2.2 o.symbol_name (!isBuy)) r m hnf'
          refine ⟨?_, ?_, ?_, ?_, h5⟩ <;> simp [h1, h2, h3, h4]
        · rw [if_neg hterm] at hnf ⊢
          by_cases hcomp : ¬ priceCompatible isBuy o.limit_price opp.limit_price = true
          · rw [if_pos hcomp]
            exact ⟨rfl, rfl, rfl, rfl, rfl⟩
          · rw [if_neg hcomp] at hnf ⊢
            by_cases hex : min r |opp.open_shares| ≤ 0
            · rw [if_pos hex] at hnf ⊢
              dsimp only at hnf ⊢
              have hnf' : noFills (matchLoop o isBuy ex rest r m).2.2.2 :=
                fun k' s' p' h' => hnf k' s' p' (List.mem_cons_of_mem _ h')
              exact ih ex r m hnf'
            · rw [if_neg hex] at hnf
              dsimp only at hnf
              exact absurd (List.mem_cons_self _ _)
                (hnf k (min r |opp.open_shares|)
                  (if opp.created_at < o.created_at then opp.limit_price else o.limit_price))

theorem matchOrders_noFills (ex : Exchange) (o : Order)
    (h : noFills (matchOrders ex o).2) :
    (matchOrders ex o).1.accounts = ex.accounts ∧
    (matchOrders ex o).1.positions = ex.positions ∧
    (matchOrders ex o).1.orders = ex.orders ∧
    (matchOrders ex o).1.executions = ex.executions := by
  unfold matchOrders at h ⊢
  dsimp only at h ⊢
  by_cases hb : (oppositeBookOf ex o).isEmpty
  · rw [if_pos hb]
    exact ⟨by simp, by simp, by simp, by simp⟩
  · rw [if_neg hb] at h ⊢
    dsimp only at h ⊢
    obtain ⟨h1, h2, h3, h4, -⟩ := matchLoop_noFills o (orderIsBuy o)
      (oppositeBookOf ex o) ex |o.open_shares| [] h
    have hfold := foldl_remove_components o.symbol_name (!orderIsBuy o)
      (matchLoop o (orderIsBuy o) ex (oppositeBookOf ex o) |o.open_shares| []).2.2.1
      (matchLoop o (orderIsBuy o) ex (oppositeBookOf ex o) |o.open_shares| []).1
    refine ⟨?_, ?_, ?_, ?_⟩
    · split
      · rw [addToOrderbook_accounts, hfold.1, h1]
      · rw [hfold.1, h1]
    · split
      · rw [addToOrderbook_positions, hfold.2.1, h2]
      · rw [hfold.2.1, h2]
    · split
      · rw [addToOrderbook_orders, hfold.2.2.1, h3]
      · rw [hfold.2.2.1, h3]
    · split
      · rw [addToOrderbook_executions, hfold.2.2.2.1, h4]
      · rw [hfold.2.2.2.1, h4]

theorem cancelOrder_effects (ex : Exchange) (orderId : Nat) (req : String) (now : Nat)
    (o : Order) (acc : Account)
    (ho : getOrder ex orderId = some o)
    (hown : o.account_id = req)
    (hopen : o.open_shares ≠ 0)
    (hcan : o.canceled_at = none)
    (hacc : lookupAccount ex o.account_id = some acc) :
    (cancelOrder ex orderId req now).2 = none ∧
    getOrder (cancelOrder ex orderId req now).1 orderId =
      some { o with open_shares := 0, canceled_at := some now } ∧
    (0 < o.amount →
      balanceOf (cancelOrder ex orderId req now).1 o.account_id =
        some (acc.balance + |o.open_shares| * o.limit_price) ∧
      (cancelOrder ex orderId req now).1.positions = ex.positions) ∧
    (¬ 0 < o.amount →
      (cancelOrder ex orderId req now).1.accounts = ex.accounts ∧
      posAmountOf (cancelOrder ex orderId req now).1 o.account_id o.symbol_name =
        some ((posAmountOf ex o.account_id o.symbol_name).getD 0 + |o.open_shares|)) := by
  have hoid : o.id = orderId := id_of_getOrder ho
  have hfind : ex.orders.find? (fun x => x.id == orderId) = some o := ho
  unfold cancelOrder
  rw [ho]
  dsimp only
  rw [if_neg (fun h => h hown), if_neg hopen, if_neg (fun h => h hcan), hacc]
  dsimp only
  by_cases hbuy : 0 < o.amount
  · rw [if_pos hbuy]
    refine ⟨rfl, ?_, fun _ => ⟨?_, rfl⟩, fun hnb => absurd hbuy hnb⟩
    · unfold getOrder
      dsimp only
      rw [find?_id_setOrder_eq _ { o with open_shares := 0, canceled_at := some now }
        orderId hoid, hfind]
      rfl
    · have hbb : balanceOf (updateAccountBalance ex o.account_id
          (|o.open_shares| * o.limit_price)) o.account_id =
          some (acc.balance + |o.open_shares| * o.limit_price) := by
        rw [balanceOf_updateAccountBalance, if_pos rfl]
        simp [balanceOf, hacc]
      exact (balanceOf_eq_of_accounts rfl o.account_id).trans hbb
  · rw [if_neg hbuy]
    refine ⟨rfl, ?_, fun hb => absurd hb hbuy, fun _ => ⟨?_, ?_⟩⟩
    · unfold getOrder
      dsimp only
      rw [updatePosition_orders,
        find?_id_setOrder_eq _ { o with open_shares := 0, canceled_at := some now }
          orderId hoid, hfind]
      rfl
    · exact updatePosition_accounts ex o.account_id o.symbol_name |o.open_shares|
    · have h := posAmountOf_updatePosition ex o.account_id o.symbol_name |o.open_shares|
        o.account_id o.symbol_name
      rw [if_pos ⟨rfl, rfl⟩] at h
      exact (posAmountOf_eq_of_positions rfl o.account_id o.symbol_name).trans h

theorem placeCancel_roundtrip (ex ex2 : Exchange) (no : Order) (acc : Account)
    (accountId sym : String) (amount limitPrice : Int) (t now : Nat)
    (hP : createOrder { ex with accounts := addToBalance ex.accounts accountId (-(amount * limitPrice)) } accountId sym amount limitPrice t = (ex2, no))
    (hacc : lookupAccount ex accountId = some acc)
    (hamt : 0 < amount)
    (hids : idsBelowNext ex)
    (hkeys : keysBelowNext ex)
    (hexec : (matchOrders ex2 no).1.executions = ex.executions) :
    balanceOf (matchOrders ex2 no).1 accountId = some (acc.balance - amount * limitPrice) ∧
    (cancelOrder (matchOrders ex2 no).1 ex.nextId accountId now).2 = none ∧
    balanceOf (cancelOrder (matchOrders ex2 no).1 ex.nextId accountId now).1 accountId =
      some acc.balance := by
  injection hP with h1 h2
  have hno : (⟨ex.nextId, accountId, sym, amount, limitPrice, amount, t, none⟩ : Order) = no :=
    h2
  have hnoid : no.id = ex.nextId := (congrArg Order.id hno).symm
  have hnoacct : no.account_id = accountId := (congrArg Order.account_id hno).symm
  have hnoamt : no.amount = amount := (congrArg Order.amount hno).symm
  have hnoopen : no.open_shares = amount := (congrArg Order.open_shares hno).symm
  have hnolim : no.limit_price = limitPrice := (congrArg Order.limit_price hno).symm
  have hnocan : no.canceled_at = none := (congrArg Order.canceled_at hno).symm
  have h2a : ex2.accounts = addToBalance ex.accounts accountId (-(amount * limitPrice)) :=
    (congrArg Exchange.accounts h1).symm
  have h2o : ex2.orders = ex.orders ++ [no] := by
    have h : ex2.orders = ex.orders ++
        [(⟨ex.nextId, accountId, sym, amount, limitPrice, amount, t, none⟩ : Order)] :=
      (congrArg Exchange.orders h1).symm
    rw [hno] at h
    exact h
  have h2e : ex2.executions = ex.executions := (congrArg Exchange.executions h1).symm
  have h2sb : ex2.sellBooks = ex.sellBooks := (congrArg Exchange.sellBooks h1).symm
  have hin : getOrder ex2 no.id = some no := by
    unfold getOrder
    rw [h2o, List.find?_append]
    have hnone : List.find? (fun x => x.id == no.id) ex.orders = none := by
      rw [List.find?_eq_none]
      intro x hx
      have hlt := hids x hx
      simp only [beq_iff_eq, hnoid]
      omega
    rw [hnone]
    simp [List.find?_cons]
  have hbuyno : orderIsBuy no = true := by
    unfold orderIsBuy
    rw [hnoamt]
    exact decide_eq_true hamt
  have hsign : (if orderIsBuy no then 0 ≤ no.open_shares else no.open_shares ≤ 0) := by
    rw [hbuyno, if_pos rfl, hnoopen]
    exact le_of_lt hamt
  have hfresh : ∀ k ∈ oppositeBookOf ex2 no, ¬ k.2.2 = no.id := by
    intro k hk
    have hob : oppositeBookOf ex2 no = getBook ex.sellBooks no.symbol_name := by
      unfold oppositeBookOf bookFor
      rw [hbuyno, h2sb]
      rfl
    rw [hob] at hk
    obtain ⟨p, hp, hkp⟩ := mem_getBook hk
    have hlt := hkeys.2 p hp k hkp
    rw [hnoid]
    omega
  obtain ⟨hexeq, -⟩ := matchOrders_execs ex2 no hin hsign hfresh
  have hnil : fillExecs no.id (matchOrders ex2 no).2 = [] := by
    have h := hexec
    rw [hexeq, h2e] at h
    have hlen := congrArg List.length h
    rw [List.length_append] at hlen
    exact List.length_eq_zero.mp (by omega)
  have hnf := noFills_of_fillExecs_nil no.id (matchOrders ex2 no).2 hnil
  obtain ⟨hMacc, hMpos, hMord, hMexe⟩ := matchOrders_noFills ex2 no hnf
  have hMacc' : (matchOrders ex2 no).1.accounts =
      (updateAccountBalance ex accountId (-(amount * limitPrice))).accounts :=
    hMacc.trans h2a
  have hbalM : balanceOf (matchOrders ex2 no).1 accountId =
      some (acc.balance - amount * limitPrice) := by
    rw [balanceOf_eq_of_accounts hMacc' accountId, balanceOf_updateAccountBalance, if_pos rfl]
    simp [balanceOf, hacc, sub_eq_add_neg]
  have hoM : getOrder (matchOrders ex2 no).1 ex.nextId = some no := by
    rw [← hnoid]
    unfold getOrder
    rw [hMord]
    exact hin
  have haccM : lookupAccount (matchOrders ex2 no).1 no.account_id =
      some { acc with balance := acc.balance + -(amount * limitPrice) } := by
    rw [hnoacct]
    unfold lookupAccount
    rw [hMacc']
    have h := lookupAccount_updateAccountBalance ex accountId (-(amount * limitPrice)) accountId
    rw [if_pos rfl, hacc] at h
    exact h
  obtain ⟨hc1, -, hc3, -⟩ :=
    cancelOrder_effects (matchOrders ex2 no).1 ex.nextId accountId now no
      { acc with balance := acc.balance + -(amount * limitPrice) }
      hoM hnoacct (by rw [hnoopen]; exact ne_of_gt hamt) hnocan haccM
  obtain ⟨hcbal, -⟩ := hc3 (by rw [hnoamt]; exact hamt)
  refine ⟨hbalM, hc1, ?_⟩
  rw [hnoacct, hnoopen, hnolim] at hcbal
  rw [hcbal]
  exact congrArg some (by
    show acc.balance + -(amount * limitPrice) + |amount| * limitPrice = acc.balance
    rw [abs_of_pos hamt]
    ring)

/-- C6: a successful cancel of an open order owned by the requester,
with `q = |open_shares|` at cancel time, credits the owner's balance by
exactly `q * limit_price` when the order is a buy (positions untouched),
credits the owner's `(account, symbol)` position by exactly `q` when it
is a sell (balances untouched), and rewrites the row to
`open_shares = 0`, `canceled_at = now`; and a buy placed with sufficient
funds that records no execution, then canceled, has its balance restored
to the value before placement. -/
theorem spec_C6_cancel_effects :
    (∀ (ex : Exchange) (orderId : Nat) (req : String) (now : Nat) (o : Order) (acc : Account),
      getOrder ex orderId = some o →
      o.account_id = req →
      o.open_shares ≠ 0 →
      o.canceled_at = none →
      lookupAccount ex o.account_id = some acc →
      (cancelOrder ex orderId req now).2 = none ∧
      getOrder (cancelOrder ex orderId req now).1 orderId =
        some { o with open_shares := 0, canceled_at := some now } ∧
      (0 < o.amount →
        balanceOf (cancelOrder ex orderId req now).1 o.account_id =
          some (acc.balance + |o.open_shares| * o.limit_price) ∧
        (cancelOrder ex orderId req now).1.positions = ex.positions) ∧
      (¬ 0 < o.amount →
        (cancelOrder ex orderId req now).1.accounts = ex.accounts ∧
        posAmountOf (cancelOrder ex orderId req now).1 o.account_id o.symbol_name =
          some ((posAmountOf ex o.account_id o.symbol_name).getD 0 + |o.open_shares|))) ∧
    (∀ (ex : Exchange) (accountId sym : String) (amount limitPrice : Int)
        (t now : Nat) (acc : Account),
      lookupAccount ex accountId = some acc →
      0 < amount →
      ¬ acc.balance < amount * limitPrice →
      idsBelowNext ex →
      keysBelowNext ex →
      (placeOrder ex accountId sym amount limitPrice t).1.executions = ex.executions →
      (placeOrder ex accountId sym amount limitPrice t).2.1 = true ∧
      balanceOf (placeOrder ex accountId sym amount limitPrice t).1 accountId =
        some (acc.balance - amount * limitPrice) ∧
      (cancelOrder (placeOrder ex accountId sym amount limitPrice t).1
          ex.nextId accountId now).2 = none ∧
      balanceOf (cancelOrder (placeOrder ex accountId sym amount limitPrice t).1
          ex.nextId accountId now).1 accountId = some acc.balance) := by
  constructor
  · intro ex orderId req now o acc ho hown hopen hcan hacc
    exact cancelOrder_effects ex orderId req now o acc ho hown hopen hcan hacc
  · intro ex accountId sym amount limitPrice t now acc hacc hamt hfund hids hkeys hexec
    have hred : placeOrder ex accountId sym amount limitPrice t =
        ((matchOrders
            (createOrder { ex with accounts := addToBalance ex.accounts accountId (-(amount * limitPrice)) } accountId sym amount limitPrice t).1
            (createOrder { ex with accounts := addToBalance ex.accounts accountId (-(amount * limitPrice)) } accountId sym amount limitPrice t).2).1,
          true, none,
          some (createOrder { ex with accounts := addToBalance ex.accounts accountId (-(amount * limitPrice)) } accountId sym amount limitPrice t).2.id) := by
      unfold placeOrder
      rw [hacc]
      dsimp only
      rw [if_pos hamt]
      rw [if_neg hfund]
    rw [hred] at hexec ⊢
    dsimp only at hexec ⊢
    obtain ⟨hb, hc, hd⟩ := placeCancel_roundtrip ex
      (createOrder { ex with accounts := addToBalance ex.accounts accountId (-(amount * limitPrice)) } accountId sym amount limitPrice t).1
      (createOrder { ex with accounts := addToBalance ex.accounts accountId (-(amount * limitPrice)) } accountId sym amount limitPrice t).2
      acc accountId sym amount limitPrice t now rfl hacc hamt hids hkeys hexec
    exact ⟨rfl, hb, hc, hd⟩

theorem spec_C6_witness :
    ((cancelOrder exB1 1 "1" 9).2 = none ∧
     balanceOf (cancelOrder exB1 1 "1" 9).1 "1" = some ((95 : Int) + |(1 : Int)| * 5)) ∧
    ((placeOrder exC "1" "S" 2 10 4).2.1 = true ∧
     balanceOf (cancelOrder (placeOrder exC "1" "S" 2 10 4).1 exC.nextId "1" 9).1 "1" =
       some 100) := by
  have h1 := spec_C6_cancel_effects.1 exB1 1 "1" 9 ⟨1, "1", "S", 1, 5, 1, 3, none⟩ ⟨"1", 95⟩
    (by decide) (by decide) (by decide) (by decide) (by decide)
  have h2 := spec_C6_cancel_effects.2 exC "1" "S" 2 10 4 9 ⟨"1", 100⟩
    (by decide) (by decide) (by decide) (by decide) (by decide) (by decide)
  exact ⟨⟨h1.1, (h1.2.2.1 (by decide)).1⟩, ⟨h2.1, h2.2.2.2⟩⟩

theorem spec_C5_witness :
    (balancesNonneg exC ∧ positionsNonneg exC ∧ limitsNonneg exC ∧ (0:Int) ≤ 5 ∧
      balancesNonneg exB1 ∧ positionsNonneg exB1 ∧ limitsNonneg exB1) ∧
    (balancesNonneg (placeOrder exC "1" "S" (-2) 5 4).1 ∧
     positionsNonneg (placeOrder exC "1" "S" (-2) 5 4).1) ∧
    (balancesNonneg (cancelOrder exB1 1 "1" 9).1 ∧
     positionsNonneg (cancelOrder exB1 1 "1" 9).1) :=
  ⟨⟨by decide, by decide, by decide, by decide, by decide, by decide, by decide⟩,
   spec_C5_amended.1 exC "1" "S" (-2) 5 4 (by decide) (by decide) (by decide) (by decide),
   spec_C5_amended.2 exB1 1 "1" 9 (by decide) (by decide) (by decide)⟩

/-! ## Book membership: open orders stay booked, stale entries persist -/

theorem id_of_static_eq {a b : Order} (h : orderStatic a = orderStatic b) :
    a.id = b.id := by
  have := congrArg (fun q => q.1) h
  simpa [orderStatic] using this

theorem symbol_of_static_eq {a b : Order} (h : orderStatic a = orderStatic b) :
    a.symbol_name = b.symbol_name := by
  have := congrArg (fun q => q.2.2.1) h
  simpa [orderStatic] using this

theorem amount_of_static_eq {a b : Order} (h : orderStatic a = orderStatic b) :
    a.amount = b.amount := by
  have := congrArg (fun q => q.2.2.2.1) h
  simpa [orderStatic] using this

theorem canceled_of_static_eq {a b : Order} (h : orderStatic a = orderStatic b) :
    a.canceled_at = b.canceled_at := by
  have := congrArg (fun q => q.2.2.2.2.2.2) h
  simpa [orderStatic] using this

theorem orderIsBuy_of_static_eq {a b : Order} (h : orderStatic a = orderStatic b) :
    orderIsBuy a = orderIsBuy b := by
  unfold orderIsBuy
  rw [amount_of_static_eq h]

theorem inBook_of_static (ex ex' : Exchange) (t t' : Order)
    (hbb : ex'.buyBooks = ex.buyBooks) (hsb : ex'.sellBooks = ex.sellBooks)
    (hst : orderStatic t' = orderStatic t)
    (hib : inBook ex t) : inBook ex' t' := by
  obtain ⟨k, hk, hkt⟩ := hib
  refine ⟨k, ?_, ?_⟩
  · have hbf : bookFor ex' t'.symbol_name (orderIsBuy t') =
        bookFor ex t.symbol_name (orderIsBuy t) := by
      unfold bookFor
      rw [symbol_of_static_eq hst, orderIsBuy_of_static_eq hst, hbb, hsb]
    rw [hbf]
    exact hk
  · rw [id_of_static_eq hst]
    exact hkt

theorem mem_bookFor_removeFromOrderbook (ex : Exchange) (i : Nat) (s : String) (b : Bool)
    (s' : String) (b' : Bool) (k : BookKey) (hk : k ∈ bookFor ex s' b')
    (hne : k.2.2 ≠ i) : k ∈ bookFor (removeFromOrderbook ex i s b) s' b' := by
  rw [bookFor_removeFromOrderbook]
  split_ifs with h
  · rcases h with ⟨rfl, rfl⟩
    exact List.mem_filter.mpr ⟨hk, by simpa using hne⟩
  · exact hk

theorem mem_bookFor_foldl_remove (sym : String) (b : Bool) (l : List Nat) :
    ∀ (ex : Exchange) (s' : String) (b' : Bool) (k : BookKey),
      k ∈ bookFor ex s' b' → k.2.2 ∉ l →
      k ∈ bookFor (l.foldl (fun e oid => removeFromOrderbook e oid sym b) ex) s' b' := by
  induction l with
  | nil =>
    intro ex s' b' k hk _
    exact hk
  | cons j rest ih =>
    intro ex s' b' k hk hnl
    rw [List.foldl_cons]
    exact ih (removeFromOrderbook ex j sym b) s' b' k
      (mem_bookFor_removeFromOrderbook ex j sym b s' b' k hk
        (fun h => hnl (show k.2.2 ∈ j :: rest by rw [h]; exact List.mem_cons_self _ _)))
      (fun h => hnl (List.mem_cons_of_mem _ h))

theorem mem_bookFor_addToOrderbook (ex : Exchange) (o : Order) (s' : String) (b' : Bool)
    (k : BookKey) (hk : k ∈ bookFor ex s' b') :
    k ∈ bookFor (addToOrderbook ex o) s' b' := by
  rw [bookFor_addToOrderbook]
  by_cases h : b' = orderIsBuy o ∧ s' = o.symbol_name
  · obtain ⟨rfl, rfl⟩ := h
    rw [if_pos ⟨rfl, rfl⟩, List.mem_orderedInsert]
    exact Or.inr hk
  · rw [if_neg h]
    exact hk

theorem inBook_addToOrderbook_self (ex : Exchange) (o : Order) :
    ∃ k ∈ bookFor (addToOrderbook ex o) o.symbol_name (orderIsBuy o), k.2.2 = o.id := by
  rw [bookFor_addToOrderbook, if_pos ⟨rfl, rfl⟩]
  refine ⟨if orderIsBuy o then buyKey o else sellKey o, ?_, ?_⟩
  · rw [List.mem_orderedInsert]
    exact Or.inl rfl
  · split
    · rfl
    · rfl

theorem exec_orders_map_id (ex : Exchange) (i : Nat) (s p : Int) :
    (executeOrderPart ex i s p).1.orders.map Order.id = ex.orders.map Order.id := by
  unfold executeOrderPart
  cases h : getOrder ex i with
  | none => rfl
  | some oc =>
    dsimp only
    split
    · rfl
    · show (setOrder ex.orders _).map Order.id = _
      rw [setOrder_map_id]

theorem exec_member_static (ex : Exchange) (i : Nat) (s p : Int) :
    ∀ t ∈ (executeOrderPart ex i s p).1.orders,
      ∃ u ∈ ex.orders, orderStatic t = orderStatic u ∧
        (t.open_shares ≠ 0 → u.open_shares ≠ 0) := by
  intro t ht
  unfold executeOrderPart at ht
  cases h : getOrder ex i with
  | none =>
    rw [h] at ht
    exact ⟨t, ht, rfl, fun h' => h'⟩
  | some oc =>
    rw [h] at ht
    dsimp only at ht
    by_cases hc : min |s| |oc.open_shares| ≤ 0
    · rw [if_pos hc] at ht
      exact ⟨t, ht, rfl, fun h' => h'⟩
    · rw [if_neg hc] at ht
      dsimp only at ht
      rcases mem_setOrder ht with hmem | heq
      · exact ⟨t, hmem, rfl, fun h' => h'⟩
      · refine ⟨oc, mem_of_getOrder h, ?_, ?_⟩
        · rw [heq]
          exact orderStatic_ite_open _ _ _ _
        · intro _ h0
          refine hc ?_
          rw [h0, abs_zero]
          exact min_le_right _ _

theorem matchFill_buyBooks (ex : Exchange) (o : Order) (isBuy : Bool) (opp : Order)
    (e : Int) : (matchFill ex o isBuy opp e).buyBooks = ex.buyBooks := by
  unfold matchFill
  simp

theorem matchFill_sellBooks (ex : Exchange) (o : Order) (isBuy : Bool) (opp : Order)
    (e : Int) : (matchFill ex o isBuy opp e).sellBooks = ex.sellBooks := by
  unfold matchFill
  simp

theorem matchFill_orders_map_id (ex : Exchange) (o : Order) (isBuy : Bool) (opp : Order)
    (e : Int) :
    (matchFill ex o isBuy opp e).orders.map Order.id = ex.orders.map Order.id := by
  simp [matchFill, exec_orders_map_id]

theorem exec_openSharesOf_zero (ex : Exchange) (i : Nat) (s p : Int) (j : Nat)
    (h : openSharesOf ex j = 0) : openSharesOf (executeOrderPart ex i s p).1 j = 0 := by
  by_cases hij : j = i
  · subst hij
    cases hg : getOrder ex j with
    | none =>
      rw [executeOrderPart_none ex j s p hg]
      exact h
    | some oc =>
      have h0 : oc.open_shares = 0 := by
        unfold openSharesOf at h
        rw [hg] at h
        exact h
      rw [executeOrderPart_noop_of_zero ex j s p oc hg h0]
      exact h
  · unfold openSharesOf
    rw [getOrder_exec_ne ex i s p j hij]
    exact h

theorem matchFill_openSharesOf_zero (ex : Exchange) (o : Order) (isBuy : Bool) (opp : Order)
    (e : Int) (j : Nat) (h : openSharesOf ex j = 0) :
    openSharesOf (matchFill ex o isBuy opp e) j = 0 := by
  unfold matchFill
  dsimp only
  unfold openSharesOf
  rw [getOrder_updateAccountBalance, getOrder_updatePosition]
  have h1 := exec_openSharesOf_zero ex o.id e
    (if opp.created_at < o.created_at then opp.limit_price else o.limit_price) j h
  have h2 := exec_openSharesOf_zero
    (executeOrderPart ex o.id e
      (if opp.created_at < o.created_at then opp.limit_price else o.limit_price)).1
    opp.id e (if opp.created_at < o.created_at then opp.limit_price else o.limit_price) j h1
  unfold openSharesOf at h2
  exact h2

theorem matchFill_member_static (ex : Exchange) (o : Order) (isBuy : Bool) (opp : Order)
    (e : Int) :
    ∀ t ∈ (matchFill ex o isBuy opp e).orders,
      ∃ u ∈ ex.orders, orderStatic t = orderStatic u ∧
        (t.open_shares ≠ 0 → u.open_shares ≠ 0) := by
  intro t ht
  unfold matchFill at ht
  dsimp only at ht
  rw [updateAccountBalance_orders, updatePosition_orders] at ht
  obtain ⟨u1, hu1, hs1, ho1⟩ := exec_member_static
    (executeOrderPart ex o.id e
      (if opp.created_at < o.created_at then opp.limit_price else o.limit_price)).1
    opp.id e (if opp.created_at < o.created_at then opp.limit_price else o.limit_price) t ht
  obtain ⟨u2, hu2, hs2, ho2⟩ := exec_member_static ex o.id e
    (if opp.created_at < o.created_at then opp.limit_price else o.limit_price) u1 hu1
  exact ⟨u2, hu2, hs1.trans hs2, fun h => ho2 (ho1 h)⟩

theorem matchLoop_booked (o : Order) (isBuy : Bool) :
    ∀ (temp : List BookKey) (ex : Exchange) (r : Int) (m : List Nat),
      (∀ k ∈ temp, ¬ k.2.2 = o.id) →
      (ex.orders.map Order.id).Nodup →
      (∀ t ∈ ex.orders, t.id ≠ o.id → t.open_shares ≠ 0 → t.canceled_at = none →
        inBook ex t) →
      (∀ j ∈ m, openSharesOf ex j = 0) →
      o.id ∉ m →
      ((∀ t ∈ (matchLoop o isBuy ex temp r m).1.orders,
          t.id ≠ o.id → t.open_shares ≠ 0 → t.canceled_at = none →
          inBook (matchLoop o isBuy ex temp r m).1 t) ∧
       (∀ j ∈ (matchLoop o isBuy ex temp r m).2.2.1,
          openSharesOf (matchLoop o isBuy ex temp r m).1 j = 0) ∧
       o.id ∉ (matchLoop o isBuy ex temp r m).2.2.1 ∧
       (matchLoop o isBuy ex temp r m).1.orders.map Order.id = ex.orders.map Order.id ∧
       (∀ j, (getOrder (matchLoop o isBuy ex temp r m).1 j).map orderStatic =
          (getOrder ex j).map orderStatic)) := by
  intro temp
  induction temp with
  | nil =>
    intro ex r m _ hnd hbk hm hom
    exact ⟨hbk, hm, hom, rfl, fun j => rfl⟩
  | cons k rest ih =>
    intro ex r m htemp hnd hbk hm hom
    have hknew : ¬ k.2.2 = o.id := htemp k (List.mem_cons_self _ _)
    have htemp' : ∀ k' ∈ rest, ¬ k'.2.2 = o.id :=
      fun k' hk' => htemp k' (List.mem_cons_of_mem _ hk')
    simp only [matchLoop]
    by_cases hr : r ≤ 0
    · rw [if_pos hr]
      exact ⟨hbk, hm, hom, rfl, fun j => rfl⟩
    · rw [if_neg hr]
      cases hg : getOrder ex k.2.2 with
      | none =>
        dsimp only
        have hnd' : ((removeFromOrderbook ex k.2.2 o.symbol_name (!isBuy)).orders.map
            Order.id).Nodup := by
          rw [removeFromOrderbook_orders]
          exact hnd
        have hbk' : ∀ t ∈ (removeFromOrderbook ex k.2.2 o.symbol_name (!isBuy)).orders,
            t.id ≠ o.id → t.open_shares ≠ 0 → t.canceled_at = none →
            inBook (removeFromOrderbook ex k.2.2 o.symbol_name (!isBuy)) t := by
          intro t ht hti hto htc
          rw [removeFromOrderbook_orders] at ht
          have htk : t.id ≠ k.2.2 := by
            intro hteq
            have hnone : getOrder ex t.id = none := by
              rw [hteq]
              exact hg
            unfold getOrder at hnone
            have := List.find?_eq_none.mp hnone t ht
            simp at this
          obtain ⟨k', hk', hkt⟩ := hbk t ht hti hto htc
          exact ⟨k', mem_bookFor_removeFromOrderbook ex k.2.2 o.symbol_name (!isBuy) _ _ k'
            hk' (by rw [hkt]; exact htk), hkt⟩
        have hm' : ∀ j ∈ m,
            openSharesOf (removeFromOrderbook ex k.2.2 o.symbol_name (!isBuy)) j = 0 := by
          intro j hj
          unfold openSharesOf
          rw [getOrder_removeFromOrderbook]
          exact hm j hj
        obtain ⟨A, B, C, D, E⟩ := ih (removeFromOrderbook ex k.2.2 o.symbol_name (!isBuy))
          r m htemp' hnd' hbk' hm' hom
        refine ⟨A, B, C, ?_, fun j => (E j).trans ?_⟩
        · rw [D, removeFromOrderbook_orders]
        · rw [getOrder_removeFromOrderbook]
      | some opp =>
        dsimp only
        have hoppid : opp.id = k.2.2 := id_of_getOrder hg
        by_cases hterm : opp.open_shares = 0 ∨ opp.canceled_at ≠ none
        · rw [if_pos hterm]
          have hnd' : ((removeFromOrderbook ex k.2.2 o.symbol_name (!isBuy)).orders.map
              Order.id).Nodup := by
            rw [removeFromOrderbook_orders]
            exact hnd
          have hbk' : ∀ t ∈ (removeFromOrderbook ex k.2.2 o.symbol_name (!isBuy)).orders,
              t.id ≠ o.id → t.open_shares ≠ 0 → t.canceled_at = none →
              inBook (removeFromOrderbook ex k.2.2 o.symbol_name (!isBuy)) t := by
            intro t ht hti hto htc
            rw [removeFromOrderbook_orders] at ht
            have htk : t.id ≠ k.2.2 := by
              intro hteq
              have hsome : getOrder ex t.id = some t := getOrder_of_mem hnd ht
              rw [hteq, hg] at hsome
              injection hsome with hsome
              rw [hsome] at hterm
              rcases hterm with h0 | hcc
              · exact hto h0
              · exact hcc htc
            obtain ⟨k', hk', hkt⟩ := hbk t ht hti hto htc
            exact ⟨k', mem_bookFor_removeFromOrderbook ex k.2.2 o.symbol_name (!isBuy) _ _ k'
              hk' (by rw [hkt]; exact htk), hkt⟩
          have hm' : ∀ j ∈ m,
              openSharesOf (removeFromOrderbook ex k.2.2 o.symbol_name (!isBuy)) j = 0 := by
            intro j hj
            unfold openSharesOf
            rw [getOrder_removeFromOrderbook]
            exact hm j hj
          obtain ⟨A, B, C, D, E⟩ := ih (removeFromOrderbook ex k.2.2 o.symbol_name (!isBuy))
            r m htemp' hnd' hbk' hm' hom
          refine ⟨A, B, C, ?_, fun j => (E j).trans ?_⟩
          · rw [D, removeFromOrderbook_orders]
          · rw [getOrder_removeFromOrderbook]
        · rw [if_neg hterm]
          by_cases hcomp : ¬ priceCompatible isBuy o.limit_price opp.limit_price = true
          · rw [if_pos hcomp]
            exact ⟨hbk, hm, hom, rfl, fun j => rfl⟩
          · rw [if_neg hcomp]
            by_cases hex : min r |opp.open_shares| ≤ 0
            · rw [if_pos hex]
              dsimp only
              exact ih ex r m htemp' hnd hbk hm hom
            · rw [if_neg hex]
              dsimp only
              have hnd4 : ((matchFill ex o isBuy opp (min r |opp.open_shares|)).orders.map
                  Order.id).Nodup := by
                rw [matchFill_orders_map_id]
                exact hnd
              have hbk4 : ∀ t ∈ (matchFill ex o isBuy opp (min r |opp.open_shares|)).orders,
                  t.id ≠ o.id → t.open_shares ≠ 0 → t.canceled_at = none →
                  inBook (matchFill ex o isBuy opp (min r |opp.open_shares|)) t := by
                intro t ht hti hto htc
                obtain ⟨u, hu, hst, hop⟩ := matchFill_member_static ex o isBuy opp
                  (min r |opp.open_shares|) t ht
                have hib := hbk u hu (by rw [← id_of_static_eq hst]; exact hti)
                  (hop hto) (by rw [← canceled_of_static_eq hst]; exact htc)
                exact inBook_of_static ex (matchFill ex o isBuy opp (min r |opp.open_shares|))
                  u t (matchFill_buyBooks _ _ _ _ _) (matchFill_sellBooks _ _ _ _ _) hst hib
              have hm4 : ∀ j ∈ (if openSharesOf (matchFill ex o isBuy opp
                    (min r |opp.open_shares|)) opp.id = 0 then m ++ [opp.id] else m),
                  openSharesOf (matchFill ex o isBuy opp (min r |opp.open_shares|)) j = 0 := by
                intro j hj
                split at hj
                · rcases List.mem_append.mp hj with hjm | hjo
                  · exact matchFill_openSharesOf_zero ex o isBuy opp _ j (hm j hjm)
                  · rw [List.mem_singleton.mp hjo]
                    assumption
                · exact matchFill_openSharesOf_zero ex o isBuy opp _ j (hm j hj)
              have hom4 : o.id ∉ (if openSharesOf (matchFill ex o isBuy opp
                  (min r |opp.open_shares|)) opp.id = 0 then m ++ [opp.id] else m) := by
                split
                · intro hmem
                  rcases List.mem_append.mp hmem with hjm | hjo
                  · exact hom hjm
                  · exact hknew (by rw [← hoppid]; exact (List.mem_singleton.mp hjo).symm)
                · exact hom
              obtain ⟨A, B, C, D, E⟩ := ih (matchFill ex o isBuy opp (min r |opp.open_shares|))
                (r - min r |opp.open_shares|) _ htemp' hnd4 hbk4 hm4 hom4
              refine ⟨A, B, C, ?_, fun j => (E j).trans ?_⟩
              · rw [D, matchFill_orders_map_id]
              · exact matchFill_static ex o isBuy opp (min r |opp.open_shares|) j

theorem matchOrders_booked (ex : Exchange) (o : Order)
    (hnd : ordersNodup ex)
    (hbk : ∀ t ∈ ex.orders, t.id ≠ o.id → t.open_shares ≠ 0 → t.canceled_at = none →
      inBook ex t)
    (hstat : (getOrder ex o.id).map orderStatic = some (orderStatic o))
    (hfresh : ∀ k ∈ oppositeBookOf ex o, ¬ k.2.2 = o.id) :
    openOrdersBooked (matchOrders ex o).1 := by
  unfold matchOrders
  dsimp only
  by_cases hb : (oppositeBookOf ex o).isEmpty
  · rw [if_pos hb]
    intro t ht hto htc
    rw [addToOrderbook_orders] at ht
    by_cases hti : t.id = o.id
    · have hsome : getOrder ex t.id = some t := getOrder_of_mem hnd ht
      rw [hti] at hsome
      rw [hsome] at hstat
      have hst : orderStatic t = orderStatic o := by simpa using hstat
      obtain ⟨kk, hkk, hkid⟩ := inBook_addToOrderbook_self ex o
      refine ⟨kk, ?_, ?_⟩
      · have hbf : bookFor (addToOrderbook ex o) t.symbol_name (orderIsBuy t) =
            bookFor (addToOrderbook ex o) o.symbol_name (orderIsBuy o) := by
          rw [symbol_of_static_eq hst, orderIsBuy_of_static_eq hst]
        rw [hbf]
        exact hkk
      · rw [hkid, hti]
    · obtain ⟨k', hk', hkt⟩ := hbk t ht hti hto htc
      exact ⟨k', mem_bookFor_addToOrderbook ex o _ _ k' hk', hkt⟩
  · rw [if_neg hb]
    dsimp only
    obtain ⟨A, B, C, D, E⟩ := matchLoop_booked o (orderIsBuy o) (oppositeBookOf ex o) ex
      |o.open_shares| [] hfresh hnd hbk (fun j hj => absurd hj (List.not_mem_nil j))
      (List.not_mem_nil o.id)
    set L := matchLoop o (orderIsBuy o) ex (oppositeBookOf ex o) |o.open_shares| [] with hL
    set F := L.2.2.1.foldl
      (fun e oid => removeFromOrderbook e oid o.symbol_name (!orderIsBuy o)) L.1 with hF
    have hFo : F.orders = L.1.orders :=
      (foldl_remove_components o.symbol_name (!orderIsBuy o) L.2.2.1 L.1).2.2.1
    have hLnd : (L.1.orders.map Order.id).Nodup := by
      rw [D]
      exact hnd
    intro t ht hto htc
    by_cases hc : openSharesOf F o.id ≠ 0
    · rw [if_pos hc] at ht ⊢
      rw [addToOrderbook_orders, hFo] at ht
      by_cases hti : t.id = o.id
      · have hsome : getOrder L.1 t.id = some t := getOrder_of_mem hLnd ht
        have hst : orderStatic t = orderStatic o := by
          have hE := E t.id
          rw [hsome, hti, hstat] at hE
          simpa using hE
        obtain ⟨kk, hkk, hkid⟩ := inBook_addToOrderbook_self F o
        refine ⟨kk, ?_, ?_⟩
        · have hbf : bookFor (addToOrderbook F o) t.symbol_name (orderIsBuy t) =
              bookFor (addToOrderbook F o) o.symbol_name (orderIsBuy o) := by
            rw [symbol_of_static_eq hst, orderIsBuy_of_static_eq hst]
          rw [hbf]
          exact hkk
        · rw [hkid, hti]
      · have htm : t.id ∉ L.2.2.1 := by
          intro hmem
          have hz := B t.id hmem
          have hsome : getOrder L.1 t.id = some t := getOrder_of_mem hLnd ht
          unfold openSharesOf at hz
          rw [hsome] at hz
          exact hto hz
        obtain ⟨k', hk', hkt⟩ := A t ht hti hto htc
        refine ⟨k', ?_, hkt⟩
        have hkF : k' ∈ bookFor F t.symbol_name (orderIsBuy t) := by
          rw [hF]
          exact mem_bookFor_foldl_remove o.symbol_name (!orderIsBuy o) L.2.2.1 L.1 _ _ k' hk'
            (by rw [hkt]; exact htm)
        exact mem_bookFor_addToOrderbook F o _ _ k' hkF
    · rw [if_neg hc] at ht ⊢
      rw [hFo] at ht
      by_cases hti : t.id = o.id
      · exfalso
        have hsome : getOrder L.1 t.id = some t := getOrder_of_mem hLnd ht
        have hgF : getOrder F o.id = some t := by
          unfold getOrder
          rw [hFo, ← hti]
          exact hsome
        have hFt : openSharesOf F o.id = t.open_shares := by
          unfold openSharesOf
          rw [hgF]
        have h0 : t.open_shares = 0 := by
          rw [← hFt]
          exact not_not.mp hc
        exact hto h0
      · have htm : t.id ∉ L.2.2.1 := by
          intro hmem
          have hz := B t.id hmem
          have hsome : getOrder L.1 t.id = some t := getOrder_of_mem hLnd ht
          unfold openSharesOf at hz
          rw [hsome] at hz
          exact hto hz
        obtain ⟨k', hk', hkt⟩ := A t ht hti hto htc
        refine ⟨k', ?_, hkt⟩
        rw [hF]
        exact mem_bookFor_foldl_remove o.symbol_name (!orderIsBuy o) L.2.2.1 L.1 _ _ k' hk'
          (by rw [hkt]; exact htm)

theorem getOrder_append_fresh (l : List Order) (no : Order)
    (h : ∀ x ∈ l, x.id ≠ no.id) :
    (l ++ [no]).find? (fun x => x.id == no.id) = some no := by
  rw [List.find?_append]
  have hnone : l.find? (fun x => x.id == no.id) = none := by
    rw [List.find?_eq_none]
    intro x hx
    simpa using h x hx
  rw [hnone]
  simp [List.find?_cons]

theorem keysBelowNext_bookFor {ex : Exchange} (hkeys : keysBelowNext ex) (s : String)
    (b : Bool) : ∀ k ∈ bookFor ex s b, k.2.2 < ex.nextId := by
  intro k hk
  unfold bookFor at hk
  by_cases hb : b = true
  · rw [if_pos hb] at hk
    obtain ⟨p, hp, hkp⟩ := mem_getBook hk
    exact hkeys.1 p hp k hkp
  · rw [if_neg hb] at hk
    obtain ⟨p, hp, hkp⟩ := mem_getBook hk
    exact hkeys.2 p hp k hkp

theorem createMatch_booked (ex E : Exchange) (accountId sym : String)
    (amount limitPrice : Int) (t : Nat)
    (hEo : E.orders = ex.orders) (hEn : E.nextId = ex.nextId)
    (hEb : E.buyBooks = ex.buyBooks) (hEs : E.sellBooks = ex.sellBooks)
    (hnd : ordersNodup ex) (hids : idsBelowNext ex) (hkeys : keysBelowNext ex)
    (hb : openOrdersBooked ex) :
    openOrdersBooked (matchOrders (createOrder E accountId sym amount limitPrice t).1
      (createOrder E accountId sym amount limitPrice t).2).1 := by
  have hno_id : (createOrder E accountId sym amount limitPrice t).2.id = ex.nextId := by
    show E.nextId = ex.nextId
    exact hEn
  have hp1o : (createOrder E accountId sym amount limitPrice t).1.orders =
      ex.orders ++ [(createOrder E accountId sym amount limitPrice t).2] := by
    show E.orders ++ [(createOrder E accountId sym amount limitPrice t).2] = _
    rw [hEo]
  have hp1b : (createOrder E accountId sym amount limitPrice t).1.buyBooks = ex.buyBooks := by
    show E.buyBooks = ex.buyBooks
    exact hEb
  have hp1s : (createOrder E accountId sym amount limitPrice t).1.sellBooks = ex.sellBooks := by
    show E.sellBooks = ex.sellBooks
    exact hEs
  have hgo : getOrder (createOrder E accountId sym amount limitPrice t).1
      (createOrder E accountId sym amount limitPrice t).2.id =
      some (createOrder E accountId sym amount limitPrice t).2 := by
    unfold getOrder
    rw [hp1o]
    exact getOrder_append_fresh ex.orders _ (fun x hx => by
      have hlt := hids x hx
      have hxn : ¬ x.id = ex.nextId := by omega
      show ¬ x.id = (createOrder E accountId sym amount limitPrice t).2.id
      rw [hno_id]
      exact hxn)
  have hstat : (getOrder (createOrder E accountId sym amount limitPrice t).1
      (createOrder E accountId sym amount limitPrice t).2.id).map orderStatic =
      some (orderStatic (createOrder E accountId sym amount limitPrice t).2) := by
    rw [hgo]
    rfl
  have hnd2 : ordersNodup (createOrder E accountId sym amount limitPrice t).1 := by
    show ((createOrder E accountId sym amount limitPrice t).1.orders.map Order.id).Nodup
    rw [hp1o, List.map_append]
    refine List.Nodup.append hnd (List.nodup_singleton _) ?_
    intro a ha hb'
    obtain ⟨x, hx, hxid⟩ := List.mem_map.mp ha
    have hlt : a < ex.nextId := by
      rw [← hxid]
      exact hids x hx
    have h' : a = (createOrder E accountId sym amount limitPrice t).2.id := by
      simpa using hb'
    rw [hno_id] at h'
    omega
  have hbk2 : ∀ u ∈ (createOrder E accountId sym amount limitPrice t).1.orders,
      u.id ≠ (createOrder E accountId sym amount limitPrice t).2.id →
      u.open_shares ≠ 0 → u.canceled_at = none →
      inBook (createOrder E accountId sym amount limitPrice t).1 u := by
    intro u hu hui huo huc
    rw [hp1o] at hu
    rcases List.mem_append.mp hu with hmem | hone
    · exact inBook_of_static ex _ u u hp1b hp1s rfl (hb u hmem huo huc)
    · exact absurd (by rw [List.mem_singleton.mp hone]) hui
  have hfresh2 : ∀ k ∈ oppositeBookOf (createOrder E accountId sym amount limitPrice t).1
      (createOrder E accountId sym amount limitPrice t).2,
      ¬ k.2.2 = (createOrder E accountId sym amount limitPrice t).2.id := by
    intro k hk
    have hbf : oppositeBookOf (createOrder E accountId sym amount limitPrice t).1
        (createOrder E accountId sym amount limitPrice t).2 =
        bookFor ex sym (!orderIsBuy (createOrder E accountId sym amount limitPrice t).2) := by
      unfold oppositeBookOf bookFor
      cases hcase : (!orderIsBuy (createOrder E accountId sym amount limitPrice t).2) with
      | true =>
        rw [if_pos rfl, if_pos rfl, hp1b]
        rfl
      | false =>
        rw [if_neg (by simp), if_neg (by simp), hp1s]
        rfl
    rw [hbf] at hk
    have hlt := keysBelowNext_bookFor hkeys sym
      (!orderIsBuy (createOrder E accountId sym amount limitPrice t).2) k hk
    rw [hno_id]
    omega
  exact matchOrders_booked (createOrder E accountId sym amount limitPrice t).1
    (createOrder E accountId sym amount limitPrice t).2 hnd2 hbk2 hstat hfresh2

theorem placeOrder_booked (ex : Exchange) (accountId sym : String)
    (amount limitPrice : Int) (t : Nat)
    (hnd : ordersNodup ex) (hids : idsBelowNext ex) (hkeys : keysBelowNext ex)
    (hb : openOrdersBooked ex) :
    openOrdersBooked (placeOrder ex accountId sym amount limitPrice t).1 := by
  unfold placeOrder
  cases ha : lookupAccount ex accountId with
  | none => exact hb
  | some account =>
    dsimp only
    by_cases hpos : 0 < amount
    · rw [if_pos hpos]
      by_cases hfund : account.balance < amount * limitPrice
      · rw [if_pos hfund]
        exact hb
      · rw [if_neg hfund]
        dsimp only
        exact createMatch_booked ex
          { ex with accounts := addToBalance ex.accounts accountId (-(amount * limitPrice)) }
          accountId sym amount limitPrice t rfl rfl rfl rfl hnd hids hkeys hb
    · rw [if_neg hpos]
      cases hposi : lookupPosition ex accountId sym with
      | none => exact hb
      | some position =>
        dsimp only
        by_cases hsh : position.amount < |amount|
        · rw [if_pos hsh]
          exact hb
        · rw [if_neg hsh]
          dsimp only
          exact createMatch_booked ex
            { ex with positions := addToPosition ex.positions accountId sym amount }
            accountId sym amount limitPrice t rfl rfl rfl rfl hnd hids hkeys hb

theorem cancelOrder_books (ex : Exchange) (orderId : Nat) (req : String) (now : Nat) :
    (cancelOrder ex orderId req now).1.buyBooks = ex.buyBooks ∧
    (cancelOrder ex orderId req now).1.sellBooks = ex.sellBooks := by
  unfold cancelOrder
  cases ho : getOrder ex orderId with
  | none => exact ⟨rfl, rfl⟩
  | some o =>
    dsimp only
    by_cases h1 : o.account_id ≠ req
    · rw [if_pos h1]
      exact ⟨rfl, rfl⟩
    · rw [if_neg h1]
      by_cases h2 : o.open_shares = 0
      · rw [if_pos h2]
        exact ⟨rfl, rfl⟩
      · rw [if_neg h2]
        by_cases h3 : o.canceled_at ≠ none
        · rw [if_pos h3]
          exact ⟨rfl, rfl⟩
        · rw [if_neg h3]
          cases ha : lookupAccount ex o.account_id with
          | none => exact ⟨rfl, rfl⟩
          | some acc =>
            dsimp only
            by_cases hbuy : 0 < o.amount
            · rw [if_pos hbuy]
              exact ⟨rfl, rfl⟩
            · rw [if_neg hbuy]
              exact ⟨updatePosition_buyBooks ex o.account_id o.symbol_name |o.open_shares|,
                updatePosition_sellBooks ex o.account_id o.symbol_name |o.open_shares|⟩

theorem cancelOrder_booked (ex : Exchange) (orderId : Nat) (req : String) (now : Nat)
    (hb : openOrdersBooked ex) : openOrdersBooked (cancelOrder ex orderId req now).1 := by
  unfold cancelOrder
  cases ho : getOrder ex orderId with
  | none => exact hb
  | some o =>
    dsimp only
    by_cases h1 : o.account_id ≠ req
    · rw [if_pos h1]
      exact hb
    · rw [if_neg h1]
      by_cases h2 : o.open_shares = 0
      · rw [if_pos h2]
        exact hb
      · rw [if_neg h2]
        by_cases h3 : o.canceled_at ≠ none
        · rw [if_pos h3]
          exact hb
        · rw [if_neg h3]
          cases ha : lookupAccount ex o.account_id with
          | none => exact hb
          | some acc =>
            dsimp only
            by_cases hbuy : 0 < o.amount
            · rw [if_pos hbuy]
              intro t ht hto htc
              rcases mem_setOrder ht with hmem | heq
              · exact inBook_of_static ex _ t t rfl rfl rfl (hb t hmem hto htc)
              · rw [heq] at htc
                exact absurd htc (by simp)
            · rw [if_neg hbuy]
              intro t ht hto htc
              rcases mem_setOrder ht with hmem | heq
              · have hmem' : t ∈ ex.orders := by
                  rw [← updatePosition_orders ex o.account_id o.symbol_name |o.open_shares|]
                  exact hmem
                exact inBook_of_static ex _ t t
                  (updatePosition_buyBooks ex o.account_id o.symbol_name |o.open_shares|)
                  (updatePosition_sellBooks ex o.account_id o.symbol_name |o.open_shares|)
                  rfl (hb t hmem' hto htc)
              · rw [heq] at htc
                exact absurd htc (by simp)

/-- C7 counterexample: the cancel of order 1 succeeds and leaves the row
terminal (`open_shares = 0`, `canceled_at = 9`), yet the buy book still
holds the order's entry, so the claimed in-book iff
open-and-uncanceled equivalence fails and the cancel did not remove the
entry from the order book. -/
theorem spec_C7_counterexample :
    (cancelOrder exB1 1 "1" 9).2 = none ∧
    getOrder exB2 1 = some ⟨1, "1", "S", 1, 5, 0, 3, some 9⟩ ∧
    getBook exB2.buyBooks "S" = [(-5, 3, 1)] ∧
    inBook exB2 ⟨1, "1", "S", 1, 5, 0, 3, some 9⟩ := by decide

/-- C7 (amended): the cancel operation never touches the in-memory order
books — stale entries are removed only lazily by later matching — so
only one direction of the claimed equivalence is an invariant: every
order with nonzero `open_shares` and no `canceled_at` has a book entry,
and that property is preserved by every cancel and (given well-formed
ids) by every order placement with its matching. -/
theorem spec_C7_amended :
    (∀ (ex : Exchange) (orderId : Nat) (req : String) (now : Nat),
      (cancelOrder ex orderId req now).1.buyBooks = ex.buyBooks ∧
      (cancelOrder ex orderId req now).1.sellBooks = ex.sellBooks) ∧
    (∀ (ex : Exchange) (orderId : Nat) (req : String) (now : Nat),
      openOrdersBooked ex → openOrdersBooked (cancelOrder ex orderId req now).1) ∧
    (∀ (ex : Exchange) (accountId sym : String) (amount limitPrice : Int) (t : Nat),
      ordersNodup ex → idsBelowNext ex → keysBelowNext ex → openOrdersBooked ex →
      openOrdersBooked (placeOrder ex accountId sym amount limitPrice t).1) :=
  ⟨fun ex orderId req now => cancelOrder_books ex orderId req now,
   fun ex orderId req now hb => cancelOrder_booked ex orderId req now hb,
   fun ex accountId sym amount limitPrice t hnd hids hkeys hb =>
     placeOrder_booked ex accountId sym amount limitPrice t hnd hids hkeys hb⟩

theorem spec_C7_witness :
    (openOrdersBooked exB1 ∧ ordersNodup exC ∧ idsBelowNext exC ∧ keysBelowNext exC ∧
      openOrdersBooked exC) ∧
    ((cancelOrder exB1 1 "1" 9).1.buyBooks = exB1.buyBooks ∧
     (cancelOrder exB1 1 "1" 9).1.sellBooks = exB1.sellBooks) ∧
    openOrdersBooked (cancelOrder exB1 1 "1" 9).1 ∧
    openOrdersBooked (placeOrder exC "1" "S" 2 10 4).1 :=
  ⟨⟨by decide, by decide, by decide, by decide, by decide⟩,
   spec_C7_amended.1 exB1 1 "1" 9,
   spec_C7_amended.2.1 exB1 1 "1" 9 (by decide),
   spec_C7_amended.2.2 exC "1" "S" 2 10 4 (by decide) (by decide) (by decide) (by decide)⟩

end StockExchange
